import Mathlib

/-!
SuperChain: a scanner for field-shadowing collisions in Android packages.

A shallow embedding of the C++ sources (`types.h`, `dex.h`, `main.cpp`) and
theorems about it.

Conventions of the embedding

* A buffer is a `List Nat`; a memory cell is read through `byteAt`, which
  reduces the cell modulo 256 (the C++ type `u1`) and reads 0 outside the list
  (an out-of-bounds read is undefined in C++).
* `u2`/`u4` values are naturals, reduced modulo `2^16`/`2^32` where the C++
  arithmetic wraps or narrows; `size_t` arithmetic is 64 bit and does not wrap
  on the values it meets here.
* A `const char *` into a buffer is an offset into that buffer; the text it
  points at is `cString buffer offset`.
* A pointer to a class definition is a `ClassRef`: the index of the file in
  `mDexVec` and the index of the definition in that file's table.
* `std::sort` and `strcmp` are library code.  `std::sort` is a parameter `srt`
  of the embedding, constrained by `StdSortSpec`; `insertionSortFields` is one
  function that meets it.
* The local `cur` of `readAsULEB128` is read before it is written when the
  buffer is exhausted; the parameter `junk` is the value it holds then.
* Recursion that the C++ code does not bound (`resolveClass`) takes a `fuel`
  argument and returns `none` when it runs out.
-/

namespace SuperChain

/-! ## types.h -/

/-- The byte stored at index `i` of a buffer (cells outside the list read as 0). -/
def byteAt (buff : List Nat) (i : Nat) : Nat := buff.getD i 0 % 256

/-- A little-endian `u2` stored at offset `off`. -/
def u2At (buff : List Nat) (off : Nat) : Nat :=
  byteAt buff off + 256 * byteAt buff (off + 1)

/-- A little-endian `u4` stored at offset `off`. -/
def u4At (buff : List Nat) (off : Nat) : Nat :=
  byteAt buff off + 256 * byteAt buff (off + 1) + 65536 * byteAt buff (off + 2)
    + 16777216 * byteAt buff (off + 3)

/-- The class `BytesInput`: a borrowed buffer, its length and a read cursor. -/
structure BytesInput where
  mBuff : List Nat
  mLength : Nat
  mCursor : Nat
  deriving DecidableEq, Repr

namespace BytesInput

/-- The constructor `BytesInput(buff, buffLength)`: the cursor starts at 0. -/
def create (buff : List Nat) (buffLength : Nat) : BytesInput :=
  { mBuff := buff, mLength := buffLength, mCursor := 0 }

/-- The method `where()`. -/
def «where» (inp : BytesInput) : Nat := inp.mCursor

/-- The method `seek(off)`: `mCursor = std::min(off, mLength)`. -/
def seek (inp : BytesInput) (off : Nat) : BytesInput :=
  { inp with mCursor := min off inp.mLength }

/-- The method `eof()`. -/
def eof (inp : BytesInput) : Bool := decide (inp.mCursor ≥ inp.mLength)

/-- The method `write(buff, size)`: copies `consumed = min(mLength - mCursor, size)`
bytes from the cursor into the destination `dst` (given by its previous
contents), advances the cursor and returns `consumed`.  The result is the new
cursor state, the new contents of the destination and the returned count. -/
def write (inp : BytesInput) (dst : List Nat) (size : Nat) : BytesInput × List Nat × Nat :=
  let consumed := min (inp.mLength - inp.mCursor) size
  let copied := (List.range consumed).map (fun k => byteAt inp.mBuff (inp.mCursor + k))
  ({ inp with mCursor := inp.mCursor + consumed }, copied ++ dst.drop consumed, consumed)

/-- The operator `>>` at type `u1`: `write(&value, 1)`; `cur` is the value the
variable held before the call, which it keeps when nothing is consumed. -/
def readU1 (inp : BytesInput) (cur : Nat) : BytesInput × Nat :=
  let r := inp.write [cur] 1
  (r.1, r.2.1.headD cur)

end BytesInput

/-! ## main.cpp: the class-data decoder -/

/-- The struct `DexField`. -/
structure DexField where
  fieldIdx : Nat
  accessFlags : Nat
  deriving DecidableEq, Repr

/-- The `do ... while` loop of `readAsULEB128`.  `result`, `count` and `cur` are
the locals on entry to the body; the loop runs while the byte read has its high
bit set and `count < 5`, so five rounds of `fuel` always suffice. -/
def readAsULEB128Loop : Nat → BytesInput → Nat → Nat → Nat → BytesInput × Nat
  | 0, inp, result, _, _ => (inp, result)
  | fuel + 1, inp, result, count, cur =>
    let r := inp.readU1 cur
    let cur1 := r.2
    let result1 := (result ||| (((cur1 &&& 0x7f) <<< (count * 7)) % 2 ^ 32)) % 2 ^ 32
    let count1 := count + 1
    if (cur1 &&& 0x80) = 128 ∧ count1 < 5 then
      readAsULEB128Loop fuel r.1 result1 count1 cur1
    else (r.1, result1)

/-- The function `DexClassData::readAsULEB128`.  The local `cur` is declared
without an initialiser; `junk` is the value it holds before the first read. -/
def readAsULEB128 (inp : BytesInput) (junk : Nat) : BytesInput × Nat :=
  readAsULEB128Loop 5 inp 0 0 junk

/-- The static-field loop of `DexClassData::readFrom`: each of the `n` rounds
reads two values and drops them. -/
def skipStaticFields (junk : Nat) : Nat → BytesInput → BytesInput
  | 0, inp => inp
  | n + 1, inp =>
    let r1 := readAsULEB128 inp junk
    let r2 := readAsULEB128 r1.1 junk
    skipStaticFields junk n r2.1

/-- The direct-method and virtual-method loops of `DexClassData::readFrom`: each
of the `n` rounds reads three values and drops them. -/
def skipMethods (junk : Nat) : Nat → BytesInput → BytesInput
  | 0, inp => inp
  | n + 1, inp =>
    let r1 := readAsULEB128 inp junk
    let r2 := readAsULEB128 r1.1 junk
    let r3 := readAsULEB128 r2.1 junk
    skipMethods junk n r3.1

/-- The instance-field loop of `DexClassData::readFrom`: `todo` rounds remain,
`off` is the running field index and `acc` the entries stored so far. -/
def readInstanceFields (junk : Nat) :
    Nat → BytesInput → Nat → List DexField → BytesInput × List DexField
  | 0, inp, _, acc => (inp, acc)
  | todo + 1, inp, off, acc =>
    let r1 := readAsULEB128 inp junk
    let fieldIdx := r1.2
    let r2 := readAsULEB128 r1.1 junk
    let accessFlag := r2.2
    readInstanceFields junk todo r2.1 ((off + fieldIdx) % 2 ^ 32)
      (acc ++ [{ fieldIdx := (off + fieldIdx) % 2 ^ 32, accessFlags := accessFlag }])

/-- The struct `DexClassData` after `readFrom`, together with the return value
of `readFrom` and the cursor it leaves behind. -/
structure DexClassData where
  staticFieldsSize : Nat
  instanceFieldsSize : Nat
  directMethodsSize : Nat
  virtualMethodsSize : Nat
  instanceFields : List DexField
  deriving DecidableEq, Repr

/-- The function `DexClassData::readFrom`: returns the status (always 0), the
decoded object and the cursor after the call. -/
def DexClassData.readFrom (inp : BytesInput) (junk : Nat) : Int × DexClassData × BytesInput :=
  let r1 := readAsULEB128 inp junk
  let r2 := readAsULEB128 r1.1 junk
  let r3 := readAsULEB128 r2.1 junk
  let r4 := readAsULEB128 r3.1 junk
  let staticFieldsSize := r1.2
  let instanceFieldsSize := r2.2
  let directMethodsSize := r3.2
  let virtualMethodsSize := r4.2
  let s1 := skipStaticFields junk staticFieldsSize r4.1
  let fi := readInstanceFields junk instanceFieldsSize s1 0 []
  let s2 := skipMethods junk directMethodsSize fi.1
  let s3 := skipMethods junk virtualMethodsSize s2
  (0, { staticFieldsSize := staticFieldsSize
        instanceFieldsSize := instanceFieldsSize
        directMethodsSize := directMethodsSize
        virtualMethodsSize := virtualMethodsSize
        instanceFields := fi.2 }, s3)

/-! ## dex.h -/

/-- The struct `DexHeader` (112 bytes). -/
structure DexHeader where
  magic : List Nat
  version : List Nat
  checksum : Nat
  signature : List Nat
  fileSize : Nat
  headerSize : Nat
  endianTag : Nat
  linkSize : Nat
  linkOff : Nat
  mapOff : Nat
  stringIdsSize : Nat
  stringIdsOff : Nat
  typeIdsSize : Nat
  typeIdsOff : Nat
  protoIdsSize : Nat
  protoIdsOff : Nat
  fieldIdsSize : Nat
  fieldIdsOff : Nat
  methodIdsSize : Nat
  methodIdsOff : Nat
  classDefsSize : Nat
  classDefsOff : Nat
  dataSize : Nat
  dataOff : Nat
  deriving DecidableEq, Repr

/-- The constant `DexHeader::MAGIC`, the text `dex\n`. -/
def DexHeader.MAGIC : List Nat := [0x64, 0x65, 0x78, 0x0a]

/-- The size of the struct `DexHeader`. -/
def DexHeader.sizeOf : Nat := 112

/-- The header fields held by the 112 bytes `raw` of a `DexHeader` object
(little-endian host, no padding: every field is naturally aligned). -/
def DexHeader.ofBytes (raw : List Nat) : DexHeader :=
  { magic := (List.range 4).map (fun k => byteAt raw k)
    version := (List.range 4).map (fun k => byteAt raw (4 + k))
    checksum := u4At raw 8
    signature := (List.range 20).map (fun k => byteAt raw (12 + k))
    fileSize := u4At raw 32
    headerSize := u4At raw 36
    endianTag := u4At raw 40
    linkSize := u4At raw 44
    linkOff := u4At raw 48
    mapOff := u4At raw 52
    stringIdsSize := u4At raw 56
    stringIdsOff := u4At raw 60
    typeIdsSize := u4At raw 64
    typeIdsOff := u4At raw 68
    protoIdsSize := u4At raw 72
    protoIdsOff := u4At raw 76
    fieldIdsSize := u4At raw 80
    fieldIdsOff := u4At raw 84
    methodIdsSize := u4At raw 88
    methodIdsOff := u4At raw 92
    classDefsSize := u4At raw 96
    classDefsOff := u4At raw 100
    dataSize := u4At raw 104
    dataOff := u4At raw 108 }

/-- The struct `DexFieldId` (8 bytes). -/
structure DexFieldId where
  classIdx : Nat
  typeIdx : Nat
  nameIdx : Nat
  deriving DecidableEq, Repr

/-- The struct `DexClassDef` (32 bytes). -/
structure DexClassDef where
  classIdx : Nat
  accessFlags : Nat
  superclassIdx : Nat
  interfacesOff : Nat
  sourceFileIdx : Nat
  annotationsOff : Nat
  classDataOff : Nat
  staticValuesOff : Nat
  deriving DecidableEq, Repr

/-! ## main.cpp: the bytecode file -/

/-- The text a `const char *` at offset `off` of `data` points at: the bytes up
to the terminating NUL (or to the end of the buffer). -/
def cString (data : List Nat) (off : Nat) : List Nat :=
  ((data.drop off).map (fun b => b % 256)).takeWhile (fun b => b ≠ 0)

/-- The struct `DexFile`.  The table pointers `stringPool`, `typePool`, `classes`
and `fields` are offsets into `data`; `nameToClassMap` lists the entries of the
`std::unordered_map`, the most recent assignment first, its values `&classes[i]`
being the indices `i`. -/
structure DexFile where
  header : DexHeader
  stringPool : Nat
  typePool : Nat
  classes : Nat
  fields : Nat
  data : List Nat
  dataCapacity : Nat
  tag : String
  nameToClassMap : List (List Nat × Nat)
  deriving DecidableEq, Repr

namespace DexFile

/-- A value-initialised object, as declared by `DexFile dexFile {}`. -/
def empty : DexFile :=
  { header := DexHeader.ofBytes (List.replicate DexHeader.sizeOf 0)
    stringPool := 0, typePool := 0, classes := 0, fields := 0
    data := [], dataCapacity := 0, tag := "", nameToClassMap := [] }

/-- The element `stringPool[index].stringDataOff`. -/
def stringDataOff (dex : DexFile) (index : Nat) : Nat :=
  u4At dex.data (dex.stringPool + 4 * index)

/-- The element `typePool[index].descriptorIdx`. -/
def descriptorIdx (dex : DexFile) (index : Nat) : Nat :=
  u4At dex.data (dex.typePool + 4 * index)

/-- The element `classes[i]`. -/
def classAt (dex : DexFile) (i : Nat) : DexClassDef :=
  let base := dex.classes + 32 * i
  { classIdx := u4At dex.data base
    accessFlags := u4At dex.data (base + 4)
    superclassIdx := u4At dex.data (base + 8)
    interfacesOff := u4At dex.data (base + 12)
    sourceFileIdx := u4At dex.data (base + 16)
    annotationsOff := u4At dex.data (base + 20)
    classDataOff := u4At dex.data (base + 24)
    staticValuesOff := u4At dex.data (base + 28) }

/-- The element `fields[i]`. -/
def fieldAt (dex : DexFile) (i : Nat) : DexFieldId :=
  let base := dex.fields + 8 * i
  { classIdx := u2At dex.data base
    typeIdx := u2At dex.data (base + 2)
    nameIdx := u4At dex.data (base + 4) }

/-- The method `getTypeName(u2 indexToTypePool)`: the returned pointer, as an
offset into `data`.  The parameter has type `u2`, so the argument is narrowed
modulo `2^16`. -/
def getTypeName (dex : DexFile) (indexToTypePool : Nat) : Nat :=
  let typeId := dex.descriptorIdx (indexToTypePool % 2 ^ 16)
  let buff := dex.stringDataOff typeId
  buff + 1

/-- The method `getStringAt(u4 index)`: the returned pointer, as an offset into
`data`. -/
def getStringAt (dex : DexFile) (index : Nat) : Nat :=
  let buff := dex.stringDataOff index
  buff + 1

/-- The loop of `readFrom` that fills `nameToClassMap`: `todo` rounds remain and
`i` is the loop index. -/
def fillNameToClassMap (dex : DexFile) : Nat → Nat → List (List Nat × Nat) → List (List Nat × Nat)
  | 0, _, m => m
  | todo + 1, i, m =>
    let name := cString dex.data (dex.getTypeName (dex.classAt i).classIdx)
    fillNameToClassMap dex todo (i + 1) ((name, i) :: m)

/-- The method `readFrom(file)` run on a value-initialised object: the returned
status and the object afterwards. -/
def readFrom (file : BytesInput) : Int × DexFile :=
  let header := DexHeader.ofBytes (file.write (List.replicate DexHeader.sizeOf 0) DexHeader.sizeOf).2.1
  if header.magic ≠ DexHeader.MAGIC then (-1, { empty with header := header })
  else if header.endianTag ≠ 0x12345678 then (-1, { empty with header := header })
  else
    let dex : DexFile :=
      { header := header
        data := file.mBuff
        dataCapacity := file.mLength
        stringPool := header.stringIdsOff
        typePool := header.typeIdsOff
        classes := header.classDefsOff
        fields := header.fieldIdsOff
        tag := ""
        nameToClassMap := [] }
    (0, { dex with nameToClassMap := fillNameToClassMap dex header.classDefsSize 0 [] })

/-- The method `findClassByName(name)`: the index `i` of the class definition
`&classes[i]` stored under the text `name`, or `none` for `nullptr`. -/
def findClassByName (dex : DexFile) (name : List Nat) : Option Nat :=
  dex.nameToClassMap.lookup name

end DexFile

/-! ## main.cpp: the resolver -/

/-- The constant `Modifier::ACC_PUBLIC`. -/
def Modifier.ACC_PUBLIC : Nat := 0x0001

/-- The constant `Modifier::ACC_PRIVATE`. -/
def Modifier.ACC_PRIVATE : Nat := 0x0002

/-- The constant `Modifier::ACC_PROTECTED`. -/
def Modifier.ACC_PROTECTED : Nat := 0x0004

/-- The constant `Modifier::ACC_STATIC`. -/
def Modifier.ACC_STATIC : Nat := 0x0008

/-- The constant `Modifier::ACC_FINAL`. -/
def Modifier.ACC_FINAL : Nat := 0x0010

/-- The constant `Modifier::ACC_VOLATILE`. -/
def Modifier.ACC_VOLATILE : Nat := 0x0040

/-- The constant `Modifier::ACC_TRANSIENT`. -/
def Modifier.ACC_TRANSIENT : Nat := 0x0080

/-- The constant `Modifier::ACC_SYNTHETIC`. -/
def Modifier.ACC_SYNTHETIC : Nat := 0x1000

/-- The struct `ApkFile::ResolvedField`; the three `const char *` members are
held by the text they point at (the buffers are never written after loading). -/
structure ResolvedField where
  accessFlag : Nat
  name : List Nat
  type : List Nat
  declaredClassName : List Nat
  deriving DecidableEq, Repr

/-- The library function `strcmp` on two texts: negative, zero or positive; the
embedding returns -1, 0 or 1. -/
def strcmp : List Nat → List Nat → Int
  | [], [] => 0
  | [], _ :: _ => -1
  | _ :: _, [] => 1
  | a :: s, b :: t => if a < b then -1 else if b < a then 1 else strcmp s t

/-- The function `ResolvedField::compare`.  Its first line returns 0 when both
arguments are the same object, which is also what the two `strcmp` calls give
then. -/
def ResolvedField.compare (p q : ResolvedField) : Int :=
  let cmp := strcmp p.name q.name
  if cmp ≠ 0 then cmp else strcmp p.type q.type

/-- The type `ResolvedFieldTable`. -/
abbrev ResolvedFieldTable := List ResolvedField

/-- The type `ScanResultPair`. -/
abbrev ScanResultPair := ResolvedField × ResolvedField

/-- A pointer to a class definition: the index of its file in `mDexVec` and its
index in that file's class-definition table. -/
abbrev ClassRef := Nat × Nat

/-- The contract of `std::sort` with the comparator `compare(p, q) < 0`: the
result is a rearrangement of the input in which no later element compares less
than an earlier one. -/
def StdSortSpec (srt : ResolvedFieldTable → ResolvedFieldTable) : Prop :=
  ∀ l, (srt l).Perm l ∧ (srt l).Pairwise (fun p q => ¬ ResolvedField.compare q p < 0)

/-- One sorting function that meets `StdSortSpec`: insertion sort. -/
def insertionSortFields (l : ResolvedFieldTable) : ResolvedFieldTable :=
  l.insertionSort (fun p q => ResolvedField.compare p q ≤ 0)

/-- The method `ApkFile::findClassByName`: the first file of `mDexVec`, counted
from `idx`, that knows `name`, with the class definition found there. -/
def findClassByNameFrom (name : List Nat) : List DexFile → Nat → Option ClassRef
  | [], _ => none
  | dexIt :: rest, idx =>
    match dexIt.findClassByName name with
    | some tmp => some (idx, tmp)
    | none => findClassByNameFrom name rest (idx + 1)

/-- The method `ApkFile::findClassByName`. -/
def findClassByName (mDexVec : List DexFile) (name : List Nat) : Option ClassRef :=
  findClassByNameFrom name mDexVec 0

/-- The `ResolvedField` that `generateFieldTable` builds for the decoded
instance field `dexField` of the class `classDef`. -/
def resolveField (dex : DexFile) (classDef : DexClassDef) (dexField : DexField) : ResolvedField :=
  let fieldId := dex.fieldAt dexField.fieldIdx
  { accessFlag := dexField.accessFlags
    name := cString dex.data (dex.getStringAt fieldId.nameIdx)
    type := cString dex.data (dex.getTypeName fieldId.typeIdx)
    declaredClassName := cString dex.data (dex.getTypeName classDef.classIdx) }

/-- The loop of `generateFieldTable` over the decoded instance fields: `todo`
rounds remain, `i` is the loop index. -/
def collectFields (dex : DexFile) (classDef : DexClassDef) (instanceFields : List DexField) :
    Nat → Nat → ResolvedFieldTable → ResolvedFieldTable
  | 0, _, table => table
  | todo + 1, i, table =>
    let dexField := instanceFields.getD i { fieldIdx := 0, accessFlags := 0 }
    let whiteList := Modifier.ACC_PRIVATE ||| Modifier.ACC_STATIC ||| Modifier.ACC_SYNTHETIC
    if (whiteList &&& dexField.accessFlags) ≠ 0 then
      collectFields dex classDef instanceFields todo (i + 1) table
    else
      collectFields dex classDef instanceFields todo (i + 1)
        (table ++ [resolveField dex classDef dexField])

/-- The function `ApkFile::generateFieldTable`. -/
def generateFieldTable (srt : ResolvedFieldTable → ResolvedFieldTable) (junk : Nat)
    (dex : DexFile) (classDef : DexClassDef) : ResolvedFieldTable :=
  if classDef.classDataOff = 0 then []
  else
    let input := (BytesInput.create dex.data dex.dataCapacity).seek classDef.classDataOff
    let dexClassData := (DexClassData.readFrom input junk).2.1
    srt (collectFields dex classDef dexClassData.instanceFields
      dexClassData.instanceFieldsSize 0 [])

/-- The loop of `ApkFile::findIntersection`; `fuel` bounds the number of rounds
(`self.length + super.length` suffice) and the lists are the parts of `self` and
`super` from the indices `i` and `j` on. -/
def findIntersectionLoop : Nat → List ScanResultPair → ResolvedFieldTable → ResolvedFieldTable
    → List ScanResultPair
  | 0, vec, _, _ => vec
  | _ + 1, vec, [], _ => vec
  | _ + 1, vec, _ :: _, [] => vec
  | fuel + 1, vec, s :: self, t :: super =>
    let cmp := ResolvedField.compare s t
    if cmp < 0 then findIntersectionLoop fuel vec self (t :: super)
    else if cmp > 0 then findIntersectionLoop fuel vec (s :: self) super
    else findIntersectionLoop fuel (vec ++ [(s, t)]) self super

/-- The function `ApkFile::findIntersection`. -/
def findIntersection (vec : List ScanResultPair) (self super : ResolvedFieldTable) :
    List ScanResultPair :=
  findIntersectionLoop (self.length + super.length) vec self super

/-- The state the resolver works on: the member `mResolvedClassMap` (entries of
the `std::unordered_map`, the most recent assignment first), the output vector
`outVec`, and a log of the classes whose class data was decoded, in the order
of the calls of `generateFieldTable` (not a variable of the program; it counts
the decode invocations). -/
structure ResolveState where
  mResolvedClassMap : List (ClassRef × ResolvedFieldTable)
  outVec : List ScanResultPair
  decoded : List ClassRef
  deriving DecidableEq, Repr

/-- The file a class reference points into (the parameter `dex` of
`resolveClass`). -/
def dexOf (mDexVec : List DexFile) (ref : ClassRef) : DexFile :=
  mDexVec.getD ref.1 DexFile.empty

/-- The method `ApkFile::resolveClass` on the class definition `ref`.  The
recursion on the superclass is bounded by `fuel`; `none` means the bound was
reached. -/
def resolveClass (srt : ResolvedFieldTable → ResolvedFieldTable) (junk : Nat)
    (mDexVec : List DexFile) : Nat → ClassRef → ResolveState → Option ResolveState
  | 0, _, _ => none
  | fuel + 1, ref, st =>
    if (st.mResolvedClassMap.lookup ref).isSome then some st
    else
      let dex := dexOf mDexVec ref
      let classDef := dex.classAt ref.2
      let superClassName := cString dex.data (dex.getTypeName classDef.superclassIdx)
      match findClassByName mDexVec superClassName with
      | some superRef =>
        match resolveClass srt junk mDexVec fuel superRef st with
        | none => none
        | some st1 =>
          let fieldTable := generateFieldTable srt junk dex classDef
          -- `mResolvedClassMap[superClassDef]` inserts an empty table when the key is absent
          let map1 := if (st1.mResolvedClassMap.lookup superRef).isSome then st1.mResolvedClassMap
            else (superRef, []) :: st1.mResolvedClassMap
          let parentTable := (map1.lookup superRef).getD []
          let outVec := findIntersection st1.outVec fieldTable parentTable
          let fieldTable := srt (fieldTable ++ parentTable)
          some { mResolvedClassMap := (ref, fieldTable) :: map1
                 outVec := outVec
                 decoded := st1.decoded ++ [ref] }
      | none =>
        let fieldTable := generateFieldTable srt junk dex classDef
        some { mResolvedClassMap := (ref, fieldTable) :: st.mResolvedClassMap
               outVec := st.outVec
               decoded := st.decoded ++ [ref] }

/-- The class definitions `scanAll` visits, in order: for every file of
`mDexVec` (counted from `idx`) the indices below `header.classDefsSize`. -/
def allClassesFrom : List DexFile → Nat → List ClassRef
  | [], _ => []
  | dex :: rest, idx =>
    (List.range dex.header.classDefsSize).map (fun i => (idx, i)) ++ allClassesFrom rest (idx + 1)

/-- The class definitions `scanAll` visits, in order. -/
def allClasses (mDexVec : List DexFile) : List ClassRef := allClassesFrom mDexVec 0

/-- The two nested loops of `scanAll` over the class definitions still to visit. -/
def scanLoop (srt : ResolvedFieldTable → ResolvedFieldTable) (junk : Nat)
    (mDexVec : List DexFile) (fuel : Nat) : List ClassRef → ResolveState → Option ResolveState
  | [], st => some st
  | ref :: rest, st =>
    match resolveClass srt junk mDexVec fuel ref st with
    | none => none
    | some st1 => scanLoop srt junk mDexVec fuel rest st1

/-- The state in which `scanAll` starts on a freshly opened `ApkFile`. -/
def ResolveState.initial : ResolveState :=
  { mResolvedClassMap := [], outVec := [], decoded := [] }

/-- The method `ApkFile::scanAll`, run with an empty `mResolvedClassMap`: the
returned vector, or `none` when some `resolveClass` reached the recursion bound. -/
def scanAll (srt : ResolvedFieldTable → ResolvedFieldTable) (junk : Nat)
    (mDexVec : List DexFile) (fuel : Nat) : Option (List ScanResultPair) :=
  (scanLoop srt junk mDexVec fuel (allClasses mDexVec) ResolveState.initial).map (fun st => st.outVec)

/-! ## Specification-side vocabulary for the class-data format -/

/-- The minimal ULEB128 encoding with at most `fuel` continuation bytes: seven
low bits per byte, the high bit set on every byte but the last. -/
def encodeULEB128Fuel : Nat → Nat → List Nat
  | 0, v => [v]
  | fuel + 1, v =>
    if v < 128 then [v] else (v % 128 + 128) :: encodeULEB128Fuel fuel (v / 128)

/-- The standard minimal ULEB128 encoding of a 32-bit value `v`: at most five
bytes, seven low bits per byte, the high bit set on every byte but the last. -/
def encodeULEB128 (v : Nat) : List Nat := encodeULEB128Fuel 4 v

/-- The byte string `c`, whose first byte is byte number `pos` of a value, is the
rest of one ULEB128 value of at most five bytes: every byte but the last has its
high bit set, and the last has it clear unless it is the fifth byte. -/
def isULEB128From : Nat → List Nat → Bool
  | _, [] => false
  | pos, [b] => decide (b < 256) && (decide (b < 128) || decide (pos = 4)) && decide (pos ≤ 4)
  | pos, b :: b' :: rest =>
    decide (128 ≤ b ∧ b < 256 ∧ pos < 4) && isULEB128From (pos + 1) (b' :: rest)

/-- The sum of the seven-bit groups of `c`, the first one weighted `2^(7*pos)`. -/
def ulebValueFrom : Nat → List Nat → Nat
  | _, [] => 0
  | pos, b :: rest => (b % 128) * 2 ^ (7 * pos) + ulebValueFrom (pos + 1) rest

/-- The 32-bit value a ULEB128 byte string stands for. -/
def ulebValue (c : List Nat) : Nat := ulebValueFrom 0 c % 2 ^ 32

/-- The bytes `c` lie in the buffer at the cursor, inside the readable length. -/
def BytesInput.holds (inp : BytesInput) (c : List Nat) : Prop :=
  (∃ t, inp.mBuff.drop inp.mCursor = c ++ t) ∧ inp.mCursor + c.length ≤ inp.mLength

/-- The cursor moved `n` bytes forward. -/
def BytesInput.advance (inp : BytesInput) (n : Nat) : BytesInput :=
  { inp with mCursor := inp.mCursor + n }

/-- The bytes of a static-field or instance-field group. -/
def pairBytes (l : List (List Nat × List Nat)) : List Nat :=
  (l.map (fun p => p.1 ++ p.2)).flatten

/-- The bytes of a method group. -/
def tripleBytes (l : List (List Nat × List Nat × List Nat)) : List Nat :=
  (l.map (fun p => p.1 ++ p.2.1 ++ p.2.2)).flatten

/-- The bytes of a complete class-data blob. -/
def classDataBytes (cs cn cd cv : List Nat) (statics instances : List (List Nat × List Nat))
    (directs virtuals : List (List Nat × List Nat × List Nat)) : List Nat :=
  cs ++ cn ++ cd ++ cv ++ pairBytes statics ++ pairBytes instances
    ++ tripleBytes directs ++ tripleBytes virtuals

/-- The entries the instance-field loop stores for the pairs `l`, starting
from the running index `off`. -/
def instanceFieldsFrom : Nat → List (List Nat × List Nat) → List DexField
  | _, [] => []
  | off, p :: l =>
    { fieldIdx := (off + ulebValue p.1) % 2 ^ 32, accessFlags := ulebValue p.2 }
      :: instanceFieldsFrom ((off + ulebValue p.1) % 2 ^ 32) l

/-- A complete class-data blob lies at the cursor: four counts, then as many
static pairs, instance pairs, direct-method triples and virtual-method triples
of ULEB128 values as the counts announce, all inside the buffer. -/
def classDataComplete (inp : BytesInput) : Prop :=
  ∃ (cs cn cd cv : List Nat) (statics instances : List (List Nat × List Nat))
    (directs virtuals : List (List Nat × List Nat × List Nat)),
    isULEB128From 0 cs = true ∧ isULEB128From 0 cn = true ∧
    isULEB128From 0 cd = true ∧ isULEB128From 0 cv = true ∧
    (∀ p ∈ statics, isULEB128From 0 p.1 = true ∧ isULEB128From 0 p.2 = true) ∧
    (∀ p ∈ instances, isULEB128From 0 p.1 = true ∧ isULEB128From 0 p.2 = true) ∧
    (∀ p ∈ directs, isULEB128From 0 p.1 = true ∧ isULEB128From 0 p.2.1 = true
      ∧ isULEB128From 0 p.2.2 = true) ∧
    (∀ p ∈ virtuals, isULEB128From 0 p.1 = true ∧ isULEB128From 0 p.2.1 = true
      ∧ isULEB128From 0 p.2.2 = true) ∧
    statics.length = ulebValue cs ∧ instances.length = ulebValue cn ∧
    directs.length = ulebValue cd ∧ virtuals.length = ulebValue cv ∧
    inp.holds (classDataBytes cs cn cd cv statics instances directs virtuals)

/-- The instance fields `generateFieldTable` decodes for a class definition. -/
def decodedInstanceFields (junk : Nat) (dex : DexFile) (classDef : DexClassDef) : List DexField :=
  (DexClassData.readFrom
    ((BytesInput.create dex.data dex.dataCapacity).seek classDef.classDataOff) junk).2.1.instanceFields

/-! ## Specification-side vocabulary for the resolver -/

/-- The class definition a class reference points at. -/
def classDefOf (mDexVec : List DexFile) (ref : ClassRef) : DexClassDef :=
  (dexOf mDexVec ref).classAt ref.2

/-- The descriptor of the class `ref`. -/
def classNameOf (mDexVec : List DexFile) (ref : ClassRef) : List Nat :=
  cString (dexOf mDexVec ref).data ((dexOf mDexVec ref).getTypeName (classDefOf mDexVec ref).classIdx)

/-- The loaded superclass of `ref`, as `resolveClass` looks it up. -/
def superOf (mDexVec : List DexFile) (ref : ClassRef) : Option ClassRef :=
  findClassByName mDexVec
    (cString (dexOf mDexVec ref).data
      ((dexOf mDexVec ref).getTypeName (classDefOf mDexVec ref).superclassIdx))

/-- The own visible field table of `ref`, as `resolveClass` builds it. -/
def ownTable (srt : ResolvedFieldTable → ResolvedFieldTable) (junk : Nat)
    (mDexVec : List DexFile) (ref : ClassRef) : ResolvedFieldTable :=
  generateFieldTable srt junk (dexOf mDexVec ref) (classDefOf mDexVec ref)

/-- The class `ref` is a key of the resolution memo. -/
def ResolveState.known (st : ResolveState) (ref : ClassRef) : Prop :=
  (st.mResolvedClassMap.lookup ref).isSome = true

/-- The decode log lists memoized classes only, each once. -/
def ResolveState.logOk (st : ResolveState) : Prop :=
  (∀ c ∈ st.decoded, st.known c) ∧ st.decoded.Nodup

/-- The access flags have none of `ACC_PRIVATE`, `ACC_STATIC`, `ACC_SYNTHETIC`. -/
def visibleFlags (flags : Nat) : Bool :=
  decide (flags &&& Modifier.ACC_PRIVATE = 0 ∧ flags &&& Modifier.ACC_STATIC = 0
    ∧ flags &&& Modifier.ACC_SYNTHETIC = 0)

/-- The key `(name, type)` of a field. -/
def keyOf (f : ResolvedField) : List Nat × List Nat := (f.name, f.type)

/-- The key `(name, type)` of `p` is byte-wise smaller than that of `q`: the
names first, the types when the names agree. -/
def keyLT (p q : ResolvedField) : Prop :=
  List.Lex (· < ·) p.name q.name ∨ (p.name = q.name ∧ List.Lex (· < ·) p.type q.type)

/-- The table is in non-decreasing order of the key `(name, type)`. -/
def sortedByKey (t : ResolvedFieldTable) : Prop :=
  t.Pairwise (fun p q => ¬ keyLT q p)

/-! ## Example bytecode files -/

/-- A `u4` as four little-endian bytes. -/
def le32 (x : Nat) : List Nat := [x % 256, x / 256 % 256, x / 65536 % 256, x / 16777216 % 256]

/-- A `u2` as two little-endian bytes. -/
def le16 (x : Nat) : List Nat := [x % 256, x / 256 % 256]

/-- A string data item: the ULEB128 length, the text, a NUL. -/
def stringItem (text : List Nat) : List Nat := encodeULEB128 text.length ++ text ++ [0]

/-- The offsets of consecutive items laid out from `start`; an empty item gets
the offset 0. -/
def itemOffsets : Nat → List (List Nat) → List Nat
  | _, [] => []
  | start, x :: xs => (if x = [] then 0 else start) :: itemOffsets (start + x.length) xs

/-- The bytes of a bytecode file with the given texts, types (string indices),
fields (class type, field type, name string) and classes (class type, superclass
type, class-data bytes), laid out as header, string ids, type ids, field ids,
class definitions, string data, class data. -/
def exampleDexBytes (strings : List (List Nat)) (types : List Nat)
    (fields : List (Nat × Nat × Nat)) (classes : List (Nat × Nat × List Nat)) : List Nat :=
  let stringIdsOff := 112
  let typeIdsOff := stringIdsOff + 4 * strings.length
  let fieldIdsOff := typeIdsOff + 4 * types.length
  let classDefsOff := fieldIdsOff + 8 * fields.length
  let dataOff := classDefsOff + 32 * classes.length
  let stringData := strings.map stringItem
  let classDataOff := dataOff + stringData.flatten.length
  let classData := classes.map (fun c => c.2.2)
  let fileSize := classDataOff + classData.flatten.length
  [0x64, 0x65, 0x78, 0x0a, 0x30, 0x33, 0x35, 0x00] ++ le32 0 ++ List.replicate 20 0
    ++ le32 fileSize ++ le32 112 ++ le32 0x12345678 ++ le32 0 ++ le32 0 ++ le32 0
    ++ le32 strings.length ++ le32 stringIdsOff ++ le32 types.length ++ le32 typeIdsOff
    ++ le32 0 ++ le32 0 ++ le32 fields.length ++ le32 fieldIdsOff ++ le32 0 ++ le32 0
    ++ le32 classes.length ++ le32 classDefsOff ++ le32 (fileSize - dataOff) ++ le32 dataOff
    ++ ((itemOffsets dataOff stringData).map le32).flatten
    ++ (types.map le32).flatten
    ++ (fields.map (fun f => le16 f.1 ++ le16 f.2.1 ++ le32 f.2.2)).flatten
    ++ (((classes.map (fun c => (c.1, c.2.1))).zip (itemOffsets classDataOff classData)).map
        (fun c => le32 c.1.1 ++ le32 1 ++ le32 c.1.2 ++ le32 0 ++ le32 0 ++ le32 0
          ++ le32 c.2 ++ le32 0)).flatten
    ++ stringData.flatten ++ classData.flatten

/-- The object `DexFile::readFrom` builds from the bytes `bytes`. -/
def loadDex (bytes : List Nat) : DexFile :=
  (DexFile.readFrom (BytesInput.create bytes bytes.length)).2

/-- The text `I`, the descriptor of the type `int`. -/
def txtI : List Nat := [0x49]

/-- The text `LBase;`. -/
def txtBase : List Nat := [0x4c, 0x42, 0x61, 0x73, 0x65, 0x3b]

/-- The text `LMid;`. -/
def txtMid : List Nat := [0x4c, 0x4d, 0x69, 0x64, 0x3b]

/-- The text `LObj;`. -/
def txtObj : List Nat := [0x4c, 0x4f, 0x62, 0x6a, 0x3b]

/-- The text `LSub;`. -/
def txtSub : List Nat := [0x4c, 0x53, 0x75, 0x62, 0x3b]

/-- The text `f`. -/
def txtF : List Nat := [0x66]

/-- A file with the classes `LBase;` (superclass `LObj;`, not defined), `LMid;`
(superclass `LBase;`) and `LSub;` (superclass `LMid;`).  Each declares one
instance field `f` of type `I`; the first two are public, the access flags of
the third are the bytes `subFlags`, which end the file. -/
def chainDexBytes (subFlags : List Nat) : List Nat :=
  exampleDexBytes [txtI, txtBase, txtMid, txtObj, txtSub, txtF] [0, 1, 2, 3, 4]
    [(1, 0, 5), (2, 0, 5), (4, 0, 5)]
    [(1, 3, [0, 1, 0, 0, 0, 1]), (2, 1, [0, 1, 0, 0, 1, 1]), (4, 2, [0, 1, 0, 0, 2] ++ subFlags)]

/-- The three-class file, loaded. -/
def chainDex (subFlags : List Nat) : DexFile := loadDex (chainDexBytes subFlags)

/-- A file with the classes `LBase;` (superclass `LObj;`, not defined) and
`LSub;` (superclass `LBase;`), each with one public instance field `f` of type `I`. -/
def pairDexBytes : List Nat :=
  exampleDexBytes [txtI, txtBase, txtObj, txtSub, txtF] [0, 1, 2, 3]
    [(1, 0, 4), (3, 0, 4)]
    [(1, 2, [0, 1, 0, 0, 0, 1]), (3, 1, [0, 1, 0, 0, 1, 1])]

/-- The two-class file, loaded. -/
def pairDex : DexFile := loadDex pairDexBytes

/-- A file with the single class `LBase;`, whose public instance field of type
`I` has a name of 128 letters `a`; the same text is also the descriptor of the
type with index 3. -/
def longNameDexBytes : List Nat :=
  exampleDexBytes [txtI, txtBase, txtObj, List.replicate 128 0x61] [0, 1, 2, 3]
    [(1, 0, 3)] [(1, 2, [0, 1, 0, 0, 0, 1])]

/-- The file with the long field name, loaded. -/
def longNameDex : DexFile := loadDex longNameDexBytes

/-- The public field `f` of type `I` declared by the class `cls`. -/
def exampleField (cls : List Nat) : ResolvedField :=
  { accessFlag := 1, name := txtF, type := txtI, declaredClassName := cls }

/-- The resolver state after `scanAll` on the two-class file. -/
def pairDexResolved : ResolveState :=
  { mResolvedClassMap :=
      [((0, 1), [exampleField txtSub, exampleField txtBase]), ((0, 0), [exampleField txtBase])]
    outVec := [(exampleField txtSub, exampleField txtBase)]
    decoded := [(0, 0), (0, 1)] }

/-! ## Specification-side vocabulary for the byte cursor -/

/-- A call on a `BytesInput`: `seek(off)` or `write(dst, size)`; the operator
`>>` at a type `T` is the call `write(&value, sizeof(T))`. -/
inductive CursorCall where
  | seek (off : Nat)
  | write (dst : List Nat) (size : Nat)

/-- The cursor after one call. -/
def BytesInput.call (inp : BytesInput) : CursorCall → BytesInput
  | .seek off => inp.seek off
  | .write dst size => (inp.write dst size).1

/-- The cursor after a sequence of calls. -/
def BytesInput.calls (inp : BytesInput) : List CursorCall → BytesInput
  | [] => inp
  | c :: cs => (inp.call c).calls cs

/-! ## Specification-side vocabulary for the bytecode file -/

/-- The class descriptor of the class definition with index `i`. -/
def DexFile.classDescriptor (dex : DexFile) (i : Nat) : List Nat :=
  cString dex.data (dex.getTypeName (dex.classAt i).classIdx)

/-! ## Specification-side vocabulary for the merge-join -/

/-- The pairs the merge-join is to append: for every entry `s` of `self`, in
order, whose key occurs in `super`, the pair of `s` with the first entry of
`super` that has the key of `s`. -/
def expectedPairs (self super : ResolvedFieldTable) : List ScanResultPair :=
  self.filterMap (fun s => (super.find? (fun t => decide (keyOf t = keyOf s))).map (fun t => (s, t)))

/-! ## zip.h and zip.cpp: the archive reader -/

/-- A `FILE *` opened on a regular file for reading: the bytes of the file, the
file position and the end-of-file indicator (no read error occurs). -/
structure FileStream where
  content : List Nat
  pos : Nat
  eofFlag : Bool
  deriving DecidableEq, Repr

/-- The call `fseek(fp, off, SEEK_SET)`. -/
def FileStream.seekSet (fp : FileStream) (off : Nat) : FileStream :=
  { fp with pos := off, eofFlag := false }

/-- The call `fseek(fp, off, SEEK_CUR)` with `off >= 0`. -/
def FileStream.seekCur (fp : FileStream) (off : Nat) : FileStream :=
  { fp with pos := fp.pos + off, eofFlag := false }

/-- The call `fseek(fp, -back, SEEK_CUR)`. -/
def FileStream.seekBack (fp : FileStream) (back : Nat) : FileStream :=
  { fp with pos := fp.pos - back, eofFlag := false }

/-- The call `fseek(fp, 0, SEEK_END)`. -/
def FileStream.seekEnd (fp : FileStream) : FileStream :=
  { fp with pos := fp.content.length, eofFlag := false }

/-- The call `ftell(fp)`. -/
def FileStream.tell (fp : FileStream) : Nat := fp.pos

/-- The call `fread(dst, 1, n, fp)`: the stream afterwards, the destination
afterwards (given by its previous contents) and the returned count. -/
def FileStream.fread (fp : FileStream) (dst : List Nat) (n : Nat) : FileStream × List Nat × Nat :=
  let count := min (fp.content.length - fp.pos) n
  let bytes := (List.range count).map (fun k => byteAt fp.content (fp.pos + k))
  ({ fp with pos := fp.pos + count, eofFlag := fp.eofFlag || decide (count < n) },
    bytes ++ dst.drop count, count)

/-- The loop of `readFully`; `fuel` bounds the number of rounds. -/
def readFullyLoop : Nat → FileStream → List Nat → Nat → Nat → FileStream × List Nat × Nat
  | 0, fp, dst, _, consumed => (fp, dst, consumed)
  | fuel + 1, fp, dst, size, consumed =>
    if consumed < size ∧ fp.eofFlag = false then
      let r := fp.fread (dst.drop consumed) (size - consumed)
      readFullyLoop fuel r.1 (dst.take consumed ++ r.2.1) size (consumed + r.2.2)
    else (fp, dst, consumed)

/-- The function `readFully(fp, dst, size)`: the stream and the destination
afterwards and the returned count.  Every round but the last reads at least one
byte, so `size + 1` rounds suffice. -/
def readFully (fp : FileStream) (dst : List Nat) (size : Nat) : FileStream × List Nat × Nat :=
  readFullyLoop (size + 1) fp dst size 0

/-- The constant `EOCD::MAGIC`. -/
def EOCD.MAGIC : Nat := 0x06054b50

/-- The size of the packed struct `EOCD`. -/
def EOCD.sizeOf : Nat := 22

/-- The constant `CDE::MAGIC`. -/
def CDE.MAGIC : Nat := 0x02014b50

/-- The size of the packed struct `CDE`. -/
def CDE.sizeOf : Nat := 46

/-- The constant `LFH::MAGIC`. -/
def LFH.MAGIC : Nat := 0x04034b50

/-- The size of the packed struct `LFH`. -/
def LFH.sizeOf : Nat := 30

/-- The constant `COMPRESS_STORE`. -/
def COMPRESS_STORE : Nat := 0

/-- The constant `COMPRESS_DEFLATE`. -/
def COMPRESS_DEFLATE : Nat := 8

/-- The struct `ZipEntry`; a string member is `none` for a null pointer and
otherwise the bytes of its buffer before the closing NUL. -/
structure ZipEntry where
  versionMadeBy : Nat
  versionToExtract : Nat
  flag : Nat
  method : Nat
  mTime : Nat
  mDate : Nat
  crc32 : Nat
  compressedSize : Nat
  unCompressedSize : Nat
  nameLength : Nat
  extraLength : Nat
  commentLength : Nat
  bytesOffset : Nat
  name : Option (List Nat)
  extra : Option (List Nat)
  comment : Option (List Nat)
  deriving DecidableEq, Repr

/-- The function `readString(file, len)`; the new buffer is not initialised, its
bytes are `junk` before the read. -/
def readString (file : FileStream) (len : Nat) (junk : Nat) : FileStream × Option (List Nat) :=
  if len = 0 then (file, none)
  else
    let r := file.fread (List.replicate len (junk % 256)) len
    (r.1, some r.2.1)

/-- The method `CDE::copyTo` on the bytes `cde` of a `CDE` object, followed by the
assignment of `bytesOffset`; the string members are still to be set. -/
def CDE.copyTo (cde : List Nat) : ZipEntry :=
  { versionMadeBy := u2At cde 4
    versionToExtract := u2At cde 6
    flag := u2At cde 8
    method := u2At cde 10
    mTime := u2At cde 12
    mDate := u2At cde 14
    crc32 := u4At cde 16
    compressedSize := u4At cde 20
    unCompressedSize := u4At cde 24
    nameLength := u2At cde 28
    extraLength := u2At cde 30
    commentLength := u2At cde 32
    bytesOffset := u4At cde 42
    name := none, extra := none, comment := none }

/-- The class `ZipFile`: `mSize`, the entries of `mEntries` written so far (the
others are not initialised), the stream `mFile` and `mComment`. -/
structure ZipFile where
  mSize : Nat
  mEntries : List ZipEntry
  mFile : Option FileStream
  mComment : Option (List Nat)
  deriving DecidableEq, Repr

/-- The condition of the loop of `ZipFile::open` on the record at offset `i` of
the tail buffer. -/
def eocdAt (buff : List Nat) (i : Nat) : Bool :=
  u4At buff i == EOCD.MAGIC && u2At buff (i + 4) == 0 && u2At buff (i + 6) == 0
    && u2At buff (i + 8) == u2At buff (i + 10)

/-- The loop `for (long i = buffLength - sizeof(EOCD); i >= 0; --i)` of
`ZipFile::open`, with `i + 1` rounds to go: the offset it stops at with
`eocd` set, or `none` when `eocd` stays null. -/
def findEOCD (buff : List Nat) : Nat → Option Nat
  | 0 => none
  | i + 1 => if eocdAt buff i then some i else findEOCD buff i

/-- The first loop of `ZipFile::open` over the central directory: `todo` rounds
remain, `cde` holds the bytes of the object `cde`, `entries` the entries set so
far.  The status is -1 when a magic number is wrong. -/
def readDirectory (junk : Nat) : Nat → FileStream → List Nat → List ZipEntry
    → Int × FileStream × List ZipEntry
  | 0, fp, _, entries => (0, fp, entries)
  | todo + 1, fp, cde, entries =>
    let r := fp.fread cde CDE.sizeOf
    let cde1 := r.2.1
    if u4At cde1 0 ≠ CDE.MAGIC then (-1, r.1, entries)
    else
      let e := CDE.copyTo cde1
      let n := readString r.1 e.nameLength junk
      let x := readString n.1 e.extraLength junk
      let c := readString x.1 e.commentLength junk
      let e1 := { e with name := n.2, extra := x.2, comment := c.2 }
      -- `cde.magic = 0`
      readDirectory junk todo c.1 ([0, 0, 0, 0] ++ cde1.drop 4) (entries ++ [e1])

/-- The second loop of `ZipFile::open` over the local file headers: `todo`
rounds remain, `i` is the loop index, `lfh` holds the bytes of the object `lfh`. -/
def fixOffsets : Nat → Nat → FileStream → List Nat → List ZipEntry
    → Int × FileStream × List ZipEntry
  | 0, _, fp, _, entries => (0, fp, entries)
  | todo + 1, i, fp, lfh, entries =>
    match entries[i]? with
    | none => (0, fp, entries)
    | some e =>
      let r := (fp.seekSet e.bytesOffset).fread lfh LFH.sizeOf
      let lfh1 := r.2.1
      if u4At lfh1 0 ≠ LFH.MAGIC then (-1, r.1, entries)
      else
        let fp1 := r.1.seekCur (u2At lfh1 28 + u2At lfh1 26)
        fixOffsets todo (i + 1) fp1 lfh1
          (entries.set i { e with bytesOffset := fp1.tell % 2 ^ 32 })

/-- A `ZipFile` object before `open`. -/
def ZipFile.empty : ZipFile :=
  { mSize := 0, mEntries := [], mFile := none, mComment := none }

/-- The tail buffer of `ZipFile::open` after the `fread`: the stream, the 65558
bytes of the buffer (zero where nothing was read) and the count read. -/
def readTail (content : List Nat) : FileStream × List Nat × Nat :=
  let fp : FileStream := { content := content, pos := 0, eofFlag := false }
  let fp1 := fp.seekEnd
  let fileSize := fp1.tell
  let buffLength := 64 * 1024 + EOCD.sizeOf
  (fp1.seekBack (min buffLength fileSize)).fread (List.replicate buffLength 0) buffLength

/-- The method `ZipFile::open` on a new object; `file` holds the bytes of the
file at `path`, or is `none` when `fopen` fails.  `mComment` lists the
`commentLength` bytes copied from behind the trailer, a byte past the end of
the tail buffer being read as 0. -/
def ZipFile.open (file : Option (List Nat)) (junk : Nat) : Int × ZipFile :=
  match file with
  | none => (-1, ZipFile.empty)
  | some content =>
    let t := readTail content
    let buff := t.2.1
    let buffLength := t.2.2
    -- `buffLength - sizeof(EOCD)` is negative, and the loop is not entered, when
    -- fewer than 22 bytes were read
    match findEOCD buff (buffLength + 1 - EOCD.sizeOf) with
    | none => (-1, { ZipFile.empty with mFile := some t.1 })
    | some i =>
      let entriesOnDisk := u2At buff (i + 8)
      let directoryOffset := u4At buff (i + 16)
      let commentLength := u2At buff (i + 20)
      let mComment := if commentLength > 0 then
          some ((List.range commentLength).map (fun k => byteAt buff (i + EOCD.sizeOf + k)))
        else none
      let d := readDirectory junk entriesOnDisk (t.1.seekSet directoryOffset)
        (List.replicate CDE.sizeOf 0) []
      if d.1 ≠ 0 then
        (-1, { mSize := entriesOnDisk, mEntries := d.2.2, mFile := some d.2.1, mComment := mComment })
      else
        let l := fixOffsets entriesOnDisk 0 d.2.1 (List.replicate LFH.sizeOf 0) d.2.2
        (l.1, { mSize := entriesOnDisk, mEntries := l.2.2, mFile := some l.2.1,
                mComment := mComment })

/-- The functions of zlib the archive reader calls: `crc32(crc, buf, len)` on
the `len` bytes `buf`, the status of `inflateInit2`, and `inflate` with
`Z_FINISH` on the input bytes, the output buffer (given by its previous
contents) and `avail_out`, which returns its status and the output buffer
afterwards. -/
structure Zlib where
  crc32 : Nat → List Nat → Nat
  inflateInit2 : Int
  inflate : List Nat → List Nat → Nat → Int × List Nat

/-- The constant `Z_OK` of zlib. -/
def Z_OK : Int := 0

/-- The constant `Z_STREAM_END` of zlib. -/
def Z_STREAM_END : Int := 1

/-- The function `uncompressRaw(dst, dstLen, src, srcLen)`, `src` being the
`srcLen` input bytes: the status and the destination afterwards. -/
def uncompressRaw (z : Zlib) (dst : List Nat) (dstLen : Nat) (src : List Nat) : Int × List Nat :=
  if z.inflateInit2 ≠ Z_OK then (-1, dst)
  else
    let r := z.inflate src dst dstLen
    if r.1 ≠ Z_STREAM_END then (-1, r.2) else (0, r.2)

/-- The method `ZipFile::uncompress(e, out)` on an open archive with stream
`mFile`: the status, the destination afterwards (given by its previous
contents) and the stream afterwards. -/
def ZipFile.uncompress (z : Zlib) (mFile : FileStream) (e : ZipEntry) (out : List Nat) :
    Int × List Nat × FileStream :=
  if e.flag ≠ 0 then (-1, out, mFile)
  else
    let crc0 := 0
    let fp := mFile.seekSet e.bytesOffset
    let r : Nat × List Nat × FileStream :=
      if e.method = COMPRESS_STORE then
        let c := readFully fp out e.unCompressedSize
        (z.crc32 crc0 (c.2.1.take c.2.2), c.2.1, c.1)
      else if e.method = COMPRESS_DEFLATE then
        let c := readFully fp (List.replicate e.compressedSize 0) e.compressedSize
        let u := uncompressRaw z out e.unCompressedSize (c.2.1.take c.2.2)
        (z.crc32 crc0 (u.2.take e.unCompressedSize), u.2, c.1)
      else (crc0, out, fp)
    if r.1 ≠ e.crc32 then (-1, r.2.1, r.2.2) else (0, r.2.1, r.2.2)

/-! ## main.cpp: opening an archive -/

/-- An element of a regular expression that consumes one character: an ordinary
character, the class `\d`, or the wildcard `.`. -/
inductive RegexAtom where
  | lit (c : Nat)
  | digit
  | any
  deriving DecidableEq, Repr

/-- A term of a regular expression: the assertions `^` and `$`, an atom, or an
atom under `*`. -/
inductive RegexTerm where
  | lineBegin
  | lineEnd
  | atom (a : RegexAtom)
  | star (a : RegexAtom)
  deriving DecidableEq, Repr

/-- Whether an atom accepts the character `c` (ECMAScript grammar, `char`
traits in the C locale): `\d` accepts `0` to `9`, `.` accepts every character
but the line terminators `\n` and `\r`. -/
def RegexAtom.accepts : RegexAtom → Nat → Bool
  | .lit x, c => c == x
  | .digit, c => decide (0x30 ≤ c ∧ c ≤ 0x39)
  | .any, c => c != 0x0a && c != 0x0d

/-- The repetition `a*` followed by the continuation `k`; `b` tells whether the
position is the beginning of the text. -/
def starLoop (a : RegexAtom) (k : Bool → List Nat → Bool) (b : Bool) : List Nat → Bool
  | [] => k b []
  | c :: s => (a.accepts c && starLoop a k false s) || k b (c :: s)

/-- The matcher on a sequence of terms: whether the terms match all of the text
`s`; `b` tells whether the position is the beginning of the text. -/
def regexMatchFrom : List RegexTerm → Bool → List Nat → Bool
  | [], _, s => s.isEmpty
  | .lineBegin :: r, b, s => b && regexMatchFrom r b s
  | .lineEnd :: r, b, s => s.isEmpty && regexMatchFrom r b s
  | .atom _ :: _, _, [] => false
  | .atom a :: r, _, c :: s => a.accepts c && regexMatchFrom r false s
  | .star a :: r, b, s => starLoop a (regexMatchFrom r) b s

/-- The call `std::regex_match(s, reg)` on the C string `s`. -/
def regex_match (s : List Nat) (reg : List RegexTerm) : Bool :=
  regexMatchFrom reg true s

/-- The object `std::regex reg("^classes\\d*.dex$")` of `ApkFile::open`. -/
def classesReg : List RegexTerm :=
  [.lineBegin, .atom (.lit 0x63), .atom (.lit 0x6c), .atom (.lit 0x61), .atom (.lit 0x73),
   .atom (.lit 0x73), .atom (.lit 0x65), .atom (.lit 0x73), .star .digit, .atom .any,
   .atom (.lit 0x64), .atom (.lit 0x65), .atom (.lit 0x78), .lineEnd]

/-- The members `mDexVec` and `mBufferVec` of the class `ApkFile`. -/
structure ApkFile where
  mDexVec : List DexFile
  mBufferVec : List (List Nat)
  deriving DecidableEq, Repr

/-- The loop of `ApkFile::open` over the entries still to visit, `mFile` being the
stream of the archive.  The result is `none` when an entry has a null name,
which `std::regex_match` must not be given. -/
def ApkFile.openLoop (z : Zlib) : List ZipEntry → FileStream → ApkFile → Option (Int × ApkFile)
  | [], _, apk => some (0, apk)
  | e :: rest, mFile, apk =>
    match e.name with
    | none => none
    | some name =>
      if regex_match (cString name 0) classesReg = false then ApkFile.openLoop z rest mFile apk
      else
        let u := ZipFile.uncompress z mFile e (List.replicate e.unCompressedSize 0)
        let apk1 := { apk with mBufferVec := apk.mBufferVec ++ [u.2.1] }
        if u.1 = -1 then some (-1, apk1)
        else
          let d := DexFile.readFrom (BytesInput.create u.2.1 u.2.1.length)
          if d.1 = -1 then some (-1, apk1)
          else
            ApkFile.openLoop z rest u.2.2
              { apk1 with mDexVec := apk1.mDexVec ++
                  [{ d.2 with tag := String.mk ((cString name 0).map Char.ofNat) }] }

/-- The method `ApkFile::open` on a new object; `file` holds the bytes of the
file at `path`, or is `none` when it cannot be opened. -/
def ApkFile.open (z : Zlib) (junk : Nat) (file : Option (List Nat)) : Option (Int × ApkFile) :=
  let zipFile := ZipFile.open file junk
  if zipFile.1 = -1 then some (-1, { mDexVec := [], mBufferVec := [] })
  else
    match zipFile.2.mFile with
    | none => some (-1, { mDexVec := [], mBufferVec := [] })
    | some mFile => ApkFile.openLoop z zipFile.2.mEntries mFile { mDexVec := [], mBufferVec := [] }

/-! ## Example archives -/

/-- One bit of the CRC-32 computation (reflected polynomial `0xEDB88320`). -/
def crc32Bit (c : Nat) : Nat :=
  if c % 2 = 1 then (c / 2) ^^^ 0xEDB88320 else c / 2

/-- One byte of the CRC-32 computation. -/
def crc32Byte (c b : Nat) : Nat :=
  crc32Bit (crc32Bit (crc32Bit (crc32Bit (crc32Bit (crc32Bit (crc32Bit (crc32Bit
    (c ^^^ (b % 256)))))))))

/-- The register of the CRC-32 computation after the bytes `buf`, from the
value `c`; the case split on the register only fixes the order in which the
definition is evaluated. -/
def crc32Loop : List Nat → Nat → Nat
  | [], c => c
  | b :: bs, c =>
    match crc32Byte c b with
    | 0 => crc32Loop bs 0
    | r + 1 => crc32Loop bs (r + 1)

/-- The CRC-32 of zlib: `crc32(crc, buf, len)` continues the running checksum
`crc` over the bytes `buf`. -/
def crc32Ref (crc : Nat) (buf : List Nat) : Nat :=
  crc32Loop buf (crc ^^^ 0xFFFFFFFF) ^^^ 0xFFFFFFFF

/-- A zlib for archives of stored entries: the CRC-32 above, and an `inflate`
that finds no valid stream (`Z_DATA_ERROR`) and writes nothing. -/
def storedZlib : Zlib :=
  { crc32 := crc32Ref, inflateInit2 := 0, inflate := fun _ dst _ => (-3, dst) }

/-- A local file header followed by the name. -/
def lfhBytes (method crc csize usize : Nat) (name : List Nat) : List Nat :=
  le32 LFH.MAGIC ++ le16 20 ++ le16 0 ++ le16 method ++ le16 0 ++ le16 0 ++ le32 crc
    ++ le32 csize ++ le32 usize ++ le16 name.length ++ le16 0 ++ name

/-- A central directory entry followed by the name. -/
def cdeBytes (method crc csize usize headerOffset : Nat) (name : List Nat) : List Nat :=
  le32 CDE.MAGIC ++ le16 20 ++ le16 20 ++ le16 0 ++ le16 method ++ le16 0 ++ le16 0 ++ le32 crc
    ++ le32 csize ++ le32 usize ++ le16 name.length ++ le16 0 ++ le16 0 ++ le16 0 ++ le16 0
    ++ le32 0 ++ le32 headerOffset ++ name

/-- An end-of-central-directory record without comment. -/
def eocdBytes (entries directorySize directoryOffset : Nat) : List Nat :=
  le32 EOCD.MAGIC ++ le16 0 ++ le16 0 ++ le16 entries ++ le16 entries ++ le32 directorySize
    ++ le32 directoryOffset ++ le16 0

/-- An archive with one entry of the given method and declared checksum and
sizes: the local header, the name, the data, the directory, the trailer. -/
def oneEntryZip (method crc csize usize : Nat) (name data : List Nat) : List Nat :=
  let l := lfhBytes method crc csize usize name ++ data
  let c := cdeBytes method crc csize usize 0 name
  l ++ c ++ eocdBytes 1 c.length l.length

/-- An archive whose single stored entry declares `usize` bytes of data but whose
file ends after the bytes `data`: the directory, the trailer, then the local
header, the name and the data. -/
def truncatedZip (crc usize : Nat) (name data : List Nat) : List Nat :=
  let c := cdeBytes COMPRESS_STORE crc usize usize (46 + name.length + 22) name
  c ++ eocdBytes 1 c.length 0 ++ lfhBytes COMPRESS_STORE crc usize usize name ++ data

/-- The text `classesXdex`. -/
def txtClassesXdex : List Nat :=
  [0x63, 0x6c, 0x61, 0x73, 0x73, 0x65, 0x73, 0x58, 0x64, 0x65, 0x78]

/-- The text `classes2xdex`. -/
def txtClasses2xdex : List Nat :=
  [0x63, 0x6c, 0x61, 0x73, 0x73, 0x65, 0x73, 0x32, 0x78, 0x64, 0x65, 0x78]

/-- The text `classes.dex`. -/
def txtClassesDex : List Nat :=
  [0x63, 0x6c, 0x61, 0x73, 0x73, 0x65, 0x73, 0x2e, 0x64, 0x65, 0x78]

/-- The text `a.txt`. -/
def txtATxt : List Nat := [0x61, 0x2e, 0x74, 0x78, 0x74]

/-! ## Specification-side vocabulary for the archive reader -/

/-- The record at offset `i` of `buff` has the trailer magic, both disk-number
fields 0 and equal entry counts. -/
def IsTrailerAt (buff : List Nat) (i : Nat) : Prop :=
  u4At buff i = 0x06054b50 ∧ u2At buff (i + 4) = 0 ∧ u2At buff (i + 6) = 0
    ∧ u2At buff (i + 8) = u2At buff (i + 10)

/-- The bytes of `content` from offset `off`, `c` of them. -/
def fileBytes (content : List Nat) (off c : Nat) : List Nat :=
  (List.range c).map (fun k => byteAt content (off + k))

/-- The text `classes`. -/
def txtClasses : List Nat := [0x63, 0x6c, 0x61, 0x73, 0x73, 0x65, 0x73]

/-- The text `dex`. -/
def txtDex : List Nat := [0x64, 0x65, 0x78]

/-- The names the specification selects: the text `classes`, decimal digits, the
text `.dex`. -/
def IsClassesDexName (name : List Nat) : Prop :=
  ∃ ds : List Nat, (∀ d ∈ ds, 0x30 ≤ d ∧ d ≤ 0x39) ∧ name = txtClasses ++ ds ++ 0x2e :: txtDex

/-! ## Example archive entries -/

/-- An entry of method 12 that declares the checksum 0. -/
def otherMethodEntry : ZipEntry :=
  { versionMadeBy := 20, versionToExtract := 20, flag := 0, method := 12, mTime := 0, mDate := 0
    crc32 := 0, compressedSize := 2, unCompressedSize := 2, nameLength := 5, extraLength := 0
    commentLength := 0, bytesOffset := 35, name := some txtATxt, extra := none, comment := none }

/-- An archive whose single entry `a.txt` has method 12 and declares the
checksum 0; its data are the bytes `ab`. -/
def otherMethodZip : List Nat := oneEntryZip 12 0 2 2 txtATxt [0x61, 0x62]

/-- A stored entry that declares 4 bytes and the checksum of the text `ab`. -/
def truncatedEntry : ZipEntry :=
  { versionMadeBy := 20, versionToExtract := 20, flag := 0, method := 0, mTime := 0, mDate := 0
    crc32 := 0x9e83486d, compressedSize := 4, unCompressedSize := 4, nameLength := 5
    extraLength := 0, commentLength := 0, bytesOffset := 108, name := some txtATxt
    extra := none, comment := none }

/-- An archive of 110 bytes whose single stored entry `a.txt` declares 4 bytes of
data and the checksum of the text `ab`; the file ends after the two bytes `ab`
of the data. -/
def truncatedStoreZip : List Nat := truncatedZip 0x9e83486d 4 txtATxt [0x61, 0x62]

/-- An archive whose single stored entry, named `classesXdex`, holds the bytes of
the two-class bytecode file. -/
def classesXdexZip : List Nat :=
  oneEntryZip COMPRESS_STORE (crc32Ref 0 pairDexBytes) pairDexBytes.length pairDexBytes.length
    txtClassesXdex pairDexBytes

/-- The entry of `classesXdexZip`, as `ZipFile::open` sets it. -/
def classesXdexEntry : ZipEntry :=
  { versionMadeBy := 20, versionToExtract := 20, flag := 0, method := 0, mTime := 0, mDate := 0
    crc32 := crc32Ref 0 pairDexBytes, compressedSize := 268, unCompressedSize := 268
    nameLength := 11, extraLength := 0, commentLength := 0, bytesOffset := 41
    name := some txtClassesXdex, extra := none, comment := none }

/-! ## Specification-side vocabulary for the recursion on superclasses -/

/-- The class on which the nested call number `k` of `resolveClass` works when
the outermost call, number 0, is on `ref` in the state `st`, or `none` when the
calls do not nest that deep: a call on a memoized class and a call on a class
without loaded superclass make no further call.  The memo is not written before
the innermost call returns, so it is `st` all the way down. -/
def callAt (mDexVec : List DexFile) (st : ResolveState) : Nat → ClassRef → Option ClassRef
  | 0, ref => some ref
  | k + 1, ref =>
    if (st.mResolvedClassMap.lookup ref).isSome then none
    else
      match superOf mDexVec ref with
      | none => none
      | some s => callAt mDexVec st k s

/-- The chain of nested calls from `ref` comes back to a class it has already
passed; a class that is passed is not memoized. -/
def chainRevisits (mDexVec : List DexFile) (st : ResolveState) (ref : ClassRef) : Prop :=
  ∃ i j c, i < j ∧ callAt mDexVec st i ref = some c ∧ callAt mDexVec st j ref = some c

/-- The loaded ancestor number `n` of `ref`: `ref` itself for `n = 0`. -/
def ancestorAt (mDexVec : List DexFile) : Nat → ClassRef → Option ClassRef
  | 0, ref => some ref
  | n + 1, ref =>
    match superOf mDexVec ref with
    | none => none
    | some s => ancestorAt mDexVec n s

/-- The memo holds the loaded superclass of every class it holds. -/
def memoClosed (mDexVec : List DexFile) (st : ResolveState) : Prop :=
  ∀ c s, st.known c → superOf mDexVec c = some s → st.known s

/-- The class definitions `findClassByName` can return, for the files of
`mDexVec` counted from `idx`: the values of the name maps. -/
def loadedClassesFrom : List DexFile → Nat → List ClassRef
  | [], _ => []
  | dex :: rest, idx =>
    dex.nameToClassMap.map (fun e => (idx, e.2)) ++ loadedClassesFrom rest (idx + 1)

/-- The class definitions `findClassByName` can return. -/
def loadedClasses (mDexVec : List DexFile) : List ClassRef := loadedClassesFrom mDexVec 0

/-! ## Example bytecode files and states for the recursion -/

/-- A file with the classes `LBase;` (superclass `LSub;`) and `LSub;`
(superclass `LBase;`), each with one public instance field `f` of type `I`. -/
def cycleDexBytes : List Nat :=
  exampleDexBytes [txtI, txtBase, txtObj, txtSub, txtF] [0, 1, 2, 3]
    [(1, 0, 4), (3, 0, 4)]
    [(1, 3, [0, 1, 0, 0, 0, 1]), (3, 1, [0, 1, 0, 0, 1, 1])]

/-- The file with the two-class cycle, loaded. -/
def cycleDex : DexFile := loadDex cycleDexBytes

/-- A file with the single class `LBase;`, which names itself as superclass. -/
def selfDexBytes : List Nat :=
  exampleDexBytes [txtI, txtBase, txtObj, txtSub, txtF] [0, 1, 2, 3]
    [(1, 0, 4)]
    [(1, 1, [0, 1, 0, 0, 0, 1])]

/-- The file with the self-referring class, loaded. -/
def selfDex : DexFile := loadDex selfDexBytes

/-- The resolver state after `resolveClass` on the class `LBase;` of the
three-class file. -/
def chainBaseResolved : ResolveState :=
  { mResolvedClassMap := [((0, 0), [exampleField txtBase])]
    outVec := []
    decoded := [(0, 0)] }

/-- The resolver state after `resolveClass` on the class `LMid;` of the
three-class file, run in the state `chainBaseResolved`. -/
def chainMidResolved : ResolveState :=
  { mResolvedClassMap :=
      [((0, 1), [exampleField txtMid, exampleField txtBase]), ((0, 0), [exampleField txtBase])]
    outVec := [(exampleField txtMid, exampleField txtBase)]
    decoded := [(0, 0), (0, 1)] }

/-! ## Specification-side vocabulary for the five-byte bound -/

/-- The byte `i` places behind the cursor. -/
def BytesInput.peek (inp : BytesInput) (i : Nat) : Nat := byteAt inp.mBuff (inp.mCursor + i)

/-- One plus the index of the first of the bytes `b 0` to `b 4` whose high bit is
clear, or 5 if all five have it set. -/
def ulebLength (b : Nat → Nat) : Nat :=
  match (List.range 5).find? (fun i => decide (b i &&& 0x80 = 0)) with
  | some i => i + 1
  | none => 5

/-- The sum over `i < k` of `(b i & 0x7f) * 2^(7i)`, reduced modulo `2^32`. -/
def ulebSum (b : Nat → Nat) (k : Nat) : Nat :=
  ((List.range k).map (fun i => (b i &&& 0x7f) * 2 ^ (7 * i))).sum % 2 ^ 32

/-! # Theorems -/

/-! ## Byte cursor and ULEB128 -/

theorem readU1_eq (inp : BytesInput) (cur : Nat) :
    inp.readU1 cur = if inp.mCursor < inp.mLength
      then (inp.advance 1, byteAt inp.mBuff inp.mCursor)
      else (inp, cur) := by
  unfold BytesInput.readU1 BytesInput.write BytesInput.advance
  by_cases h : inp.mCursor < inp.mLength
  · have : min (inp.mLength - inp.mCursor) 1 = 1 := by omega
    simp [this, h, List.range_succ]
  · have : min (inp.mLength - inp.mCursor) 1 = 0 := by omega
    simp [this, h]

theorem advance_zero (inp : BytesInput) : inp.advance 0 = inp := by
  simp [BytesInput.advance]

theorem advance_advance (inp : BytesInput) (a b : Nat) :
    (inp.advance a).advance b = inp.advance (a + b) := by
  simp [BytesInput.advance, Nat.add_assoc]

theorem holds_nil (inp : BytesInput) (h : inp.mCursor ≤ inp.mLength) : inp.holds [] := by
  exact ⟨⟨_, rfl⟩, by simpa using h⟩

theorem holds_cons {inp : BytesInput} {b : Nat} {c : List Nat} (h : inp.holds (b :: c)) :
    inp.mCursor < inp.mLength ∧ byteAt inp.mBuff inp.mCursor = b % 256 ∧ (inp.advance 1).holds c := by
  obtain ⟨⟨t, ht⟩, hl⟩ := h
  simp only [List.length_cons] at hl
  refine ⟨by omega, ?_, ⟨t, ?_⟩, ?_⟩
  · have : inp.mBuff.getD inp.mCursor 0 = b := by
      have h1 : (inp.mBuff.drop inp.mCursor).getD 0 0 = b := by rw [ht]; rfl
      simpa [List.getD_eq_getElem?_getD, List.getElem?_drop] using h1
    rw [byteAt, this]
  · have : inp.mBuff.drop (inp.mCursor + 1) = (inp.mBuff.drop inp.mCursor).drop 1 := by
      rw [List.drop_drop]
    simp [BytesInput.advance, this, ht]
  · simp [BytesInput.advance]
    omega

theorem holds_append {inp : BytesInput} {a b : List Nat} (h : inp.holds (a ++ b)) :
    inp.holds a ∧ (inp.advance a.length).holds b := by
  obtain ⟨⟨t, ht⟩, hl⟩ := h
  simp only [List.length_append] at hl
  refine ⟨⟨⟨b ++ t, by simpa using ht⟩, by omega⟩, ⟨t, ?_⟩, ?_⟩
  · have : inp.mBuff.drop (inp.mCursor + a.length) = (inp.mBuff.drop inp.mCursor).drop a.length := by
      rw [List.drop_drop]
    simp [BytesInput.advance, this, ht]
  · simp [BytesInput.advance]
    omega

theorem or_shift_eq_add {a n : Nat} (b : Nat) (h : a < 2 ^ n) : a ||| (b <<< n) = a + b * 2 ^ n := by
  rw [Nat.shiftLeft_eq, Nat.or_comm, Nat.mul_comm, ← Nat.mul_add_lt_is_or h, Nat.add_comm]


set_option maxRecDepth 20000 in
theorem and_0x80 : ∀ b < 256, (b &&& 0x80 = 128) ↔ 128 ≤ b := by
  decide

theorem uleb_step_last (count result b : Nat) (hc : count ≤ 4) (hr : result < 2 ^ (7 * count)) :
    (result ||| (((b % 128) <<< (count * 7)) % 2 ^ 32)) % 2 ^ 32
      = (result + (b % 128) * 2 ^ (7 * count)) % 2 ^ 32 := by
  have h4 : ((b % 128) <<< (count * 7)) % 2 ^ 32 = ((b % 128) % 2 ^ (32 - 7 * count)) <<< (7 * count) := by
    rw [Nat.shiftLeft_eq, Nat.shiftLeft_eq]
    interval_cases count <;> norm_num <;> omega
  rw [h4, or_shift_eq_add _ hr]
  interval_cases count <;> norm_num at hr ⊢ <;> omega

theorem uleb_step_more (count result b : Nat) (hc : count < 4) (hr : result < 2 ^ (7 * count)) :
    (result ||| (((b % 128) <<< (count * 7)) % 2 ^ 32)) % 2 ^ 32
      = result + (b % 128) * 2 ^ (7 * count) ∧
    result + (b % 128) * 2 ^ (7 * count) < 2 ^ (7 * (count + 1)) := by
  have hlt : result + (b % 128) * 2 ^ (7 * count) < 2 ^ (7 * (count + 1)) := by
    interval_cases count <;> norm_num at hr ⊢ <;> omega
  refine ⟨?_, hlt⟩
  rw [uleb_step_last count result b (by omega) hr]
  apply Nat.mod_eq_of_lt
  refine lt_of_lt_of_le hlt (Nat.pow_le_pow_right (by norm_num) (by omega))

theorem loop_chunk (c : List Nat) : ∀ (fuel count result cur : Nat) (inp : BytesInput),
    fuel + count = 5 → isULEB128From count c = true → result < 2 ^ (7 * count) →
    inp.holds c →
    readAsULEB128Loop fuel inp result count cur
      = (inp.advance c.length, (result + ulebValueFrom count c) % 2 ^ 32) := by
  induction c with
  | nil => intro fuel count result cur inp _ h; simp [isULEB128From] at h
  | cons b rest ih =>
    intro fuel count result cur inp hf hwf hres hh
    obtain ⟨hlt, hb, hrest⟩ := holds_cons hh
    have h7f : b &&& 0x7f = b % 128 := Nat.and_pow_two_sub_one_eq_mod b 7
    cases rest with
    | nil =>
      simp only [isULEB128From, Bool.and_eq_true, Bool.or_eq_true, decide_eq_true_eq] at hwf
      obtain ⟨⟨hb256, hlast⟩, hpos⟩ := hwf
      obtain ⟨fuel, rfl⟩ : ∃ k, fuel = k + 1 := ⟨fuel - 1, by omega⟩
      have hb' : byteAt inp.mBuff inp.mCursor = b := by rw [hb]; omega
      have h80 : ¬ (b &&& 0x80 = 128 ∧ count + 1 < 5) := by
        rw [and_0x80 b hb256]; omega
      simp only [readAsULEB128Loop, readU1_eq, hlt, if_true, hb', h7f, h80, if_false,
        List.length_cons, List.length_nil, ulebValueFrom]
      rw [uleb_step_last count result b hpos hres]
      simp
    | cons b' rest' =>
      simp only [isULEB128From, Bool.and_eq_true, decide_eq_true_eq] at hwf
      obtain ⟨⟨hb128, hb256, hpos⟩, hwf'⟩ := hwf
      obtain ⟨fuel, rfl⟩ : ∃ k, fuel = k + 1 := ⟨fuel - 1, by omega⟩
      have hb' : byteAt inp.mBuff inp.mCursor = b := by rw [hb]; omega
      have h80 : (b &&& 0x80 = 128 ∧ count + 1 < 5) := by
        rw [and_0x80 b hb256]; omega
      obtain ⟨hval, hbound⟩ := uleb_step_more count result b hpos hres
      simp only [readAsULEB128Loop, readU1_eq, hlt, if_true, hb', h7f, h80, and_self]
      rw [hval, ih fuel (count + 1) _ b (inp.advance 1) (by omega) hwf' hbound hrest]
      simp only [advance_advance, ulebValueFrom, List.length_cons, Nat.add_assoc]
      congr 2
      omega

theorem readAsULEB128_chunk (c : List Nat) (inp : BytesInput) (junk : Nat)
    (hwf : isULEB128From 0 c = true) (hh : inp.holds c) :
    readAsULEB128 inp junk = (inp.advance c.length, ulebValue c) := by
  unfold readAsULEB128 ulebValue
  rw [loop_chunk c 5 0 0 junk inp rfl hwf (by norm_num) hh]
  simp


theorem encode_spec : ∀ (k pos v : Nat), pos + k = 4 → v < 2 ^ (32 - 7 * pos) →
    isULEB128From pos (encodeULEB128Fuel k v) = true ∧
    ulebValueFrom pos (encodeULEB128Fuel k v) = v * 2 ^ (7 * pos) ∧
    (encodeULEB128Fuel k v).length ≤ k + 1 := by
  intro k
  induction k with
  | zero =>
    intro pos v hpos hv
    obtain rfl : pos = 4 := by omega
    have hv' : v < 128 := by norm_num at hv; omega
    simp [encodeULEB128Fuel, isULEB128From, ulebValueFrom, Nat.mod_eq_of_lt hv']
    omega
  | succ k ih =>
    intro pos v hpos hv
    by_cases hv' : v < 128
    · rw [encodeULEB128Fuel, if_pos hv']
      simp [isULEB128From, ulebValueFrom, Nat.mod_eq_of_lt hv']
      omega
    · rw [encodeULEB128Fuel, if_neg hv']
      have hv2 : v / 128 < 2 ^ (32 - 7 * (pos + 1)) := by
        have : pos ≤ 3 := by omega
        interval_cases pos <;> norm_num at hv ⊢ <;> omega
      obtain ⟨h1, h2, h3⟩ := ih (pos + 1) (v / 128) (by omega) hv2
      cases henc : encodeULEB128Fuel k (v / 128) with
      | nil => rw [henc] at h1; simp [isULEB128From] at h1
      | cons b' rest' =>
        rw [henc] at h1 h2 h3
        refine ⟨?_, ?_, ?_⟩
        · simp only [isULEB128From, h1, Bool.and_true, decide_eq_true_eq]
          omega
        · rw [ulebValueFrom, h2]
          have : (v % 128 + 128) % 128 = v % 128 := by omega
          rw [this, show 7 * (pos + 1) = 7 * pos + 7 by ring, pow_add]
          have e := (Nat.div_add_mod v 128).symm
          generalize v / 128 = q at e ⊢
          generalize v % 128 = r at e ⊢
          rw [e]
          ring
        · simp only [List.length_cons] at h3 ⊢
          omega

theorem encode_isULEB128 (v : Nat) (hv : v < 2 ^ 32) : isULEB128From 0 (encodeULEB128 v) = true :=
  (encode_spec 4 0 v rfl (by simpa using hv)).1

theorem encode_value (v : Nat) (hv : v < 2 ^ 32) : ulebValue (encodeULEB128 v) = v := by
  have := (encode_spec 4 0 v rfl (by simpa using hv)).2.1
  rw [ulebValue, encodeULEB128, this]
  simp
  omega

theorem encode_length (v : Nat) (hv : v < 2 ^ 32) : (encodeULEB128 v).length ≤ 5 :=
  (encode_spec 4 0 v rfl (by simpa using hv)).2.2

/-! ## The class-data decoder on a complete blob -/

theorem holds_pre (pre c rest : List Nat) (len : Nat) (h : pre.length + c.length ≤ len) :
    BytesInput.holds ⟨pre ++ c ++ rest, len, pre.length⟩ c := by
  refine ⟨⟨rest, ?_⟩, h⟩
  simp [List.append_assoc]

theorem skipStaticFields_spec (junk : Nat) (l : List (List Nat × List Nat)) :
    ∀ (inp : BytesInput),
    (∀ p ∈ l, isULEB128From 0 p.1 = true ∧ isULEB128From 0 p.2 = true) →
    inp.holds (pairBytes l) →
    skipStaticFields junk l.length inp = inp.advance (pairBytes l).length := by
  induction l with
  | nil => intro inp _ _; simp [skipStaticFields, pairBytes, advance_zero]
  | cons p l ih =>
    intro inp hwf hh
    have hp := hwf p (List.mem_cons_self _ _)
    have hh' : inp.holds (p.1 ++ (p.2 ++ pairBytes l)) := by
      simpa [pairBytes, List.append_assoc] using hh
    obtain ⟨h1, hh1⟩ := holds_append hh'
    obtain ⟨h2, hh2⟩ := holds_append hh1
    simp only [List.length_cons, skipStaticFields]
    rw [readAsULEB128_chunk p.1 inp junk hp.1 h1]
    simp only
    rw [readAsULEB128_chunk p.2 _ junk hp.2 h2]
    simp only
    rw [ih _ (fun q hq => hwf q (List.mem_cons_of_mem _ hq)) hh2]
    simp [advance_advance, pairBytes, Nat.add_assoc]

theorem skipMethods_spec (junk : Nat) (l : List (List Nat × List Nat × List Nat)) :
    ∀ (inp : BytesInput),
    (∀ p ∈ l, isULEB128From 0 p.1 = true ∧ isULEB128From 0 p.2.1 = true
      ∧ isULEB128From 0 p.2.2 = true) →
    inp.holds (tripleBytes l) →
    skipMethods junk l.length inp = inp.advance (tripleBytes l).length := by
  induction l with
  | nil => intro inp _ _; simp [skipMethods, tripleBytes, advance_zero]
  | cons p l ih =>
    intro inp hwf hh
    have hp := hwf p (List.mem_cons_self _ _)
    have hh' : inp.holds (p.1 ++ (p.2.1 ++ (p.2.2 ++ tripleBytes l))) := by
      simpa [tripleBytes, List.append_assoc] using hh
    obtain ⟨h1, hh1⟩ := holds_append hh'
    obtain ⟨h2, hh2⟩ := holds_append hh1
    obtain ⟨h3, hh3⟩ := holds_append hh2
    simp only [List.length_cons, skipMethods]
    rw [readAsULEB128_chunk p.1 inp junk hp.1 h1]
    simp only
    rw [readAsULEB128_chunk p.2.1 _ junk hp.2.1 h2]
    simp only
    rw [readAsULEB128_chunk p.2.2 _ junk hp.2.2 h3]
    simp only
    rw [ih _ (fun q hq => hwf q (List.mem_cons_of_mem _ hq)) hh3]
    simp [advance_advance, tripleBytes, Nat.add_assoc]

theorem readInstanceFields_spec (junk : Nat) (l : List (List Nat × List Nat)) :
    ∀ (inp : BytesInput) (off : Nat) (acc : List DexField),
    (∀ p ∈ l, isULEB128From 0 p.1 = true ∧ isULEB128From 0 p.2 = true) →
    inp.holds (pairBytes l) →
    readInstanceFields junk l.length inp off acc
      = (inp.advance (pairBytes l).length, acc ++ instanceFieldsFrom off l) := by
  induction l with
  | nil => intro inp off acc _ _; simp [readInstanceFields, pairBytes, advance_zero, instanceFieldsFrom]
  | cons p l ih =>
    intro inp off acc hwf hh
    have hp := hwf p (List.mem_cons_self _ _)
    have hh' : inp.holds (p.1 ++ (p.2 ++ pairBytes l)) := by
      simpa [pairBytes, List.append_assoc] using hh
    obtain ⟨h1, hh1⟩ := holds_append hh'
    obtain ⟨h2, hh2⟩ := holds_append hh1
    simp only [List.length_cons, readInstanceFields]
    rw [readAsULEB128_chunk p.1 inp junk hp.1 h1]
    simp only
    rw [readAsULEB128_chunk p.2 _ junk hp.2 h2]
    simp only
    rw [ih _ _ _ (fun q hq => hwf q (List.mem_cons_of_mem _ hq)) hh2]
    simp [advance_advance, pairBytes, Nat.add_assoc, instanceFieldsFrom]

theorem instanceFieldsFrom_length (l : List (List Nat × List Nat)) :
    ∀ off, (instanceFieldsFrom off l).length = l.length := by
  induction l with
  | nil => intro off; rfl
  | cons p l ih => intro off; simp [instanceFieldsFrom, ih]

theorem instanceFieldsFrom_get (l : List (List Nat × List Nat)) :
    ∀ (off i : Nat) (p : List Nat × List Nat), l[i]? = some p →
    (instanceFieldsFrom off l)[i]? = some
      { fieldIdx := (off + ((l.take (i + 1)).map (fun q => ulebValue q.1)).sum) % 2 ^ 32
        accessFlags := ulebValue p.2 } := by
  induction l with
  | nil => intro off i p h; simp at h
  | cons q l ih =>
    intro off i p h
    cases i with
    | zero =>
      simp only [List.getElem?_cons_zero, Option.some.injEq] at h
      subst h
      simp [instanceFieldsFrom]
    | succ i =>
      simp only [List.getElem?_cons_succ] at h
      simp only [instanceFieldsFrom, List.getElem?_cons_succ, List.take_succ_cons, List.map_cons,
        List.sum_cons]
      rw [ih _ i p h]
      simp only [Option.some.injEq, DexField.mk.injEq, and_true]
      generalize (List.map (fun q => ulebValue q.1) (List.take (i + 1) l)).sum = t
      omega

theorem readFrom_blob (cs cn cd cv : List Nat) (statics instances : List (List Nat × List Nat))
    (directs virtuals : List (List Nat × List Nat × List Nat)) (inp : BytesInput) (junk : Nat)
    (hcs : isULEB128From 0 cs = true) (hcn : isULEB128From 0 cn = true)
    (hcd : isULEB128From 0 cd = true) (hcv : isULEB128From 0 cv = true)
    (hws : ∀ p ∈ statics, isULEB128From 0 p.1 = true ∧ isULEB128From 0 p.2 = true)
    (hwi : ∀ p ∈ instances, isULEB128From 0 p.1 = true ∧ isULEB128From 0 p.2 = true)
    (hwd : ∀ p ∈ directs, isULEB128From 0 p.1 = true ∧ isULEB128From 0 p.2.1 = true
      ∧ isULEB128From 0 p.2.2 = true)
    (hwv : ∀ p ∈ virtuals, isULEB128From 0 p.1 = true ∧ isULEB128From 0 p.2.1 = true
      ∧ isULEB128From 0 p.2.2 = true)
    (hs : statics.length = ulebValue cs) (hn : instances.length = ulebValue cn)
    (hd : directs.length = ulebValue cd) (hv : virtuals.length = ulebValue cv)
    (hh : inp.holds (classDataBytes cs cn cd cv statics instances directs virtuals)) :
    DexClassData.readFrom inp junk =
      (0, { staticFieldsSize := ulebValue cs
            instanceFieldsSize := ulebValue cn
            directMethodsSize := ulebValue cd
            virtualMethodsSize := ulebValue cv
            instanceFields := instanceFieldsFrom 0 instances },
        inp.advance (classDataBytes cs cn cd cv statics instances directs virtuals).length) := by
  have hh' : inp.holds (cs ++ (cn ++ (cd ++ (cv ++ (pairBytes statics ++ (pairBytes instances
      ++ (tripleBytes directs ++ (tripleBytes virtuals ++ [])))))))) := by
    simpa [classDataBytes, List.append_assoc] using hh
  obtain ⟨h1, hh1⟩ := holds_append hh'
  obtain ⟨h2, hh2⟩ := holds_append hh1
  obtain ⟨h3, hh3⟩ := holds_append hh2
  obtain ⟨h4, hh4⟩ := holds_append hh3
  obtain ⟨h5, hh5⟩ := holds_append hh4
  obtain ⟨h6, hh6⟩ := holds_append hh5
  obtain ⟨h7, hh7⟩ := holds_append hh6
  obtain ⟨h8, _⟩ := holds_append hh7
  unfold DexClassData.readFrom
  rw [readAsULEB128_chunk cs inp junk hcs h1]
  simp only
  rw [readAsULEB128_chunk cn _ junk hcn h2]
  simp only
  rw [readAsULEB128_chunk cd _ junk hcd h3]
  simp only
  rw [readAsULEB128_chunk cv _ junk hcv h4]
  simp only
  rw [← hs, ← hn, ← hd, ← hv, skipStaticFields_spec junk statics _ hws h5,
    readInstanceFields_spec junk instances _ 0 [] hwi h6]
  simp only
  rw [skipMethods_spec junk directs _ hwd h7, skipMethods_spec junk virtuals _ hwv h8]
  simp [advance_advance, classDataBytes, Nat.add_assoc]

/-! ## Claims on the decoder -/

/-- C7 (ULEB128 round trip): for every 32-bit value the decoder, placed at the start
of the minimal encoding of the value, returns the value and leaves the cursor
right behind the encoding, which is at most five bytes long. -/
theorem readAsULEB128_roundtrip (v : Nat) (hv : v < 2 ^ 32) (pre rest : List Nat)
    (len junk : Nat) (hlen : pre.length + (encodeULEB128 v).length ≤ len) :
    readAsULEB128 ⟨pre ++ encodeULEB128 v ++ rest, len, pre.length⟩ junk
      = (⟨pre ++ encodeULEB128 v ++ rest, len, pre.length + (encodeULEB128 v).length⟩, v)
    ∧ (encodeULEB128 v).length ≤ 5 := by
  refine ⟨?_, encode_length v hv⟩
  rw [readAsULEB128_chunk (encodeULEB128 v) _ junk (encode_isULEB128 v hv)
    (holds_pre pre _ rest len hlen), encode_value v hv]
  rfl

theorem readAsULEB128_roundtrip_witness :
    (4294967295 < 2 ^ 32 ∧ [7, 7].length + (encodeULEB128 4294967295).length ≤ 8) ∧
    (readAsULEB128 ⟨[7, 7] ++ encodeULEB128 4294967295 ++ [9], 8, [7, 7].length⟩ 0
      = (⟨[7, 7] ++ encodeULEB128 4294967295 ++ [9], 8,
          [7, 7].length + (encodeULEB128 4294967295).length⟩, 4294967295)
    ∧ (encodeULEB128 4294967295).length ≤ 5) :=
  ⟨⟨by norm_num, by decide⟩,
    readAsULEB128_roundtrip 4294967295 (by norm_num) [7, 7] [9] 8 0 (by decide)⟩

/-- C8: on a complete class-data blob (four counts, then the static pairs, the
instance pairs and the method triples they announce) `readFrom` returns 0, keeps
one entry per instance pair in declaration order, whose access flags are the
pair's second value and whose field index is the sum modulo `2^32` of the
instance deltas up to and including its own (the static deltas do not enter),
and leaves the cursor right behind the blob. -/
theorem readFrom_complete_blob (cs cn cd cv : List Nat)
    (statics instances : List (List Nat × List Nat))
    (directs virtuals : List (List Nat × List Nat × List Nat)) (inp : BytesInput) (junk : Nat)
    (hcs : isULEB128From 0 cs = true) (hcn : isULEB128From 0 cn = true)
    (hcd : isULEB128From 0 cd = true) (hcv : isULEB128From 0 cv = true)
    (hws : ∀ p ∈ statics, isULEB128From 0 p.1 = true ∧ isULEB128From 0 p.2 = true)
    (hwi : ∀ p ∈ instances, isULEB128From 0 p.1 = true ∧ isULEB128From 0 p.2 = true)
    (hwd : ∀ p ∈ directs, isULEB128From 0 p.1 = true ∧ isULEB128From 0 p.2.1 = true
      ∧ isULEB128From 0 p.2.2 = true)
    (hwv : ∀ p ∈ virtuals, isULEB128From 0 p.1 = true ∧ isULEB128From 0 p.2.1 = true
      ∧ isULEB128From 0 p.2.2 = true)
    (hs : statics.length = ulebValue cs) (hn : instances.length = ulebValue cn)
    (hd : directs.length = ulebValue cd) (hv : virtuals.length = ulebValue cv)
    (hh : inp.holds (classDataBytes cs cn cd cv statics instances directs virtuals)) :
    (DexClassData.readFrom inp junk).1 = 0 ∧
    (DexClassData.readFrom inp junk).2.1.instanceFieldsSize = ulebValue cn ∧
    (DexClassData.readFrom inp junk).2.1.instanceFields.length = ulebValue cn ∧
    (∀ (i : Nat) (p : List Nat × List Nat), instances[i]? = some p →
      (DexClassData.readFrom inp junk).2.1.instanceFields[i]? = some
        { fieldIdx := ((instances.take (i + 1)).map (fun q => ulebValue q.1)).sum % 2 ^ 32
          accessFlags := ulebValue p.2 }) ∧
    (DexClassData.readFrom inp junk).2.2 = inp.advance
      (cs.length + cn.length + cd.length + cv.length + (pairBytes statics).length
        + (pairBytes instances).length + (tripleBytes directs).length
        + (tripleBytes virtuals).length) := by
  rw [readFrom_blob cs cn cd cv statics instances directs virtuals inp junk hcs hcn hcd hcv
    hws hwi hwd hwv hs hn hd hv hh]
  refine ⟨rfl, rfl, ?_, ?_, ?_⟩
  · simp only [instanceFieldsFrom_length, hn]
  · intro i p hp
    simp only
    rw [instanceFieldsFrom_get instances 0 i p hp]
    simp
  · simp [classDataBytes, Nat.add_assoc]

theorem readFrom_complete_blob_witness :
    (DexClassData.readFrom ⟨[170, 1, 2, 1, 0, 5, 0, 3, 1, 130, 1, 16, 7, 8, 9], 15, 1⟩ 0).1 = 0 ∧
    (DexClassData.readFrom ⟨[170, 1, 2, 1, 0, 5, 0, 3, 1, 130, 1, 16, 7, 8, 9], 15, 1⟩
      0).2.1.instanceFieldsSize = ulebValue [2] ∧
    (DexClassData.readFrom ⟨[170, 1, 2, 1, 0, 5, 0, 3, 1, 130, 1, 16, 7, 8, 9], 15, 1⟩
      0).2.1.instanceFields.length = ulebValue [2] ∧
    (∀ (i : Nat) (p : List Nat × List Nat),
      [([3], [1]), ([130, 1], [16])][i]? = some p →
      (DexClassData.readFrom ⟨[170, 1, 2, 1, 0, 5, 0, 3, 1, 130, 1, 16, 7, 8, 9], 15, 1⟩
        0).2.1.instanceFields[i]? = some
        { fieldIdx := (([([3], [1]), ([130, 1], [16])].take (i + 1)).map
            (fun q => ulebValue q.1)).sum % 2 ^ 32
          accessFlags := ulebValue p.2 }) ∧
    (DexClassData.readFrom ⟨[170, 1, 2, 1, 0, 5, 0, 3, 1, 130, 1, 16, 7, 8, 9], 15, 1⟩ 0).2.2
      = BytesInput.advance ⟨[170, 1, 2, 1, 0, 5, 0, 3, 1, 130, 1, 16, 7, 8, 9], 15, 1⟩
      ([1].length + [2].length + [1].length + [0].length + (pairBytes [([5], [0])]).length
        + (pairBytes [([3], [1]), ([130, 1], [16])]).length
        + (tripleBytes [([7], [8], [9])]).length + (tripleBytes []).length) :=
  readFrom_complete_blob [1] [2] [1] [0] [([5], [0])] [([3], [1]), ([130, 1], [16])]
    [([7], [8], [9])] [] ⟨[170, 1, 2, 1, 0, 5, 0, 3, 1, 130, 1, 16, 7, 8, 9], 15, 1⟩ 0
    (by decide) (by decide) (by decide) (by decide) (by decide) (by decide) (by decide)
    (by decide) (by decide) (by decide) (by decide) (by decide) ⟨⟨[], by decide⟩, by decide⟩

/-! ## The comparator and the sorting contract -/

theorem strcmp_self (a : List Nat) : strcmp a a = 0 := by
  induction a with
  | nil => rfl
  | cons x a ih => simp [strcmp, ih]

theorem strcmp_eq_zero {a b : List Nat} : strcmp a b = 0 ↔ a = b := by
  induction a generalizing b with
  | nil => cases b <;> simp [strcmp]
  | cons x a ih =>
    cases b with
    | nil => simp [strcmp]
    | cons y b =>
      simp only [strcmp, List.cons.injEq]
      by_cases h1 : x < y
      · simp [h1]; omega
      · by_cases h2 : y < x
        · simp [h1, h2]; omega
        · have : x = y := by omega
          simp [h1, h2, ih, this]

theorem strcmp_range (a b : List Nat) : strcmp a b = -1 ∨ strcmp a b = 0 ∨ strcmp a b = 1 := by
  induction a generalizing b with
  | nil => cases b <;> simp [strcmp]
  | cons x a ih =>
    cases b with
    | nil => simp [strcmp]
    | cons y b =>
      simp only [strcmp]
      split
      · simp
      · split
        · simp
        · exact ih b

theorem strcmp_swap (a b : List Nat) : strcmp b a = - strcmp a b := by
  induction a generalizing b with
  | nil => cases b <;> simp [strcmp]
  | cons x a ih =>
    cases b with
    | nil => simp [strcmp]
    | cons y b =>
      simp only [strcmp]
      by_cases h1 : x < y
      · have : ¬ y < x := by omega
        simp [h1, this]
      · by_cases h2 : y < x
        · simp [h1, h2]
        · simp [h1, h2, ih]

theorem strcmp_lt_iff {a b : List Nat} : strcmp a b < 0 ↔ List.Lex (· < ·) a b := by
  induction a generalizing b with
  | nil =>
    cases b with
    | nil => simp [strcmp]
    | cons y b => simp [strcmp, List.Lex.nil]
  | cons x a ih =>
    cases b with
    | nil => simp [strcmp]
    | cons y b =>
      simp only [strcmp]
      by_cases h1 : x < y
      · simp only [h1, if_true]
        exact ⟨fun _ => List.Lex.rel h1, fun _ => by norm_num⟩
      · by_cases h2 : y < x
        · simp only [h1, h2, if_false, if_true]
          constructor
          · intro h; norm_num at h
          · intro h
            cases h with
            | cons h => omega
            | rel h => omega
        · have : x = y := by omega
          subst this
          simp only [h1, if_false, ih]
          constructor
          · intro h; exact List.Lex.cons h
          · intro h
            cases h with
            | cons h => exact h
            | rel h => omega

theorem strcmp_trans {a b c : List Nat} (h1 : strcmp a b ≤ 0) (h2 : strcmp b c ≤ 0) :
    strcmp a c ≤ 0 := by
  induction a generalizing b c with
  | nil => cases c <;> simp [strcmp]
  | cons x a ih =>
    cases b with
    | nil => simp [strcmp] at h1
    | cons y b =>
      cases c with
      | nil => simp [strcmp] at h2
      | cons z c =>
        simp only [strcmp] at h1 h2 ⊢
        by_cases hxy : x < y
        · have : x < z := by
            by_cases hyz : y < z
            · omega
            · by_cases hzy : z < y
              · simp [hyz, hzy] at h2
              · omega
          simp [this]
        · by_cases hyx : y < x
          · simp [hxy, hyx] at h1
          · have e : x = y := by omega
            subst e
            simp only [hxy, if_false] at h1
            by_cases hxz : x < z
            · simp [hxz]
            · by_cases hzx : z < x
              · simp [hxz, hzx] at h2
              · simp only [hxz, hzx, if_false] at h2 ⊢
                exact ih h1 h2

theorem compare_eq_zero {p q : ResolvedField} :
    ResolvedField.compare p q = 0 ↔ p.name = q.name ∧ p.type = q.type := by
  unfold ResolvedField.compare
  by_cases h : strcmp p.name q.name = 0
  · simp [h, strcmp_eq_zero, strcmp_eq_zero.mp h]
  · have h' : p.name ≠ q.name := fun e => h (strcmp_eq_zero.mpr e)
    simp [h, h']

theorem compare_swap (p q : ResolvedField) :
    ResolvedField.compare q p = - ResolvedField.compare p q := by
  unfold ResolvedField.compare
  rw [strcmp_swap p.name q.name, strcmp_swap p.type q.type]
  by_cases h : strcmp p.name q.name = 0
  · simp [h]
  · simp [h]

theorem compare_trans {p q r : ResolvedField} (h1 : ResolvedField.compare p q ≤ 0)
    (h2 : ResolvedField.compare q r ≤ 0) : ResolvedField.compare p r ≤ 0 := by
  unfold ResolvedField.compare at *
  rcases strcmp_range p.name q.name with a | a | a <;>
  rcases strcmp_range q.name r.name with b | b | b <;>
  simp only [a, b] at h1 h2 <;> norm_num at h1 h2
  · have : strcmp p.name r.name ≤ 0 := strcmp_trans (b := q.name) (by omega) (by omega)
    have hne : strcmp p.name r.name ≠ 0 := by
      intro e
      rw [strcmp_eq_zero] at e
      rw [e, strcmp_swap] at a
      omega
    simp [hne]; exact this
  · rw [strcmp_eq_zero] at b
    rw [← b, a]; norm_num
  · rw [strcmp_eq_zero] at a
    rw [a, b]; norm_num
  · rw [strcmp_eq_zero] at a b
    rw [a, b, strcmp_self]
    simp only [ne_eq, not_true_eq_false, if_false]
    exact strcmp_trans h1 h2

theorem compare_lt_iff {p q : ResolvedField} :
    ResolvedField.compare p q < 0 ↔
      (List.Lex (· < ·) p.name q.name ∨ (p.name = q.name ∧ List.Lex (· < ·) p.type q.type)) := by
  unfold ResolvedField.compare
  rw [← strcmp_lt_iff, ← strcmp_lt_iff]
  rcases strcmp_range p.name q.name with a | a | a
  · simp [a]
  · simp [a, strcmp_eq_zero.mp a, strcmp_self]
  · have : p.name ≠ q.name := fun e => by rw [e, strcmp_self] at a; omega
    simp [a, this]

theorem insertionSortFields_spec : StdSortSpec insertionSortFields := by
  intro l
  refine ⟨List.perm_insertionSort _ l, ?_⟩
  have hs : (insertionSortFields l).Sorted (fun p q => ResolvedField.compare p q ≤ 0) := by
    haveI : IsTotal ResolvedField (fun p q => ResolvedField.compare p q ≤ 0) :=
      ⟨fun p q => by
        show ResolvedField.compare p q ≤ 0 ∨ ResolvedField.compare q p ≤ 0
        have := compare_swap p q
        omega⟩
    haveI : IsTrans ResolvedField (fun p q => ResolvedField.compare p q ≤ 0) :=
      ⟨fun p q r h1 h2 => compare_trans h1 h2⟩
    exact List.sorted_insertionSort _ l
  refine List.Pairwise.imp ?_ hs
  intro p q h
  rw [compare_swap p q]
  omega

/-! ## The resolver: structure of a run -/

theorem resolveClass_known (srt : ResolvedFieldTable → ResolvedFieldTable) (junk : Nat) (mDexVec : List DexFile)
    (fuel : Nat) (ref : ClassRef) (st : ResolveState)
    (h : st.known ref) : resolveClass srt junk mDexVec (fuel + 1) ref st = some st := by
  unfold ResolveState.known at h
  simp [resolveClass, h]

theorem resolveClass_root (srt : ResolvedFieldTable → ResolvedFieldTable) (junk : Nat) (mDexVec : List DexFile)
    (fuel : Nat) (ref : ClassRef) (st : ResolveState)
    (h : ¬ st.known ref) (hs : superOf mDexVec ref = none) :
    resolveClass srt junk mDexVec (fuel + 1) ref st = some
      { mResolvedClassMap := (ref, ownTable srt junk mDexVec ref) :: st.mResolvedClassMap
        outVec := st.outVec
        decoded := st.decoded ++ [ref] } := by
  unfold ResolveState.known at h
  unfold superOf classDefOf at hs
  simp [resolveClass, h, hs, ownTable, classDefOf]

theorem resolveClass_super (srt : ResolvedFieldTable → ResolvedFieldTable) (junk : Nat) (mDexVec : List DexFile)
    (fuel : Nat) (ref s : ClassRef) (st : ResolveState)
    (h : ¬ st.known ref) (hs : superOf mDexVec ref = some s) :
    resolveClass srt junk mDexVec (fuel + 1) ref st =
      (resolveClass srt junk mDexVec fuel s st).bind (fun st1 =>
        let map1 := if (st1.mResolvedClassMap.lookup s).isSome then st1.mResolvedClassMap
            else (s, []) :: st1.mResolvedClassMap
        let parentTable := (map1.lookup s).getD []
        some { mResolvedClassMap :=
                (ref, srt (ownTable srt junk mDexVec ref ++ parentTable)) :: map1
               outVec := findIntersection st1.outVec (ownTable srt junk mDexVec ref) parentTable
               decoded := st1.decoded ++ [ref] }) := by
  unfold ResolveState.known at h
  unfold superOf classDefOf at hs
  simp only [resolveClass, h, hs, ownTable, classDefOf]
  cases resolveClass srt junk mDexVec fuel s st <;> simp

theorem resolveClass_mono (srt : ResolvedFieldTable → ResolvedFieldTable) (junk : Nat) (mDexVec : List DexFile)
    : ∀ (fuel : Nat) (ref : ClassRef) (st st' : ResolveState),
    resolveClass srt junk mDexVec fuel ref st = some st' →
    resolveClass srt junk mDexVec (fuel + 1) ref st = some st' := by
  intro fuel
  induction fuel with
  | zero => intro ref st st' h; simp [resolveClass] at h
  | succ fuel ih =>
    intro ref st st' h
    by_cases hk : st.known ref
    · rw [resolveClass_known srt junk mDexVec _ ref st hk] at h ⊢
      exact h
    · cases hs : superOf mDexVec ref with
      | none =>
        rw [resolveClass_root srt junk mDexVec _ ref st hk hs] at h ⊢
        exact h
      | some s =>
        rw [resolveClass_super srt junk mDexVec _ ref s st hk hs] at h ⊢
        cases h1 : resolveClass srt junk mDexVec fuel s st with
        | none => rw [h1] at h; simp at h
        | some st1 =>
          rw [ih s st st1 h1]
          rw [h1] at h
          exact h

theorem resolveClass_mono_le (srt : ResolvedFieldTable → ResolvedFieldTable) (junk : Nat) (mDexVec : List DexFile)
    {fuel fuel' : Nat} (hle : fuel ≤ fuel') {ref : ClassRef}
    {st st' : ResolveState} (h : resolveClass srt junk mDexVec fuel ref st = some st') :
    resolveClass srt junk mDexVec fuel' ref st = some st' := by
  induction hle with
  | refl => exact h
  | step _ ih => exact resolveClass_mono srt junk mDexVec _ ref st st' ih

theorem known_cons (st : ResolveState) (k ref : ClassRef) (t : ResolvedFieldTable)
    (out : List ScanResultPair) (dec : List ClassRef) :
    ResolveState.known ⟨(ref, t) :: st.mResolvedClassMap, out, dec⟩ k ↔ k = ref ∨ st.known k := by
  unfold ResolveState.known
  by_cases h : k = ref
  · subst h; simp [List.lookup]
  · have : (k == ref) = false := by simpa using h
    simp [List.lookup, this, h]

/-- What a call of `resolveClass` that returns did, for a class that was not memoized. -/
theorem resolveClass_cases (srt : ResolvedFieldTable → ResolvedFieldTable) (junk : Nat) (mDexVec : List DexFile)
    {fuel : Nat} {ref : ClassRef} {st st' : ResolveState}
    (h : resolveClass srt junk mDexVec fuel ref st = some st') (hk : ¬ st.known ref) :
    (superOf mDexVec ref = none ∧
      st' = { mResolvedClassMap := (ref, ownTable srt junk mDexVec ref) :: st.mResolvedClassMap
              outVec := st.outVec
              decoded := st.decoded ++ [ref] }) ∨
    (∃ s st1 fuel1, fuel = fuel1 + 1 ∧ superOf mDexVec ref = some s ∧
      resolveClass srt junk mDexVec fuel1 s st = some st1 ∧
      st' = { mResolvedClassMap :=
                (ref, srt (ownTable srt junk mDexVec ref ++
                  ((if (st1.mResolvedClassMap.lookup s).isSome then st1.mResolvedClassMap
                    else (s, []) :: st1.mResolvedClassMap).lookup s).getD [])) ::
                  (if (st1.mResolvedClassMap.lookup s).isSome then st1.mResolvedClassMap
                    else (s, []) :: st1.mResolvedClassMap)
              outVec := findIntersection st1.outVec (ownTable srt junk mDexVec ref)
                (((if (st1.mResolvedClassMap.lookup s).isSome then st1.mResolvedClassMap
                    else (s, []) :: st1.mResolvedClassMap).lookup s).getD [])
              decoded := st1.decoded ++ [ref] }) := by
  cases fuel with
  | zero => simp [resolveClass] at h
  | succ fuel =>
    cases hs : superOf mDexVec ref with
    | none =>
      rw [resolveClass_root srt junk mDexVec _ ref st hk hs] at h
      left
      exact ⟨rfl, (Option.some.inj h).symm⟩
    | some s =>
      rw [resolveClass_super srt junk mDexVec _ ref s st hk hs] at h
      right
      cases h1 : resolveClass srt junk mDexVec fuel s st with
      | none => rw [h1] at h; simp at h
      | some st1 =>
        rw [h1] at h
        exact ⟨s, st1, fuel, rfl, rfl, h1, (Option.some.inj h).symm⟩

theorem resolveClass_self_known (srt : ResolvedFieldTable → ResolvedFieldTable) (junk : Nat) (mDexVec : List DexFile)
    : ∀ (fuel : Nat) (ref : ClassRef) (st st' : ResolveState),
    resolveClass srt junk mDexVec fuel ref st = some st' → st'.known ref := by
  intro fuel ref st st' h
  by_cases hk : st.known ref
  · cases fuel with
    | zero => simp [resolveClass] at h
    | succ fuel =>
      rw [resolveClass_known srt junk mDexVec _ ref st hk] at h
      cases h; exact hk
  · rcases resolveClass_cases srt junk mDexVec h hk with ⟨_, rfl⟩ | ⟨s, st1, f1, _, _, _, rfl⟩
    · simp [ResolveState.known, List.lookup]
    · simp [ResolveState.known, List.lookup]

/-- A class that becomes memoized during a call was itself resolved, from the
same state, with no more fuel. -/
theorem resolveClass_origin (srt : ResolvedFieldTable → ResolvedFieldTable) (junk : Nat) (mDexVec : List DexFile)
    : ∀ (fuel : Nat) (ref : ClassRef) (st st' : ResolveState) (c : ClassRef),
    resolveClass srt junk mDexVec fuel ref st = some st' → ¬ st.known c → st'.known c →
    ∃ fuel' st'', fuel' ≤ fuel ∧ resolveClass srt junk mDexVec fuel' c st = some st'' := by
  intro fuel
  induction fuel with
  | zero => intro ref st st' c h; simp [resolveClass] at h
  | succ fuel ih =>
    intro ref st st' c h hc hc'
    by_cases hk : st.known ref
    · rw [resolveClass_known srt junk mDexVec _ ref st hk] at h
      cases h; exact absurd hc' hc
    · by_cases hcr : c = ref
      · subst hcr; exact ⟨fuel + 1, st', le_refl _, h⟩
      · rcases resolveClass_cases srt junk mDexVec h hk with ⟨_, rfl⟩ | ⟨s, st1, f1, hf, _, h1, rfl⟩
        · rw [known_cons] at hc'
          rcases hc' with e | e
          · exact absurd e hcr
          · exact absurd e hc
        · obtain rfl : f1 = fuel := by omega
          have hs1 : st1.known s := resolveClass_self_known srt junk mDexVec _ _ _ _ h1
          unfold ResolveState.known at hs1
          simp only [hs1, if_true] at hc'
          rw [known_cons] at hc'
          rcases hc' with e | e
          · exact absurd e hcr
          · obtain ⟨f', st'', hle, h'⟩ := ih s st st1 c h1 hc e
            exact ⟨f', st'', by omega, h'⟩

/-- While the superclass of a class that is not memoized is being resolved, the
class itself does not become memoized. -/
theorem resolveClass_super_not_known (srt : ResolvedFieldTable → ResolvedFieldTable) (junk : Nat) (mDexVec : List DexFile)
    : ∀ (fuel : Nat) (ref s : ClassRef) (st st1 : ResolveState),
    ¬ st.known ref → superOf mDexVec ref = some s →
    resolveClass srt junk mDexVec fuel s st = some st1 → ¬ st1.known ref := by
  intro fuel
  induction fuel using Nat.strong_induction_on with
  | _ fuel ih =>
    intro ref s st st1 hk hs h1 hcontra
    obtain ⟨f', st'', hle, h'⟩ := resolveClass_origin srt junk mDexVec fuel s st st1 ref h1 hk hcontra
    rcases resolveClass_cases srt junk mDexVec h' hk with ⟨hnone, _⟩ | ⟨s', st1', g, hg, hs', h1', _⟩
    · rw [hnone] at hs; cases hs
    · rw [hs] at hs'; cases hs'
      have hnk : ¬ st1'.known ref := ih g (by omega) ref s st st1' hk hs h1'
      have := resolveClass_mono_le srt junk mDexVec (show g ≤ fuel by omega) h1'
      rw [h1] at this
      cases this
      exact hnk hcontra

/-- What a call of `resolveClass` that returns did, for a class that was not
memoized and has a loaded superclass: the superclass was resolved first, its
table `parentTable` is in the memo by then, and the class is still absent. -/
theorem resolveClass_step (srt : ResolvedFieldTable → ResolvedFieldTable) (junk : Nat) (mDexVec : List DexFile)
    {fuel : Nat} {ref s : ClassRef} {st st' : ResolveState}
    (h : resolveClass srt junk mDexVec fuel ref st = some st') (hk : ¬ st.known ref)
    (hs : superOf mDexVec ref = some s) :
    ∃ st1 fuel1 parentTable, fuel = fuel1 + 1 ∧
      resolveClass srt junk mDexVec fuel1 s st = some st1 ∧
      st1.mResolvedClassMap.lookup s = some parentTable ∧ ¬ st1.known ref ∧
      st' = { mResolvedClassMap :=
                (ref, srt (ownTable srt junk mDexVec ref ++ parentTable)) :: st1.mResolvedClassMap
              outVec := findIntersection st1.outVec (ownTable srt junk mDexVec ref) parentTable
              decoded := st1.decoded ++ [ref] } := by
  rcases resolveClass_cases srt junk mDexVec h hk with ⟨hnone, _⟩ | ⟨s', st1, f1, hf, hs', h1, hst⟩
  · rw [hnone] at hs; cases hs
  · rw [hs] at hs'; cases hs'
    have hs1 : st1.known s := resolveClass_self_known srt junk mDexVec _ _ _ _ h1
    unfold ResolveState.known at hs1
    obtain ⟨pt, hpt⟩ := Option.isSome_iff_exists.mp hs1
    refine ⟨st1, f1, pt, hf, h1, hpt, ?_, ?_⟩
    · exact resolveClass_super_not_known srt junk mDexVec f1 ref s st st1 hk hs h1
    · rw [hst]
      simp [hpt]

theorem lookup_cons_ne {k ref : ClassRef} (h : k ≠ ref) (t : ResolvedFieldTable)
    (m : List (ClassRef × ResolvedFieldTable)) : ((ref, t) :: m).lookup k = m.lookup k := by
  have : (k == ref) = false := by simpa using h
  simp [List.lookup, this]

theorem lookup_cons_self (ref : ClassRef) (t : ResolvedFieldTable)
    (m : List (ClassRef × ResolvedFieldTable)) : ((ref, t) :: m).lookup ref = some t := by
  simp [List.lookup]

/-- The entries that are in the memo when `resolveClass` is called are still
there, unchanged, when it returns. -/
theorem resolveClass_preserves (srt : ResolvedFieldTable → ResolvedFieldTable) (junk : Nat) (mDexVec : List DexFile)
    : ∀ (fuel : Nat) (ref : ClassRef) (st st' : ResolveState),
    resolveClass srt junk mDexVec fuel ref st = some st' →
    ∀ k, st.known k → st'.mResolvedClassMap.lookup k = st.mResolvedClassMap.lookup k := by
  intro fuel
  induction fuel with
  | zero => intro ref st st' h; simp [resolveClass] at h
  | succ fuel ih =>
    intro ref st st' h k hkk
    by_cases hk : st.known ref
    · rw [resolveClass_known srt junk mDexVec _ ref st hk] at h
      cases h; rfl
    · have hne : k ≠ ref := fun e => hk (e ▸ hkk)
      cases hs : superOf mDexVec ref with
      | none =>
        rcases resolveClass_cases srt junk mDexVec h hk with ⟨_, rfl⟩ | ⟨s, _, _, _, hs', _, _⟩
        · exact lookup_cons_ne hne _ _
        · rw [hs] at hs'; cases hs'
      | some s =>
        obtain ⟨st1, f1, pt, hf, h1, _, _, rfl⟩ := resolveClass_step srt junk mDexVec h hk hs
        obtain rfl : f1 = fuel := by omega
        simp only
        rw [lookup_cons_ne hne]
        exact ih s st st1 h1 k hkk

theorem resolveClass_known_mono (srt : ResolvedFieldTable → ResolvedFieldTable) (junk : Nat) (mDexVec : List DexFile)
    {fuel : Nat} {ref : ClassRef} {st st' : ResolveState}
    (h : resolveClass srt junk mDexVec fuel ref st = some st') {k : ClassRef} (hk : st.known k) :
    st'.known k := by
  unfold ResolveState.known at *
  rw [resolveClass_preserves srt junk mDexVec fuel ref st st' h k hk]
  exact hk

theorem resolveClass_logOk (srt : ResolvedFieldTable → ResolvedFieldTable) (junk : Nat) (mDexVec : List DexFile)
    : ∀ (fuel : Nat) (ref : ClassRef) (st st' : ResolveState),
    resolveClass srt junk mDexVec fuel ref st = some st' → st.logOk → st'.logOk := by
  intro fuel
  induction fuel with
  | zero => intro ref st st' h; simp [resolveClass] at h
  | succ fuel ih =>
    intro ref st st' h hok
    by_cases hk : st.known ref
    · rw [resolveClass_known srt junk mDexVec _ ref st hk] at h
      cases h; exact hok
    · cases hs : superOf mDexVec ref with
      | none =>
        rcases resolveClass_cases srt junk mDexVec h hk with ⟨_, rfl⟩ | ⟨s, _, _, _, hs', _, _⟩
        · constructor
          · intro c hc
            rw [known_cons]
            simp only [List.mem_append, List.mem_singleton] at hc
            rcases hc with hc | hc
            · exact Or.inr (hok.1 c hc)
            · exact Or.inl hc
          · simp only
            rw [List.nodup_append]
            refine ⟨hok.2, List.nodup_singleton _, ?_⟩
            intro a ha hb
            simp only [List.mem_singleton] at hb
            subst hb
            exact hk (hok.1 a ha)
        · rw [hs] at hs'; cases hs'
      | some s =>
        obtain ⟨st1, f1, pt, hf, h1, _, hnk, rfl⟩ := resolveClass_step srt junk mDexVec h hk hs
        obtain rfl : f1 = fuel := by omega
        have hok1 := ih s st st1 h1 hok
        constructor
        · intro c hc
          rw [known_cons]
          simp only [List.mem_append, List.mem_singleton] at hc
          rcases hc with hc | hc
          · exact Or.inr (hok1.1 c hc)
          · exact Or.inl hc
        · simp only
          rw [List.nodup_append]
          refine ⟨hok1.2, List.nodup_singleton _, ?_⟩
          intro a ha hb
          simp only [List.mem_singleton] at hb
          subst hb
          exact hnk (hok1.1 a ha)

theorem scanLoop_logOk (srt : ResolvedFieldTable → ResolvedFieldTable) (junk : Nat) (mDexVec : List DexFile)
    (fuel : Nat) : ∀ (refs : List ClassRef) (st st' : ResolveState),
    scanLoop srt junk mDexVec fuel refs st = some st' → st.logOk → st'.logOk := by
  intro refs
  induction refs with
  | nil => intro st st' h hok; simp [scanLoop] at h; subst h; exact hok
  | cons r refs ih =>
    intro st st' h hok
    simp only [scanLoop] at h
    cases h1 : resolveClass srt junk mDexVec fuel r st with
    | none => rw [h1] at h; simp at h
    | some st1 =>
      rw [h1] at h
      exact ih st1 st' h (resolveClass_logOk srt junk mDexVec fuel r st st1 h1 hok)

/-! ## Field collection and the merge-join -/

theorem or_eq_zero_iff (x y : Nat) : x ||| y = 0 ↔ x = 0 ∧ y = 0 := by
  constructor
  · intro h
    have key : ∀ i, x.testBit i = false ∧ y.testBit i = false := by
      intro i
      have := congrArg (fun n => n.testBit i) h
      simpa using this
    constructor <;> apply Nat.eq_of_testBit_eq <;> intro i <;> simp [(key i).1, (key i).2]
  · rintro ⟨rfl, rfl⟩; simp

theorem whiteList_and (a : Nat) :
    ((Modifier.ACC_PRIVATE ||| Modifier.ACC_STATIC ||| Modifier.ACC_SYNTHETIC) &&& a ≠ 0) ↔
      visibleFlags a = false := by
  unfold visibleFlags
  rw [Nat.and_distrib_right, Nat.and_distrib_right, Ne, or_eq_zero_iff, or_eq_zero_iff,
    Nat.and_comm _ a, Nat.and_comm _ a, Nat.and_comm _ a]
  simp [and_assoc]

theorem collectFields_eq (dex : DexFile) (classDef : DexClassDef) (fields : List DexField) :
    ∀ (rest : List DexField) (i : Nat) (table : ResolvedFieldTable),
    fields.drop i = rest →
    collectFields dex classDef fields rest.length i table
      = table ++ (rest.filter (fun d => visibleFlags d.accessFlags)).map (resolveField dex classDef) := by
  intro rest
  induction rest with
  | nil => intro i table _; simp [collectFields]
  | cons d rest ih =>
    intro i table hdrop
    have hi : i < fields.length := by
      by_contra hcon
      rw [List.drop_eq_nil_of_le (by omega)] at hdrop
      cases hdrop
    have hget : fields.getD i { fieldIdx := 0, accessFlags := 0 } = d := by
      have h0 : (fields.drop i)[0]? = some d := by rw [hdrop]; simp
      rw [List.getElem?_drop] at h0
      simp only [Nat.add_zero] at h0
      rw [List.getD_eq_getElem?_getD, h0]
      rfl
    have hdrop' : fields.drop (i + 1) = rest := by
      have : fields.drop (i + 1) = (fields.drop i).drop 1 := by
        rw [List.drop_drop, Nat.add_comm]
      rw [this, hdrop]
      rfl
    simp only [List.length_cons, collectFields, hget]
    by_cases hv : visibleFlags d.accessFlags = true
    · have : ¬ ((Modifier.ACC_PRIVATE ||| Modifier.ACC_STATIC ||| Modifier.ACC_SYNTHETIC)
          &&& d.accessFlags ≠ 0) := by
        rw [whiteList_and]; simp [hv]
      rw [if_neg this, ih (i + 1) _ hdrop']
      simp [List.filter, hv]
    · have hv' : visibleFlags d.accessFlags = false := by simpa using hv
      have : ((Modifier.ACC_PRIVATE ||| Modifier.ACC_STATIC ||| Modifier.ACC_SYNTHETIC)
          &&& d.accessFlags ≠ 0) := (whiteList_and _).mpr hv'
      rw [if_pos this, ih (i + 1) _ hdrop']
      simp [List.filter, hv']

theorem readInstanceFields_length (junk : Nat) : ∀ (n : Nat) (inp : BytesInput) (off : Nat)
    (acc : List DexField), (readInstanceFields junk n inp off acc).2.length = acc.length + n := by
  intro n
  induction n with
  | zero => intro inp off acc; simp [readInstanceFields]
  | succ n ih =>
    intro inp off acc
    simp only [readInstanceFields]
    rw [ih]
    simp
    omega

theorem readFrom_instanceFields_length (inp : BytesInput) (junk : Nat) :
    (DexClassData.readFrom inp junk).2.1.instanceFields.length
      = (DexClassData.readFrom inp junk).2.1.instanceFieldsSize := by
  simp [DexClassData.readFrom, readInstanceFields_length]

theorem generateFieldTable_eq (srt : ResolvedFieldTable → ResolvedFieldTable) (junk : Nat)
    (dex : DexFile) (classDef : DexClassDef) (hoff : classDef.classDataOff ≠ 0) :
    generateFieldTable srt junk dex classDef
      = srt (((decodedInstanceFields junk dex classDef).filter
          (fun d => visibleFlags d.accessFlags)).map (resolveField dex classDef)) := by
  unfold generateFieldTable decodedInstanceFields
  rw [if_neg hoff]
  simp only
  rw [← readFrom_instanceFields_length]
  rw [collectFields_eq dex classDef _ _ 0 [] (by simp)]
  simp

theorem findIntersectionLoop_mem : ∀ (fuel : Nat) (vec : List ScanResultPair)
    (self super : ResolvedFieldTable) (p : ScanResultPair),
    p ∈ findIntersectionLoop fuel vec self super →
    p ∈ vec ∨ (p.1 ∈ self ∧ p.2 ∈ super ∧ ResolvedField.compare p.1 p.2 = 0) := by
  intro fuel
  induction fuel with
  | zero => intro vec self super p h; simp [findIntersectionLoop] at h; exact Or.inl h
  | succ fuel ih =>
    intro vec self super p h
    cases self with
    | nil => simp [findIntersectionLoop] at h; exact Or.inl h
    | cons s self =>
      cases super with
      | nil => simp [findIntersectionLoop] at h; exact Or.inl h
      | cons t super =>
        simp only [findIntersectionLoop] at h
        split at h
        · rcases ih _ _ _ _ h with h1 | ⟨h1, h2, h3⟩
          · exact Or.inl h1
          · exact Or.inr ⟨List.mem_cons_of_mem _ h1, h2, h3⟩
        · split at h
          · rcases ih _ _ _ _ h with h1 | ⟨h1, h2, h3⟩
            · exact Or.inl h1
            · exact Or.inr ⟨h1, List.mem_cons_of_mem _ h2, h3⟩
          · rcases ih _ _ _ _ h with h1 | ⟨h1, h2, h3⟩
            · simp only [List.mem_append, List.mem_singleton] at h1
              rcases h1 with h1 | h1
              · exact Or.inl h1
              · subst h1
                refine Or.inr ⟨List.mem_cons_self _ _, List.mem_cons_self _ _, ?_⟩
                simp only
                omega
            · exact Or.inr ⟨List.mem_cons_of_mem _ h1, List.mem_cons_of_mem _ h2, h3⟩

/-! ## Sorted tables and memoization -/

theorem srt_sortedByKey (srt : ResolvedFieldTable → ResolvedFieldTable)
    (hsrt : StdSortSpec srt) (l : ResolvedFieldTable) :
    sortedByKey (srt l) := by
  refine List.Pairwise.imp ?_ (hsrt l).2
  intro p q h hk
  exact h (compare_lt_iff.mpr hk)

theorem ownTable_sorted (srt : ResolvedFieldTable → ResolvedFieldTable) (junk : Nat) (mDexVec : List DexFile)
    (hsrt : StdSortSpec srt) (ref : ClassRef) :
    sortedByKey (ownTable srt junk mDexVec ref) := by
  unfold ownTable generateFieldTable
  split
  · exact List.Pairwise.nil
  · exact srt_sortedByKey srt hsrt _

theorem resolveClass_sorted (srt : ResolvedFieldTable → ResolvedFieldTable) (junk : Nat) (mDexVec : List DexFile)
    (hsrt : StdSortSpec srt) : ∀ (fuel : Nat) (ref : ClassRef)
    (st st' : ResolveState), resolveClass srt junk mDexVec fuel ref st = some st' →
    ∀ k t, st'.mResolvedClassMap.lookup k = some t →
      st.mResolvedClassMap.lookup k = some t ∨ sortedByKey t := by
  intro fuel
  induction fuel with
  | zero => intro ref st st' h; simp [resolveClass] at h
  | succ fuel ih =>
    intro ref st st' h k t hkt
    by_cases hk : st.known ref
    · rw [resolveClass_known srt junk mDexVec _ ref st hk] at h
      cases h; exact Or.inl hkt
    · cases hs : superOf mDexVec ref with
      | none =>
        rcases resolveClass_cases srt junk mDexVec h hk with ⟨_, rfl⟩ | ⟨s, _, _, _, hs', _, _⟩
        · by_cases e : k = ref
          · subst e
            rw [lookup_cons_self] at hkt
            cases hkt
            exact Or.inr (ownTable_sorted srt junk mDexVec hsrt k)
          · rw [lookup_cons_ne e] at hkt
            exact Or.inl hkt
        · rw [hs] at hs'; cases hs'
      | some s =>
        obtain ⟨st1, f1, pt, hf, h1, _, _, rfl⟩ := resolveClass_step srt junk mDexVec h hk hs
        obtain rfl : f1 = fuel := by omega
        by_cases e : k = ref
        · subst e
          rw [lookup_cons_self] at hkt
          cases hkt
          exact Or.inr (srt_sortedByKey srt hsrt _)
        · rw [lookup_cons_ne e] at hkt
          exact ih s st st1 h1 k t hkt

theorem scanLoop_sorted (srt : ResolvedFieldTable → ResolvedFieldTable) (junk : Nat) (mDexVec : List DexFile)
    (hsrt : StdSortSpec srt) (fuel : Nat) : ∀ (refs : List ClassRef)
    (st st' : ResolveState), scanLoop srt junk mDexVec fuel refs st = some st' →
    ∀ k t, st'.mResolvedClassMap.lookup k = some t →
      st.mResolvedClassMap.lookup k = some t ∨ sortedByKey t := by
  intro refs
  induction refs with
  | nil => intro st st' h k t hkt; simp [scanLoop] at h; subst h; exact Or.inl hkt
  | cons r refs ih =>
    intro st st' h k t hkt
    simp only [scanLoop] at h
    cases h1 : resolveClass srt junk mDexVec fuel r st with
    | none => rw [h1] at h; simp at h
    | some st1 =>
      rw [h1] at h
      rcases ih st1 st' h k t hkt with h2 | h2
      · exact resolveClass_sorted srt junk mDexVec hsrt fuel r st st1 h1 k t h2
      · exact Or.inr h2

/-- C4: every field table that a returning call of `resolveClass` stores in the
resolution memo (for the class itself, a hierarchy root or a class merged with
its superclass, and for the ancestors resolved on the way) is in non-decreasing
order of the key `(name, type)`, names compared byte-wise first, then types; the
class itself has a table in the memo afterwards; and so has every table in the
memo after `scanAll`'s loops. -/
theorem resolveClass_tables_sorted (srt : ResolvedFieldTable → ResolvedFieldTable) (junk : Nat) (mDexVec : List DexFile)
    (hsrt : StdSortSpec srt) (fuel : Nat) (ref : ClassRef)
    (st st' : ResolveState) (h : resolveClass srt junk mDexVec fuel ref st = some st') :
    (∃ t, st'.mResolvedClassMap.lookup ref = some t) ∧
    (∀ k t, ¬ st.known k → st'.mResolvedClassMap.lookup k = some t → sortedByKey t) ∧
    (∀ st'' k t, scanLoop srt junk mDexVec fuel (allClasses mDexVec) ResolveState.initial = some st'' →
      st''.mResolvedClassMap.lookup k = some t → sortedByKey t) := by
  refine ⟨?_, ?_, ?_⟩
  · exact Option.isSome_iff_exists.mp (resolveClass_self_known srt junk mDexVec fuel ref st st' h)
  · intro k t hk hkt
    rcases resolveClass_sorted srt junk mDexVec hsrt fuel ref st st' h k t hkt with h1 | h1
    · exact absurd (by simp [ResolveState.known, h1]) hk
    · exact h1
  · intro st'' k t hscan hkt
    rcases scanLoop_sorted srt junk mDexVec hsrt fuel _ _ st'' hscan k t hkt with h1 | h1
    · simp [ResolveState.initial, List.lookup] at h1
    · exact h1

/-- C6: a call of `resolveClass` on a class that is a key of the memo returns
with the memo, the output list and the decode log unchanged; and when the loops
of `scanAll` return, no class occurs twice in the decode log, which records
every pass through the part of `resolveClass` that decodes the class data and
emits the pairs of the class. -/
theorem resolveClass_memoized (srt : ResolvedFieldTable → ResolvedFieldTable) (junk : Nat)
    (mDexVec : List DexFile) :
    (∀ (fuel : Nat) (ref : ClassRef) (st : ResolveState), st.known ref →
      resolveClass srt junk mDexVec (fuel + 1) ref st = some st) ∧
    (∀ (fuel : Nat) (st' : ResolveState),
      scanLoop srt junk mDexVec fuel (allClasses mDexVec) ResolveState.initial = some st' →
      st'.decoded.Nodup ∧ ∀ c ∈ st'.decoded, st'.known c) := by
  refine ⟨fun fuel ref st h => resolveClass_known srt junk mDexVec fuel ref st h, ?_⟩
  intro fuel st' h
  have := scanLoop_logOk srt junk mDexVec fuel _ _ st' h
    ⟨by simp [ResolveState.initial], by simp [ResolveState.initial]⟩
  exact ⟨this.2, this.1⟩

/-! ## The two-class hierarchy -/

theorem ownTable_declaredClassName (srt : ResolvedFieldTable → ResolvedFieldTable) (junk : Nat) (mDexVec : List DexFile)
    (hsrt : StdSortSpec srt) (ref : ClassRef) :
    ∀ f ∈ ownTable srt junk mDexVec ref, f.declaredClassName = classNameOf mDexVec ref := by
  intro f hf
  unfold ownTable at hf
  by_cases hoff : (classDefOf mDexVec ref).classDataOff = 0
  · simp [generateFieldTable, hoff] at hf
  · rw [generateFieldTable_eq srt junk _ _ hoff] at hf
    have hf' := (hsrt _).1.mem_iff.mp hf
    simp only [List.mem_map] at hf'
    obtain ⟨d, _, rfl⟩ := hf'
    rfl

theorem findIntersection_single (vec : List ScanResultPair) (s t : ResolvedField)
    (h : ResolvedField.compare s t = 0) : findIntersection vec [s] [t] = vec ++ [(s, t)] := by
  simp [findIntersection, findIntersectionLoop, h]

/-- C2: when the loaded files define exactly two classes, a class `b` whose
superclass is not loaded and a class `s` whose superclass resolves to `b`, and
the own visible field table of each consists of one field of the same name and
type (such as `f` of type `I`), then `scanAll`, given two or more levels of
recursion, returns exactly one pair: the field of `s` (declaring class `s`)
first, the field of `b` (declaring class `b`) second, whichever class comes
first in the visiting order. -/
theorem scanAll_two_classes (srt : ResolvedFieldTable → ResolvedFieldTable) (junk : Nat) (mDexVec : List DexFile)
    (hsrt : StdSortSpec srt) (b s : ClassRef) (name type : List Nat)
    (hcls : allClasses mDexVec = [b, s] ∨ allClasses mDexVec = [s, b])
    (hsupB : superOf mDexVec b = none) (hsupS : superOf mDexVec s = some b)
    (hownB : (ownTable srt junk mDexVec b).map keyOf = [(name, type)])
    (hownS : (ownTable srt junk mDexVec s).map keyOf = [(name, type)])
    (fuel : Nat) (hfuel : 2 ≤ fuel) :
    ∃ flagsS flagsB, scanAll srt junk mDexVec fuel = some
      [({ accessFlag := flagsS, name := name, type := type,
          declaredClassName := classNameOf mDexVec s },
        { accessFlag := flagsB, name := name, type := type,
          declaredClassName := classNameOf mDexVec b })] := by
  have hne : s ≠ b := by
    intro e; rw [e, hsupB] at hsupS; cases hsupS
  obtain ⟨fB, hB⟩ : ∃ fB, ownTable srt junk mDexVec b = [fB] := by
    cases hb : ownTable srt junk mDexVec b with
    | nil => rw [hb] at hownB; simp at hownB
    | cons x l =>
      rw [hb] at hownB
      cases l with
      | nil => exact ⟨x, rfl⟩
      | cons y l => simp at hownB
  obtain ⟨fS, hS⟩ : ∃ fS, ownTable srt junk mDexVec s = [fS] := by
    cases hb : ownTable srt junk mDexVec s with
    | nil => rw [hb] at hownS; simp at hownS
    | cons x l =>
      rw [hb] at hownS
      cases l with
      | nil => exact ⟨x, rfl⟩
      | cons y l => simp at hownS
  have hBk : fB.name = name ∧ fB.type = type := by
    rw [hB] at hownB; simpa [keyOf] using hownB
  have hSk : fS.name = name ∧ fS.type = type := by
    rw [hS] at hownS; simpa [keyOf] using hownS
  have hBc : fB.declaredClassName = classNameOf mDexVec b :=
    ownTable_declaredClassName srt junk mDexVec hsrt b fB (by rw [hB]; simp)
  have hSc : fS.declaredClassName = classNameOf mDexVec s :=
    ownTable_declaredClassName srt junk mDexVec hsrt s fS (by rw [hS]; simp)
  have hcmp : ResolvedField.compare fS fB = 0 := by
    rw [compare_eq_zero, hBk.1, hBk.2, hSk.1, hSk.2]; exact ⟨rfl, rfl⟩
  have hfS : fS = ⟨fS.accessFlag, name, type, classNameOf mDexVec s⟩ := by
    cases fS; simp at hSk hSc ⊢; exact ⟨hSk.1, hSk.2, hSc⟩
  have hfB : fB = ⟨fB.accessFlag, name, type, classNameOf mDexVec b⟩ := by
    cases fB; simp at hBk hBc ⊢; exact ⟨hBk.1, hBk.2, hBc⟩
  obtain ⟨g, rfl⟩ : ∃ g, fuel = g + 2 := ⟨fuel - 2, by omega⟩
  refine ⟨fS.accessFlag, fB.accessFlag, ?_⟩
  rw [← hfS, ← hfB]
  have hinit : ∀ r, ¬ ResolveState.initial.known r := by
    intro r; simp [ResolveState.known, ResolveState.initial, List.lookup]
  have hsb : ∀ f, resolveClass srt junk mDexVec (f + 1) b ResolveState.initial
      = some ⟨[(b, [fB])], [], [b]⟩ := by
    intro f
    rw [resolveClass_root srt junk mDexVec f b _ (hinit b) hsupB, hB]
    rfl
  have hkb : ∀ (m : List (ClassRef × ResolvedFieldTable)) (o : List ScanResultPair)
      (d : List ClassRef) (t : ResolvedFieldTable), ResolveState.known ⟨(b, t) :: m, o, d⟩ b := by
    intro m o d t
    simp [ResolveState.known, lookup_cons_self]
  unfold scanAll
  rcases hcls with hc | hc
  · have h2 : resolveClass srt junk mDexVec (g + 2) s ⟨[(b, [fB])], [], [b]⟩
        = some ⟨[(s, srt [fS, fB]), (b, [fB])], [(fS, fB)], [b, s]⟩ := by
      have hk1 : ¬ ResolveState.known ⟨[(b, [fB])], [], [b]⟩ s := by
        have hbeq : (s == b) = false := by simpa using hne
        simp [ResolveState.known, List.lookup, hbeq]
      rw [resolveClass_super srt junk mDexVec _ s b _ hk1 hsupS,
        resolveClass_known srt junk mDexVec g b _ (hkb _ _ _ _)]
      simp [lookup_cons_self, hS, findIntersection_single _ _ _ hcmp]
    rw [hc]
    simp [scanLoop, hsb (g + 1), h2]
  · have h2 : resolveClass srt junk mDexVec (g + 2) s ResolveState.initial
        = some ⟨[(s, srt [fS, fB]), (b, [fB])], [(fS, fB)], [b, s]⟩ := by
      rw [resolveClass_super srt junk mDexVec _ s b _ (hinit s) hsupS, hsb g]
      simp [lookup_cons_self, hS, findIntersection_single _ _ _ hcmp]
    have h3 : resolveClass srt junk mDexVec (g + 2) b
        ⟨[(s, srt [fS, fB]), (b, [fB])], [(fS, fB)], [b, s]⟩
        = some ⟨[(s, srt [fS, fB]), (b, [fB])], [(fS, fB)], [b, s]⟩ := by
      apply resolveClass_known
      simp [ResolveState.known, lookup_cons_ne (Ne.symm hne), lookup_cons_self]
    rw [hc]
    simp [scanLoop, h2, h3]

/-! ## Claims on tables and memoization -/

set_option maxRecDepth 100000 in
theorem scanAll_two_classes_witness :
    ∃ flagsS flagsB, scanAll insertionSortFields 0 [pairDex] 2 = some
      [({ accessFlag := flagsS, name := txtF, type := txtI,
          declaredClassName := classNameOf [pairDex] (0, 1) },
        { accessFlag := flagsB, name := txtF, type := txtI,
          declaredClassName := classNameOf [pairDex] (0, 0) })] :=
  scanAll_two_classes insertionSortFields 0 [pairDex] insertionSortFields_spec (0, 0) (0, 1)
    txtF txtI (Or.inl (by decide)) (by decide) (by decide) (by decide) (by decide) 2 (by decide)

set_option maxRecDepth 100000 in
theorem resolveClass_tables_sorted_witness :
    (∃ t, pairDexResolved.mResolvedClassMap.lookup (0, 1) = some t) ∧
    (∀ k t, ¬ ResolveState.initial.known k → pairDexResolved.mResolvedClassMap.lookup k = some t →
      sortedByKey t) ∧
    (∀ st'' k t, scanLoop insertionSortFields 0 [pairDex] 2 (allClasses [pairDex])
        ResolveState.initial = some st'' →
      st''.mResolvedClassMap.lookup k = some t → sortedByKey t) :=
  resolveClass_tables_sorted insertionSortFields 0 [pairDex] insertionSortFields_spec 2 (0, 1)
    ResolveState.initial pairDexResolved (by decide)

set_option maxRecDepth 100000 in
theorem resolveClass_memoized_witness :
    resolveClass insertionSortFields 0 [pairDex] (0 + 1) (0, 0) pairDexResolved
      = some pairDexResolved ∧
    scanLoop insertionSortFields 0 [pairDex] 2 (allClasses [pairDex]) ResolveState.initial
      = some pairDexResolved ∧ pairDexResolved.decoded.Nodup :=
  ⟨(resolveClass_memoized insertionSortFields 0 [pairDex]).1 0 (0, 0) pairDexResolved
      (by unfold ResolveState.known; decide),
   by decide,
   ((resolveClass_memoized insertionSortFields 0 [pairDex]).2 2 pairDexResolved (by decide)).1⟩

/-- C3: for a class definition with class data, the table `generateFieldTable`
returns is, as a multiset, the list of the resolved decoded instance fields
whose access flags have none of `ACC_PRIVATE`, `ACC_STATIC`, `ACC_SYNTHETIC`;
every entry of the table has such flags, an instance field with one of the bits
set is not in the table, and every pair `findIntersection` adds for the table
has a first component from the table. -/
theorem generateFieldTable_visible (srt : ResolvedFieldTable → ResolvedFieldTable)
    (hsrt : StdSortSpec srt) (junk : Nat) (dex : DexFile) (classDef : DexClassDef)
    (hoff : classDef.classDataOff ≠ 0) :
    (generateFieldTable srt junk dex classDef).Perm
      (((decodedInstanceFields junk dex classDef).filter
        (fun d => visibleFlags d.accessFlags)).map (resolveField dex classDef)) ∧
    (∀ f ∈ generateFieldTable srt junk dex classDef, visibleFlags f.accessFlag = true) ∧
    (∀ d ∈ decodedInstanceFields junk dex classDef, visibleFlags d.accessFlags = false →
      resolveField dex classDef d ∉ generateFieldTable srt junk dex classDef) ∧
    (∀ (vec : List ScanResultPair) (super : ResolvedFieldTable) (p : ScanResultPair),
      p ∈ findIntersection vec (generateFieldTable srt junk dex classDef) super →
      p ∈ vec ∨ (p.1 ∈ generateFieldTable srt junk dex classDef
        ∧ visibleFlags p.1.accessFlag = true)) := by
  have hperm : (generateFieldTable srt junk dex classDef).Perm
      (((decodedInstanceFields junk dex classDef).filter
        (fun d => visibleFlags d.accessFlags)).map (resolveField dex classDef)) := by
    rw [generateFieldTable_eq srt junk dex classDef hoff]
    exact (hsrt _).1
  have hvis : ∀ f ∈ generateFieldTable srt junk dex classDef, visibleFlags f.accessFlag = true := by
    intro f hf
    have := hperm.mem_iff.mp hf
    simp only [List.mem_map, List.mem_filter] at this
    obtain ⟨d, ⟨_, hd⟩, rfl⟩ := this
    exact hd
  refine ⟨hperm, hvis, ?_, ?_⟩
  · intro d _ hd hmem
    have := hvis _ hmem
    simp only [resolveField] at this
    rw [hd] at this
    cases this
  · intro vec super p hp
    rcases findIntersectionLoop_mem _ _ _ _ _ hp with h | ⟨h, _, _⟩
    · exact Or.inl h
    · exact Or.inr ⟨h, hvis _ h⟩

set_option maxRecDepth 100000 in
theorem generateFieldTable_visible_witness :
    (generateFieldTable insertionSortFields 0 (chainDex [2]) ((chainDex [2]).classAt 2)).Perm
      (((decodedInstanceFields 0 (chainDex [2]) ((chainDex [2]).classAt 2)).filter
        (fun d => visibleFlags d.accessFlags)).map
          (resolveField (chainDex [2]) ((chainDex [2]).classAt 2))) ∧
    (∀ f ∈ generateFieldTable insertionSortFields 0 (chainDex [2]) ((chainDex [2]).classAt 2),
      visibleFlags f.accessFlag = true) ∧
    (∀ d ∈ decodedInstanceFields 0 (chainDex [2]) ((chainDex [2]).classAt 2),
      visibleFlags d.accessFlags = false →
      resolveField (chainDex [2]) ((chainDex [2]).classAt 2) d ∉
        generateFieldTable insertionSortFields 0 (chainDex [2]) ((chainDex [2]).classAt 2)) ∧
    (∀ (vec : List ScanResultPair) (super : ResolvedFieldTable) (p : ScanResultPair),
      p ∈ findIntersection vec
        (generateFieldTable insertionSortFields 0 (chainDex [2]) ((chainDex [2]).classAt 2)) super →
      p ∈ vec ∨ (p.1 ∈ generateFieldTable insertionSortFields 0 (chainDex [2])
          ((chainDex [2]).classAt 2)
        ∧ visibleFlags p.1.accessFlag = true)) :=
  generateFieldTable_visible insertionSortFields insertionSortFields_spec 0 (chainDex [2])
    ((chainDex [2]).classAt 2) (by decide)

/-! ## Claims on collisions and duplicate keys -/

theorem perm_pair_cases {α : Type} [DecidableEq α] {a b : α} {l : List α} (h : l.Perm [a, b]) :
    l = [a, b] ∨ l = [b, a] := by
  have hlen := h.length_eq
  match l, hlen with
  | [x, y], _ =>
    have hx : x ∈ [a, b] := h.subset (List.mem_cons_self _ _)
    have hy : y ∈ [a, b] := h.subset (List.mem_cons_of_mem _ (List.mem_cons_self _ _))
    have ha : a ∈ [x, y] := h.symm.subset (List.mem_cons_self _ _)
    have hb : b ∈ [x, y] := h.symm.subset (List.mem_cons_of_mem _ (List.mem_cons_self _ _))
    simp only [List.mem_cons, List.mem_singleton, List.not_mem_nil, or_false] at hx hy ha hb
    by_cases hab : a = b
    · subst hab
      rcases hx with rfl | rfl <;> rcases hy with rfl | rfl <;> simp
    · rcases hx with rfl | rfl <;> rcases hy with rfl | rfl
      · rcases hb with e | e <;> exact absurd e.symm hab
      · exact Or.inl rfl
      · exact Or.inr rfl
      · rcases ha with e | e <;> exact absurd e hab

set_option maxRecDepth 100000 in
theorem chain_decoded (junk : Nat) :
    decodedInstanceFields junk (chainDex [1]) ((chainDex [1]).classAt 0) = [⟨0, 1⟩] ∧
    decodedInstanceFields junk (chainDex [1]) ((chainDex [1]).classAt 1) = [⟨1, 1⟩] ∧
    decodedInstanceFields junk (chainDex [1]) ((chainDex [1]).classAt 2) = [⟨2, 1⟩] := by
  refine ⟨?_, ?_, ?_⟩
  · unfold decodedInstanceFields
    rw [readFrom_blob [0] [1] [0] [0] [] [([0], [1])] [] [] _ junk (by decide) (by decide)
      (by decide) (by decide) (by decide) (by decide) (by decide) (by decide) (by decide)
      (by decide) (by decide) (by decide)
      ⟨⟨List.drop 317 (chainDex [1]).data, by decide⟩, by decide⟩]
    decide
  · unfold decodedInstanceFields
    rw [readFrom_blob [0] [1] [0] [0] [] [([1], [1])] [] [] _ junk (by decide) (by decide)
      (by decide) (by decide) (by decide) (by decide) (by decide) (by decide) (by decide)
      (by decide) (by decide) (by decide)
      ⟨⟨List.drop 323 (chainDex [1]).data, by decide⟩, by decide⟩]
    decide
  · unfold decodedInstanceFields
    rw [readFrom_blob [0] [1] [0] [0] [] [([2], [1])] [] [] _ junk (by decide) (by decide)
      (by decide) (by decide) (by decide) (by decide) (by decide) (by decide) (by decide)
      (by decide) (by decide) (by decide)
      ⟨⟨List.drop 329 (chainDex [1]).data, by decide⟩, by decide⟩]
    decide

set_option maxRecDepth 100000 in
theorem chain_ownTable (srt : ResolvedFieldTable → ResolvedFieldTable) (junk : Nat)
    (hsrt : StdSortSpec srt) :
    ownTable srt junk [chainDex [1]] (0, 0) = [exampleField txtBase] ∧
    ownTable srt junk [chainDex [1]] (0, 1) = [exampleField txtMid] ∧
    ownTable srt junk [chainDex [1]] (0, 2) = [exampleField txtSub] := by
  obtain ⟨d0, d1, d2⟩ := chain_decoded junk
  have e0 : classDefOf [chainDex [1]] (0, 0) = (chainDex [1]).classAt 0 := rfl
  have e1 : classDefOf [chainDex [1]] (0, 1) = (chainDex [1]).classAt 1 := rfl
  have e2 : classDefOf [chainDex [1]] (0, 2) = (chainDex [1]).classAt 2 := rfl
  have x0 : dexOf [chainDex [1]] (0, 0) = chainDex [1] := rfl
  have x1 : dexOf [chainDex [1]] (0, 1) = chainDex [1] := rfl
  have x2 : dexOf [chainDex [1]] (0, 2) = chainDex [1] := rfl
  refine ⟨?_, ?_, ?_⟩
  · unfold ownTable
    rw [e0, x0, generateFieldTable_eq srt junk _ _ (by decide), d0]
    have : (List.filter (fun d => visibleFlags d.accessFlags) [(⟨0, 1⟩ : DexField)]).map
        (resolveField (chainDex [1]) ((chainDex [1]).classAt 0)) = [exampleField txtBase] := by
      decide
    rw [this]
    exact List.perm_singleton.mp (hsrt _).1
  · unfold ownTable
    rw [e1, x1, generateFieldTable_eq srt junk _ _ (by decide), d1]
    have : (List.filter (fun d => visibleFlags d.accessFlags) [(⟨1, 1⟩ : DexField)]).map
        (resolveField (chainDex [1]) ((chainDex [1]).classAt 1)) = [exampleField txtMid] := by
      decide
    rw [this]
    exact List.perm_singleton.mp (hsrt _).1
  · unfold ownTable
    rw [e2, x2, generateFieldTable_eq srt junk _ _ (by decide), d2]
    have : (List.filter (fun d => visibleFlags d.accessFlags) [(⟨2, 1⟩ : DexField)]).map
        (resolveField (chainDex [1]) ((chainDex [1]).classAt 2)) = [exampleField txtSub] := by
      decide
    rw [this]
    exact List.perm_singleton.mp (hsrt _).1

set_option maxRecDepth 100000 in
/-- C1, the code at the three-class file: `LSub;`, `LMid;` and `LBase;` form a
chain of loaded classes, each with the visible field `f:I`, and for every
sorting function that meets the contract of `std::sort` the list `scanAll`
returns has two pairs, the pair of `LMid;` and `LBase;` and a single pair for
the field of `LSub;`; it never holds both the pair of `LSub;` with `LMid;` and
the pair of `LSub;` with `LBase;`. -/
theorem scanAll_chain_single_pair (srt : ResolvedFieldTable → ResolvedFieldTable)
    (hsrt : StdSortSpec srt) (junk : Nat) :
    superOf [chainDex [1]] (0, 2) = some (0, 1) ∧ superOf [chainDex [1]] (0, 1) = some (0, 0) ∧
    ownTable srt junk [chainDex [1]] (0, 0) = [exampleField txtBase] ∧
    ownTable srt junk [chainDex [1]] (0, 1) = [exampleField txtMid] ∧
    ownTable srt junk [chainDex [1]] (0, 2) = [exampleField txtSub] ∧
    ∃ out, scanAll srt junk [chainDex [1]] 3 = some out ∧ out.length = 2 ∧
      (exampleField txtMid, exampleField txtBase) ∈ out ∧
      ¬ ((exampleField txtSub, exampleField txtMid) ∈ out ∧
         (exampleField txtSub, exampleField txtBase) ∈ out) := by
  obtain ⟨o0, o1, o2⟩ := chain_ownTable srt junk hsrt
  have s0 : superOf [chainDex [1]] (0, 0) = none := by decide
  have s1 : superOf [chainDex [1]] (0, 1) = some (0, 0) := by decide
  have s2 : superOf [chainDex [1]] (0, 2) = some (0, 1) := by decide
  refine ⟨s2, s1, o0, o1, o2, ?_⟩
  have hall : allClasses [chainDex [1]] = [(0, 0), (0, 1), (0, 2)] := by decide
  have r0 : resolveClass srt junk [chainDex [1]] 3 (0, 0) ResolveState.initial
      = some ⟨[((0, 0), [exampleField txtBase])], [], [(0, 0)]⟩ := by
    rw [resolveClass_root srt junk _ 2 (0, 0) _ (by unfold ResolveState.known; decide) s0, o0]
    rfl
  have r1 : resolveClass srt junk [chainDex [1]] 3 (0, 1)
      ⟨[((0, 0), [exampleField txtBase])], [], [(0, 0)]⟩
      = some ⟨[((0, 1), srt [exampleField txtMid, exampleField txtBase]),
          ((0, 0), [exampleField txtBase])],
        [(exampleField txtMid, exampleField txtBase)], [(0, 0), (0, 1)]⟩ := by
    rw [resolveClass_super srt junk _ 2 (0, 1) (0, 0) _ (by unfold ResolveState.known; decide) s1,
      resolveClass_known srt junk _ 1 (0, 0) _ (by unfold ResolveState.known; decide), o1]
    have hc : ResolvedField.compare (exampleField txtMid) (exampleField txtBase) = 0 := by decide
    simp [lookup_cons_self, findIntersection_single _ _ _ hc]
  have hk2 : ∀ T, ¬ ResolveState.known ⟨[((0, 1), T), ((0, 0), [exampleField txtBase])],
      [(exampleField txtMid, exampleField txtBase)], [(0, 0), (0, 1)]⟩ (0, 2) := by
    intro T
    unfold ResolveState.known
    simp only
    rw [@lookup_cons_ne (0, 2) (0, 1) (by decide), @lookup_cons_ne (0, 2) (0, 0) (by decide)]
    simp [List.lookup]
  have hk1 : ∀ T, ResolveState.known ⟨[((0, 1), T), ((0, 0), [exampleField txtBase])],
      [(exampleField txtMid, exampleField txtBase)], [(0, 0), (0, 1)]⟩ (0, 1) := by
    intro T
    unfold ResolveState.known
    simp [lookup_cons_self]
  have r2 : ∃ g, (g = exampleField txtMid ∨ g = exampleField txtBase) ∧
      (resolveClass srt junk [chainDex [1]] 3 (0, 2)
        ⟨[((0, 1), srt [exampleField txtMid, exampleField txtBase]),
          ((0, 0), [exampleField txtBase])],
        [(exampleField txtMid, exampleField txtBase)], [(0, 0), (0, 1)]⟩).map (fun st => st.outVec)
      = some [(exampleField txtMid, exampleField txtBase), (exampleField txtSub, g)] := by
    rw [resolveClass_super srt junk _ 2 (0, 2) (0, 1) _ (hk2 _) s2,
      resolveClass_known srt junk _ 1 (0, 1) _ (hk1 _), o2]
    simp only [Option.some_bind, lookup_cons_self, Option.isSome_some, if_true, Option.getD_some,
      Option.map_some']
    rcases perm_pair_cases (hsrt [exampleField txtMid, exampleField txtBase]).1 with e | e
    · refine ⟨exampleField txtMid, Or.inl rfl, ?_⟩
      rw [e]
      decide
    · refine ⟨exampleField txtBase, Or.inr rfl, ?_⟩
      rw [e]
      decide
  obtain ⟨g, hg, hr2⟩ := r2
  refine ⟨[(exampleField txtMid, exampleField txtBase), (exampleField txtSub, g)], ?_, rfl,
    List.mem_cons_self _ _, ?_⟩
  · unfold scanAll
    rw [hall]
    simp only [scanLoop, r0, r1]
    cases h3 : resolveClass srt junk [chainDex [1]] 3 (0, 2)
        ⟨[((0, 1), srt [exampleField txtMid, exampleField txtBase]),
          ((0, 0), [exampleField txtBase])],
        [(exampleField txtMid, exampleField txtBase)], [(0, 0), (0, 1)]⟩ with
    | none => rw [h3] at hr2; simp at hr2
    | some st3 =>
      rw [h3] at hr2
      simpa using hr2
  · rcases hg with rfl | rfl <;> decide

set_option maxRecDepth 100000 in
theorem scanAll_chain_single_pair_witness :
    scanAll insertionSortFields 0 [chainDex [1]] 3 = some
      [(exampleField txtMid, exampleField txtBase), (exampleField txtSub, exampleField txtMid)] ∧
    (exampleField txtSub, exampleField txtBase) ∉
      [(exampleField txtMid, exampleField txtBase), (exampleField txtSub, exampleField txtMid)] ∧
    ∃ out, scanAll insertionSortFields 0 [chainDex [1]] 3 = some out ∧ out.length = 2 ∧
      (exampleField txtMid, exampleField txtBase) ∈ out ∧
      ¬ ((exampleField txtSub, exampleField txtMid) ∈ out ∧
         (exampleField txtSub, exampleField txtBase) ∈ out) :=
  ⟨by decide, by decide,
    (scanAll_chain_single_pair insertionSortFields insertionSortFields_spec 0).2.2.2.2.2⟩

/-! ## Claims on duplicate keys -/

set_option maxRecDepth 100000 in
/-- C5, counterexample: in the two-class file the own visible fields of `LSub;`
have pairwise distinct keys, yet the table stored for `LSub;` holds its field
`f:I` and the field `f:I` of `LBase;`, two entries with the same key. -/
theorem merged_table_duplicate_key :
    scanLoop insertionSortFields 0 [pairDex] 2 (allClasses [pairDex]) ResolveState.initial
      = some pairDexResolved ∧
    pairDexResolved.mResolvedClassMap.lookup (0, 1)
      = some [exampleField txtSub, exampleField txtBase] ∧
    ((ownTable insertionSortFields 0 [pairDex] (0, 1)).map keyOf).Nodup ∧
    ¬ ([exampleField txtSub, exampleField txtBase].map keyOf).Nodup := by
  decide

/-- C5, amended: the table a returning call of `resolveClass` stores for a class
that was not memoized is its own table when no superclass is loaded, and
otherwise a rearrangement of its own table followed by the table of its
superclass; so it is free of duplicate keys exactly when both of these are and
no own field has the key of an entry of the superclass's table. -/
theorem resolveClass_table_keys (srt : ResolvedFieldTable → ResolvedFieldTable) (junk : Nat) (mDexVec : List DexFile)
    (hsrt : StdSortSpec srt) (fuel : Nat) (ref : ClassRef)
    (st st' : ResolveState) (h : resolveClass srt junk mDexVec fuel ref st = some st')
    (hk : ¬ st.known ref) :
    ∃ table, st'.mResolvedClassMap.lookup ref = some table ∧
      (superOf mDexVec ref = none → table = ownTable srt junk mDexVec ref) ∧
      (∀ s, superOf mDexVec ref = some s →
        ∃ parent, st'.mResolvedClassMap.lookup s = some parent ∧
          table.Perm (ownTable srt junk mDexVec ref ++ parent) ∧
          ((table.map keyOf).Nodup ↔
            (((ownTable srt junk mDexVec ref).map keyOf).Nodup ∧ (parent.map keyOf).Nodup ∧
              ∀ f ∈ ownTable srt junk mDexVec ref, ∀ g ∈ parent, keyOf f ≠ keyOf g))) := by
  cases hs : superOf mDexVec ref with
  | none =>
    rcases resolveClass_cases srt junk mDexVec h hk with ⟨_, rfl⟩ | ⟨s, _, _, _, hs', _, _⟩
    · refine ⟨_, lookup_cons_self _ _ _, fun _ => rfl, ?_⟩
      intro s hs'
      cases hs'
    · rw [hs] at hs'; cases hs'
  | some s =>
    obtain ⟨st1, f1, pt, hf, h1, hpt, hnk, rfl⟩ := resolveClass_step srt junk mDexVec h hk hs
    refine ⟨_, lookup_cons_self _ _ _, ?_, ?_⟩
    · intro h0
      cases h0
    intro s' hs'
    cases hs'
    have hne : s ≠ ref := by
      intro e
      apply hnk
      rw [← e]
      exact resolveClass_self_known srt junk mDexVec _ _ _ _ h1
    refine ⟨pt, ?_, (hsrt _).1, ?_⟩
    · simp only
      rw [lookup_cons_ne hne]
      exact hpt
    · rw [((hsrt (ownTable srt junk mDexVec ref ++ pt)).1.map keyOf).nodup_iff, List.map_append,
        List.nodup_append]
      constructor
      · rintro ⟨h1, h2, h3⟩
        refine ⟨h1, h2, ?_⟩
        intro f hf g hg e
        exact h3 (List.mem_map_of_mem keyOf hf) (e ▸ List.mem_map_of_mem keyOf hg)
      · rintro ⟨h1, h2, h3⟩
        refine ⟨h1, h2, ?_⟩
        intro k hk1 hk2
        obtain ⟨f, hf, rfl⟩ := List.mem_map.mp hk1
        obtain ⟨g, hg, e⟩ := List.mem_map.mp hk2
        exact h3 f hf g hg e.symm

set_option maxRecDepth 100000 in
theorem resolveClass_table_keys_witness :
    ∃ table, pairDexResolved.mResolvedClassMap.lookup (0, 1) = some table ∧
      (superOf [pairDex] (0, 1) = none → table = ownTable insertionSortFields 0 [pairDex] (0, 1)) ∧
      (∀ s, superOf [pairDex] (0, 1) = some s →
        ∃ parent, pairDexResolved.mResolvedClassMap.lookup s = some parent ∧
          table.Perm (ownTable insertionSortFields 0 [pairDex] (0, 1) ++ parent) ∧
          ((table.map keyOf).Nodup ↔
            (((ownTable insertionSortFields 0 [pairDex] (0, 1)).map keyOf).Nodup ∧
              (parent.map keyOf).Nodup ∧
              ∀ f ∈ ownTable insertionSortFields 0 [pairDex] (0, 1), ∀ g ∈ parent,
                keyOf f ≠ keyOf g))) :=
  resolveClass_table_keys insertionSortFields 0 [pairDex] insertionSortFields_spec 2 (0, 1)
    ResolveState.initial pairDexResolved (by decide) (by unfold ResolveState.known; decide)

/-! ## Claims on truncated class data and string prefixes -/

theorem ulebValueFrom_bound (c : List Nat) : ∀ pos,
    ulebValueFrom pos c + 2 ^ (7 * pos) ≤ 2 ^ (7 * (pos + c.length)) := by
  induction c with
  | nil => intro pos; simp [ulebValueFrom]
  | cons b c ih =>
    intro pos
    have h := ih (pos + 1)
    have e1 : 2 ^ (7 * (pos + 1)) = 128 * 2 ^ (7 * pos) := by
      rw [show 7 * (pos + 1) = 7 + 7 * pos by ring, pow_add]; norm_num
    have e2 : pos + (b :: c).length = pos + 1 + c.length := by
      simp only [List.length_cons]; omega
    rw [e2]
    simp only [ulebValueFrom]
    have hb : b % 128 ≤ 127 := by omega
    have := Nat.mul_le_mul_right (2 ^ (7 * pos)) hb
    omega

theorem ulebValue_short {c : List Nat} (h : c.length ≤ 4) : ulebValue c < 2 ^ 28 := by
  have h1 := ulebValueFrom_bound c 0
  have h2 : 2 ^ (7 * (0 + c.length)) ≤ 2 ^ 28 :=
    Nat.pow_le_pow_right (by norm_num) (by omega)
  unfold ulebValue
  have : ulebValueFrom 0 c < 2 ^ 28 := by
    simp only [Nat.mul_zero, pow_zero] at h1
    omega
  have h3 : ulebValueFrom 0 c % 2 ^ 32 = ulebValueFrom 0 c :=
    Nat.mod_eq_of_lt (lt_of_lt_of_le this (by norm_num))
  rw [h3]
  exact this

theorem isULEB128From_ne_nil {pos : Nat} {c : List Nat} (h : isULEB128From pos c = true) :
    1 ≤ c.length := by
  cases c with
  | nil => simp [isULEB128From] at h
  | cons b c => simp

set_option maxRecDepth 100000 in
theorem chain_truncated_readFrom :
    DexClassData.readFrom ((BytesInput.create (chainDex [0x81]).data
      (chainDex [0x81]).dataCapacity).seek ((chainDex [0x81]).classAt 2).classDataOff) 0
    = (0, ⟨0, 1, 0, 0, [⟨2, 0x10204081⟩]⟩,
        ⟨(chainDex [0x81]).data, 329, 329⟩) := by
  decide

set_option maxRecDepth 100000 in
theorem chain_truncated_not_complete :
    ¬ classDataComplete ((BytesInput.create (chainDex [0x81]).data
      (chainDex [0x81]).dataCapacity).seek ((chainDex [0x81]).classAt 2).classDataOff) := by
  rintro ⟨cs, cn, cd, cv, statics, instances, directs, virtuals, hcs, hcn, hcd, hcv, hws, hwi,
    hwd, hwv, hs, hn, hd, hv, hh⟩
  have e := readFrom_blob cs cn cd cv statics instances directs virtuals _ 0 hcs hcn hcd hcv
    hws hwi hwd hwv hs hn hd hv hh
  rw [chain_truncated_readFrom] at e
  simp only [Prod.mk.injEq, DexClassData.mk.injEq, true_and] at e
  obtain ⟨⟨_, hcn1, _, _, hinst⟩, hcur⟩ := e
  -- the single instance pair and the length of its second value
  match instances, hn, hinst, hwi with
  | [], hn, _, _ => simp [← hcn1] at hn
  | [p], _, hinst, hwi =>
    simp only [instanceFieldsFrom, List.cons.injEq, DexField.mk.injEq, and_true] at hinst
    have hp2 : 5 ≤ p.2.length := by
      by_contra hlt
      have := ulebValue_short (c := p.2) (by omega)
      rw [← hinst.2] at this
      norm_num at this
    have hp1 := isULEB128From_ne_nil (hwi p (List.mem_cons_self _ _)).1
    have l1 := isULEB128From_ne_nil hcs
    have l2 := isULEB128From_ne_nil hcn
    have l3 := isULEB128From_ne_nil hcd
    have l4 := isULEB128From_ne_nil hcv
    have hlen := congrArg BytesInput.mCursor hcur
    have hseek : ((BytesInput.create (chainDex [0x81]).data
      (chainDex [0x81]).dataCapacity).seek ((chainDex [0x81]).classAt 2).classDataOff).mCursor
        = 323 := by decide
    simp only [BytesInput.advance, hseek, classDataBytes, pairBytes, List.length_append,
      List.map_cons, List.map_nil, List.flatten_cons, List.flatten_nil, List.length_nil] at hlen
    omega
  | _ :: _ :: _, hn, _, _ => simp [← hcn1] at hn

set_option maxRecDepth 100000 in
/-- C9, counterexample: the class data of `LSub;` in the three-class file whose
last byte is `0x81` is truncated (the file ends inside the access flags of the
announced instance field, so no complete blob lies at the class-data offset),
yet `readFrom` returns 0 with one instance field and `generateFieldTable`
returns a table with one entry. -/
theorem truncated_class_data_accepted :
    ¬ classDataComplete ((BytesInput.create (chainDex [0x81]).data
      (chainDex [0x81]).dataCapacity).seek ((chainDex [0x81]).classAt 2).classDataOff) ∧
    (DexClassData.readFrom ((BytesInput.create (chainDex [0x81]).data
      (chainDex [0x81]).dataCapacity).seek ((chainDex [0x81]).classAt 2).classDataOff) 0).1 = 0 ∧
    (DexClassData.readFrom ((BytesInput.create (chainDex [0x81]).data
      (chainDex [0x81]).dataCapacity).seek
        ((chainDex [0x81]).classAt 2).classDataOff) 0).2.1.instanceFields
      = [⟨2, 0x10204081⟩] ∧
    generateFieldTable insertionSortFields 0 (chainDex [0x81]) ((chainDex [0x81]).classAt 2)
      = [⟨0x10204081, txtF, txtI, txtSub⟩] :=
  ⟨chain_truncated_not_complete, by decide, by decide, by decide⟩

/-- C9, amended: `readFrom` returns 0 on every buffer, truncated or not, with
as many instance fields as the decoded count announces, and
`generateFieldTable` returns the sorted table of the visible ones among them;
neither reports an error. -/
theorem readFrom_never_fails (inp : BytesInput) (junk : Nat) :
    (DexClassData.readFrom inp junk).1 = 0 ∧
    (DexClassData.readFrom inp junk).2.1.instanceFields.length
      = (DexClassData.readFrom inp junk).2.1.instanceFieldsSize ∧
    (∀ (srt : ResolvedFieldTable → ResolvedFieldTable) (dex : DexFile) (classDef : DexClassDef),
      classDef.classDataOff ≠ 0 →
      generateFieldTable srt junk dex classDef
        = srt (((decodedInstanceFields junk dex classDef).filter
            (fun d => visibleFlags d.accessFlags)).map (resolveField dex classDef))) :=
  ⟨rfl, readFrom_instanceFields_length inp junk,
    fun srt dex classDef h => generateFieldTable_eq srt junk dex classDef h⟩

set_option maxRecDepth 100000 in
/-- C10, the code at a string of 128 code units: the string data item of the
field name in `longNameDex` starts at offset 202 with the two-byte ULEB128
length `0x80 0x01`, so its first payload byte is at 204; `getStringAt` (and
`getTypeName` for the type with that descriptor) returns 203, and the text read
there starts with the byte `0x01` of the length. -/
theorem getStringAt_long_string :
    longNameDex.stringDataOff 3 = 202 ∧
    readAsULEB128 ((BytesInput.create longNameDex.data longNameDex.dataCapacity).seek 202) 0
      = (⟨longNameDex.data, longNameDex.dataCapacity, 204⟩, 128) ∧
    longNameDex.getStringAt 3 = 203 ∧ longNameDex.getTypeName 3 = 203 ∧
    cString longNameDex.data (longNameDex.getStringAt 3) = 1 :: List.replicate 128 0x61 ∧
    cString longNameDex.data 204 = List.replicate 128 0x61 ∧
    (generateFieldTable insertionSortFields 0 longNameDex (longNameDex.classAt 0)).map
      (fun f => f.name) = [1 :: List.replicate 128 0x61] := by
  decide

/-! ## Claims on the byte cursor -/

theorem call_inv (inp : BytesInput) (c : CursorCall) (h : inp.mCursor ≤ inp.mLength) :
    (inp.call c).mCursor ≤ (inp.call c).mLength ∧ (inp.call c).mLength = inp.mLength ∧
    (inp.call c).mBuff = inp.mBuff := by
  cases c with
  | seek off =>
    refine ⟨?_, rfl, rfl⟩
    show min off inp.mLength ≤ inp.mLength
    exact Nat.min_le_right _ _
  | write dst size =>
    refine ⟨?_, rfl, rfl⟩
    show inp.mCursor + min (inp.mLength - inp.mCursor) size ≤ inp.mLength
    have := Nat.min_le_left (inp.mLength - inp.mCursor) size
    omega

theorem calls_inv (cs : List CursorCall) : ∀ (inp : BytesInput), inp.mCursor ≤ inp.mLength →
    (inp.calls cs).mCursor ≤ (inp.calls cs).mLength ∧ (inp.calls cs).mLength = inp.mLength ∧
    (inp.calls cs).mBuff = inp.mBuff := by
  induction cs with
  | nil => intro inp h; exact ⟨h, rfl, rfl⟩
  | cons c cs ih =>
    intro inp h
    obtain ⟨h1, h2, h3⟩ := call_inv inp c h
    obtain ⟨k1, k2, k3⟩ := ih (inp.call c) h1
    simp only [BytesInput.calls]
    exact ⟨k1, k2.trans h2, k3.trans h3⟩

/-- C11: a `BytesInput` built over a buffer with length `L` starts at position 0;
after every sequence of `seek` and `write` calls (so also of `>>`) the position
is at most `L`, and `eof()` holds exactly when it equals `L`; `seek(off)` sets
the position to `min(off, L)`; the operator `>>` at type `u1` moves the
position like `write` with size 1. -/
theorem bytesInput_position_bounded (buff : List Nat) (L : Nat) :
    (BytesInput.create buff L).mCursor = 0 ∧
    (∀ cs : List CursorCall,
      ((BytesInput.create buff L).calls cs).mCursor ≤ L ∧
      ((BytesInput.create buff L).calls cs).mLength = L ∧
      (((BytesInput.create buff L).calls cs).eof = true ↔
        ((BytesInput.create buff L).calls cs).mCursor = L) ∧
      (∀ off, (((BytesInput.create buff L).calls cs).seek off).mCursor = min off L) ∧
      (∀ cur, (((BytesInput.create buff L).calls cs).readU1 cur).1
        = (((BytesInput.create buff L).calls cs).write [cur] 1).1)) := by
  refine ⟨rfl, ?_⟩
  intro cs
  obtain ⟨h1, h2, _⟩ := calls_inv cs (BytesInput.create buff L) (Nat.zero_le _)
  have hL : (BytesInput.create buff L).mLength = L := rfl
  rw [hL] at h2
  rw [h2] at h1
  refine ⟨h1, h2, ?_, ?_, ?_⟩
  · simp only [BytesInput.eof, decide_eq_true_eq, h2]
    omega
  · intro off
    simp [BytesInput.seek, h2]
  · intro cur
    rfl

/-- C12: at a position `p` within a buffer of length `L`, `write(dst, n)` returns
`c = min(L - p, n)`, moves the position to `p + c`, puts the buffer bytes
`p .. p+c-1` into the first `c` bytes of `dst` and leaves the other bytes of
`dst` as they were; the outcome does not depend on the buffer from index `L` on. -/
theorem write_copies_clamped (inp : BytesInput) (dst : List Nat) (n : Nat)
    (hp : inp.mCursor ≤ inp.mLength) (hn : n ≤ dst.length) :
    (inp.write dst n).2.2 = min (inp.mLength - inp.mCursor) n ∧
    (inp.write dst n).1.mCursor = inp.mCursor + min (inp.mLength - inp.mCursor) n ∧
    (inp.write dst n).1.mCursor ≤ inp.mLength ∧
    (inp.write dst n).2.1.length = dst.length ∧
    (∀ k, k < min (inp.mLength - inp.mCursor) n →
      (inp.write dst n).2.1[k]? = some (byteAt inp.mBuff (inp.mCursor + k))) ∧
    (∀ k, min (inp.mLength - inp.mCursor) n ≤ k → (inp.write dst n).2.1[k]? = dst[k]?) ∧
    (∀ other : List Nat, (∀ i, i < inp.mLength → byteAt other i = byteAt inp.mBuff i) →
      (BytesInput.write { inp with mBuff := other } dst n).2 = (inp.write dst n).2) := by
  have hc := Nat.min_le_left (inp.mLength - inp.mCursor) n
  have hc' := Nat.min_le_right (inp.mLength - inp.mCursor) n
  refine ⟨rfl, rfl, ?_, ?_, ?_, ?_, ?_⟩
  · simp only [BytesInput.write]; omega
  · simp only [BytesInput.write, List.length_append, List.length_map, List.length_range,
      List.length_drop]
    omega
  · intro k hk
    simp only [BytesInput.write]
    rw [List.getElem?_append_left (by simpa using hk)]
    simp [hk]
  · intro k hk
    simp only [BytesInput.write]
    rw [List.getElem?_append_right (by simpa using hk)]
    simp only [List.length_map, List.length_range, List.getElem?_drop]
    congr 1
    omega
  · intro other hother
    simp only [BytesInput.write]
    congr 2
    apply List.map_congr_left
    intro k hk
    simp only [List.mem_range] at hk
    apply hother
    omega

theorem write_copies_clamped_witness :
    (BytesInput.write ⟨[1, 2, 3, 4, 5], 5, 3⟩ [9, 9, 9, 9] 4).2.2 = min (5 - 3) 4 ∧
    (BytesInput.write ⟨[1, 2, 3, 4, 5], 5, 3⟩ [9, 9, 9, 9] 4).1.mCursor = 3 + min (5 - 3) 4 ∧
    (BytesInput.write ⟨[1, 2, 3, 4, 5], 5, 3⟩ [9, 9, 9, 9] 4).2.1 = [4, 5, 9, 9] :=
  ⟨(write_copies_clamped ⟨[1, 2, 3, 4, 5], 5, 3⟩ [9, 9, 9, 9] 4 (by decide) (by decide)).1,
   (write_copies_clamped ⟨[1, 2, 3, 4, 5], 5, 3⟩ [9, 9, 9, 9] 4 (by decide) (by decide)).2.1,
   by decide⟩

/-! ## Claims on the bytecode-file header -/

theorem byteAt_lt (buff : List Nat) (i : Nat) : byteAt buff i < 256 := by
  unfold byteAt; omega

theorem byteAt_of_le (buff : List Nat) (i : Nat) (h : buff.length ≤ i) : byteAt buff i = 0 := by
  unfold byteAt
  rw [List.getD_eq_getElem?_getD, List.getElem?_eq_none h]
  rfl

/-- The header `readFrom` reads at position 0 of a whole buffer holds, byte by
byte, the first 112 bytes of the buffer, with zeros where the buffer ends. -/
theorem header_byteAt (buff : List Nat) (k : Nat) (hk : k < 112) :
    byteAt ((BytesInput.create buff buff.length).write
      (List.replicate DexHeader.sizeOf 0) DexHeader.sizeOf).2.1 k = byteAt buff k := by
  simp only [BytesInput.write, BytesInput.create, DexHeader.sizeOf, Nat.sub_zero, Nat.zero_add]
  by_cases h : k < min buff.length 112
  · unfold byteAt
    rw [List.getD_eq_getElem?_getD, List.getElem?_append_left (by simpa using h)]
    simp [h, byteAt]
  · have hlen : buff.length ≤ k := by
      simp only [Nat.lt_min, not_and, not_lt] at h
      by_contra hc
      have := h (by omega)
      omega
    rw [byteAt_of_le buff k hlen]
    unfold byteAt
    rw [List.getD_eq_getElem?_getD, List.getElem?_append_right (by simpa using Nat.le_of_not_lt h)]
    simp only [List.length_map, List.length_range, List.getElem?_drop]
    rw [List.getElem?_replicate]
    split <;> rfl

theorem header_u4At (buff : List Nat) (off : Nat) (hk : off + 3 < 112) :
    u4At ((BytesInput.create buff buff.length).write
      (List.replicate DexHeader.sizeOf 0) DexHeader.sizeOf).2.1 off = u4At buff off := by
  unfold u4At
  rw [header_byteAt buff off (by omega), header_byteAt buff (off + 1) (by omega),
    header_byteAt buff (off + 2) (by omega), header_byteAt buff (off + 3) (by omega)]

theorem readFrom_header (buff : List Nat) :
    (DexHeader.ofBytes ((BytesInput.create buff buff.length).write
      (List.replicate DexHeader.sizeOf 0) DexHeader.sizeOf).2.1).magic
        = (List.range 4).map (fun k => byteAt buff k) ∧
    (DexHeader.ofBytes ((BytesInput.create buff buff.length).write
      (List.replicate DexHeader.sizeOf 0) DexHeader.sizeOf).2.1).endianTag = u4At buff 40 := by
  constructor
  · simp only [DexHeader.ofBytes]
    apply List.map_congr_left
    intro k hk
    simp only [List.mem_range] at hk
    exact header_byteAt buff k (by omega)
  · exact header_u4At buff 40 (by omega)

/-- C13: on a whole buffer read from position 0, `DexFile::readFrom` returns -1
when the first four bytes are not `dex\n` (in particular when there are fewer
than four bytes) and when the little-endian `u4` at offset 40 is not
`0x12345678` (in particular when the buffer ends before offset 44); in both
cases the name-to-class map stays empty. -/
theorem readFrom_rejects (buff : List Nat)
    (h : (List.range 4).map (fun k => byteAt buff k) ≠ DexHeader.MAGIC ∨ buff.length < 4 ∨
      u4At buff 40 ≠ 0x12345678 ∨ buff.length < 44) :
    (DexFile.readFrom (BytesInput.create buff buff.length)).1 = -1 ∧
    (DexFile.readFrom (BytesInput.create buff buff.length)).2.nameToClassMap = [] := by
  obtain ⟨hm, he⟩ := readFrom_header buff
  have hshort4 : buff.length < 4 → (List.range 4).map (fun k => byteAt buff k) ≠ DexHeader.MAGIC := by
    intro hl e
    have h3 : byteAt buff 3 = 0 := byteAt_of_le buff 3 (by omega)
    have : ((List.range 4).map (fun k => byteAt buff k))[3]? = DexHeader.MAGIC[3]? := by rw [e]
    simp [DexHeader.MAGIC, List.range_succ, h3] at this
  have hshort44 : buff.length < 44 → u4At buff 40 ≠ 0x12345678 := by
    intro hl e
    have h3 : byteAt buff 43 = 0 := byteAt_of_le buff 43 (by omega)
    have e' : byteAt buff 40 + 256 * byteAt buff 41 + 65536 * byteAt buff 42
        + 16777216 * byteAt buff 43 = 0x12345678 := e
    rw [h3] at e'
    have b0 := byteAt_lt buff 40
    have b1 := byteAt_lt buff 41
    have b2 := byteAt_lt buff 42
    omega
  have hbad : (List.range 4).map (fun k => byteAt buff k) ≠ DexHeader.MAGIC ∨
      u4At buff 40 ≠ 0x12345678 := by
    rcases h with h | h | h | h
    · exact Or.inl h
    · exact Or.inl (hshort4 h)
    · exact Or.inr h
    · exact Or.inr (hshort44 h)
  unfold DexFile.readFrom
  simp only [hm, he]
  by_cases h1 : (List.range 4).map (fun k => byteAt buff k) ≠ DexHeader.MAGIC
  · rw [if_pos h1]
    exact ⟨rfl, rfl⟩
  · rw [if_neg h1]
    have h2 : u4At buff 40 ≠ 0x12345678 := by
      rcases hbad with h | h
      · exact absurd h h1
      · exact h
    rw [if_pos h2]
    exact ⟨rfl, rfl⟩

theorem readFrom_rejects_witness :
    (DexFile.readFrom (BytesInput.create [0x64, 0x65, 0x78] [0x64, 0x65, 0x78].length)).1 = -1 ∧
    (DexFile.readFrom (BytesInput.create [0x64, 0x65, 0x78]
      [0x64, 0x65, 0x78].length)).2.nameToClassMap = [] :=
  readFrom_rejects [0x64, 0x65, 0x78] (Or.inr (Or.inl (by decide)))

/-! ## Claims on the name-to-class map -/

theorem lookup_cons_name (name key : List Nat) (v : Nat) (m : List (List Nat × Nat)) :
    ((key, v) :: m).lookup name = if name = key then some v else m.lookup name := by
  by_cases h : name = key
  · subst h; simp [List.lookup]
  · have : (name == key) = false := by simpa using h
    simp [List.lookup, this, h]

theorem fillNameToClassMap_lookup (dex : DexFile) (name : List Nat) :
    ∀ (todo i : Nat) (m : List (List Nat × Nat)),
    (∃ j, i ≤ j ∧ j < i + todo ∧ dex.classDescriptor j = name ∧
      (∀ j', j < j' → j' < i + todo → dex.classDescriptor j' ≠ name) ∧
      (dex.fillNameToClassMap todo i m).lookup name = some j) ∨
    ((∀ j, i ≤ j → j < i + todo → dex.classDescriptor j ≠ name) ∧
      (dex.fillNameToClassMap todo i m).lookup name = m.lookup name) := by
  intro todo
  induction todo with
  | zero =>
    intro i m
    right
    exact ⟨fun j h1 h2 => by omega, rfl⟩
  | succ todo ih =>
    intro i m
    simp only [DexFile.fillNameToClassMap]
    rcases ih (i + 1) ((dex.classDescriptor i, i) :: m) with
      ⟨j, h1, h2, h3, h4, h5⟩ | ⟨h1, h2⟩
    · left
      exact ⟨j, by omega, by omega, h3, fun j' a b => h4 j' a (by omega), h5⟩
    · rw [lookup_cons_name] at h2
      by_cases hn : name = dex.classDescriptor i
      · left
        rw [if_pos hn] at h2
        refine ⟨i, le_refl _, by omega, hn.symm, ?_, h2⟩
        intro j' a b
        exact h1 j' (by omega) (by omega)
      · right
        rw [if_neg hn] at h2
        refine ⟨?_, h2⟩
        intro j a b
        by_cases e : j = i
        · subst e; exact fun h => hn h.symm
        · exact h1 j (by omega) (by omega)

theorem readFrom_ok_shape (file : BytesInput) (h : (DexFile.readFrom file).1 = 0) :
    ∃ dex0 : DexFile, (DexFile.readFrom file).2 =
      { dex0 with nameToClassMap := dex0.fillNameToClassMap dex0.header.classDefsSize 0 [] } := by
  unfold DexFile.readFrom at h ⊢
  simp only at h ⊢
  split at h
  · simp at h
  · split at h
    · simp at h
    · rename_i h1 h2
      rw [if_neg h1, if_neg h2]
      exact ⟨{ header := DexHeader.ofBytes
                  (file.write (List.replicate DexHeader.sizeOf 0) DexHeader.sizeOf).2.1
               data := file.mBuff
               dataCapacity := file.mLength
               stringPool := (DexHeader.ofBytes
                  (file.write (List.replicate DexHeader.sizeOf 0) DexHeader.sizeOf).2.1).stringIdsOff
               typePool := (DexHeader.ofBytes
                  (file.write (List.replicate DexHeader.sizeOf 0) DexHeader.sizeOf).2.1).typeIdsOff
               classes := (DexHeader.ofBytes
                  (file.write (List.replicate DexHeader.sizeOf 0) DexHeader.sizeOf).2.1).classDefsOff
               fields := (DexHeader.ofBytes
                  (file.write (List.replicate DexHeader.sizeOf 0) DexHeader.sizeOf).2.1).fieldIdsOff
               tag := ""
               nameToClassMap := [] }, rfl⟩

/-- C14: after a successful `DexFile::readFrom`, `findClassByName(name)` returns
the class definition with the greatest index below `classDefsSize` whose class
descriptor is `name`, and returns null exactly when no class definition below
`classDefsSize` has that descriptor. -/
theorem findClassByName_last_wins (file : BytesInput) (name : List Nat)
    (h : (DexFile.readFrom file).1 = 0) :
    (∀ i, (DexFile.readFrom file).2.findClassByName name = some i ↔
      (i < (DexFile.readFrom file).2.header.classDefsSize ∧
        (DexFile.readFrom file).2.classDescriptor i = name ∧
        ∀ j, i < j → j < (DexFile.readFrom file).2.header.classDefsSize →
          (DexFile.readFrom file).2.classDescriptor j ≠ name)) ∧
    ((DexFile.readFrom file).2.findClassByName name = none ↔
      ∀ i, i < (DexFile.readFrom file).2.header.classDefsSize →
        (DexFile.readFrom file).2.classDescriptor i ≠ name) := by
  obtain ⟨dex0, hdex⟩ := readFrom_ok_shape file h
  rw [hdex]
  have hd : ∀ i, DexFile.classDescriptor
      { dex0 with nameToClassMap := dex0.fillNameToClassMap dex0.header.classDefsSize 0 [] } i
      = dex0.classDescriptor i := fun i => rfl
  simp only [hd, DexFile.findClassByName]
  rcases fillNameToClassMap_lookup dex0 name dex0.header.classDefsSize 0 [] with
    ⟨j, _, h2, h3, h4, h5⟩ | ⟨h1, h2⟩
  · simp only [Nat.zero_add] at h2 h4
    rw [h5]
    constructor
    · intro i
      constructor
      · intro e
        cases e
        exact ⟨h2, h3, h4⟩
      · rintro ⟨a, b, c⟩
        congr 1
        by_contra hne
        rcases Nat.lt_or_gt_of_ne hne with hlt | hgt
        · exact h4 i hlt a b
        · exact c j hgt h2 h3
    · constructor
      · intro e; cases e
      · intro hall
        exact absurd h3 (hall j h2)
  · simp only [Nat.zero_add] at h1
    rw [h2]
    constructor
    · intro i
      constructor
      · intro e; simp [List.lookup] at e
      · rintro ⟨a, b, _⟩
        exact absurd b (h1 i (Nat.zero_le _) a)
    · constructor
      · intro _ i hi
        exact h1 i (Nat.zero_le _) hi
      · intro _
        rfl

set_option maxRecDepth 100000 in
theorem findClassByName_last_wins_witness :
    (∀ i, (DexFile.readFrom (BytesInput.create pairDexBytes pairDexBytes.length)).2.findClassByName
        txtSub = some i ↔
      (i < (DexFile.readFrom (BytesInput.create pairDexBytes
          pairDexBytes.length)).2.header.classDefsSize ∧
        (DexFile.readFrom (BytesInput.create pairDexBytes pairDexBytes.length)).2.classDescriptor i
          = txtSub ∧
        ∀ j, i < j → j < (DexFile.readFrom (BytesInput.create pairDexBytes
            pairDexBytes.length)).2.header.classDefsSize →
          (DexFile.readFrom (BytesInput.create pairDexBytes pairDexBytes.length)).2.classDescriptor j
            ≠ txtSub)) ∧
    ((DexFile.readFrom (BytesInput.create pairDexBytes pairDexBytes.length)).2.findClassByName
        txtSub = none ↔
      ∀ i, i < (DexFile.readFrom (BytesInput.create pairDexBytes
          pairDexBytes.length)).2.header.classDefsSize →
        (DexFile.readFrom (BytesInput.create pairDexBytes pairDexBytes.length)).2.classDescriptor i
          ≠ txtSub) :=
  findClassByName_last_wins (BytesInput.create pairDexBytes pairDexBytes.length) txtSub (by decide)

/-! ## Claims on the class lookup across files -/

theorem findClassByNameFrom_some (name : List Nat) : ∀ (l : List DexFile) (idx i c : Nat),
    findClassByNameFrom name l idx = some (i, c) ↔
    ∃ k dex, i = idx + k ∧ l[k]? = some dex ∧ dex.findClassByName name = some c ∧
      ∀ j d, j < k → l[j]? = some d → d.findClassByName name = none := by
  intro l
  induction l with
  | nil => intro idx i c; simp [findClassByNameFrom]
  | cons x l ih =>
    intro idx i c
    simp only [findClassByNameFrom]
    cases hx : x.findClassByName name with
    | some tmp =>
      simp only [Option.some.injEq, Prod.mk.injEq]
      constructor
      · rintro ⟨rfl, rfl⟩
        exact ⟨0, x, rfl, by simp, hx, fun j d hj => by omega⟩
      · rintro ⟨k, dex, hi, hk, hc, hall⟩
        cases k with
        | zero =>
          simp only [List.getElem?_cons_zero, Option.some.injEq] at hk
          subst hk
          rw [hx] at hc
          cases hc
          exact ⟨by omega, rfl⟩
        | succ k =>
          have := hall 0 x (by omega) (by simp)
          rw [hx] at this
          cases this
    | none =>
      simp only
      rw [ih (idx + 1) i c]
      constructor
      · rintro ⟨k, dex, hi, hk, hc, hall⟩
        refine ⟨k + 1, dex, by omega, by simpa using hk, hc, ?_⟩
        intro j d hj hd
        cases j with
        | zero =>
          simp only [List.getElem?_cons_zero, Option.some.injEq] at hd
          subst hd
          exact hx
        | succ j => exact hall j d (by omega) (by simpa using hd)
      · rintro ⟨k, dex, hi, hk, hc, hall⟩
        cases k with
        | zero =>
          simp only [List.getElem?_cons_zero, Option.some.injEq] at hk
          subst hk
          rw [hx] at hc
          cases hc
        | succ k =>
          refine ⟨k, dex, by omega, by simpa using hk, hc, ?_⟩
          intro j d hj hd
          exact hall (j + 1) d (by omega) (by simpa using hd)

theorem findClassByNameFrom_none (name : List Nat) : ∀ (l : List DexFile) (idx : Nat),
    findClassByNameFrom name l idx = none ↔ ∀ d ∈ l, d.findClassByName name = none := by
  intro l
  induction l with
  | nil => intro idx; simp [findClassByNameFrom]
  | cons x l ih =>
    intro idx
    simp only [findClassByNameFrom, List.mem_cons, forall_eq_or_imp]
    cases hx : x.findClassByName name with
    | some tmp => simp
    | none => simp [ih (idx + 1)]

/-- C15: `ApkFile::findClassByName` returns the file with the lowest load index
that knows the descriptor, with the class definition found there, and returns
nothing exactly when no loaded file knows it; when the superclass of a class
that is not memoized is not found, `resolveClass` returns with the own field
table of the class stored as its table and the output list unchanged. -/
theorem findClassByName_first_wins (mDexVec : List DexFile) (name : List Nat) :
    (∀ i c, findClassByName mDexVec name = some (i, c) ↔
      ∃ dex, mDexVec[i]? = some dex ∧ dex.findClassByName name = some c ∧
        ∀ j d, j < i → mDexVec[j]? = some d → d.findClassByName name = none) ∧
    (findClassByName mDexVec name = none ↔ ∀ d ∈ mDexVec, d.findClassByName name = none) ∧
    (∀ (srt : ResolvedFieldTable → ResolvedFieldTable) (junk fuel : Nat) (ref : ClassRef)
      (st : ResolveState), ¬ st.known ref → superOf mDexVec ref = none →
      ∃ st', resolveClass srt junk mDexVec (fuel + 1) ref st = some st' ∧
        st'.outVec = st.outVec ∧
        st'.mResolvedClassMap.lookup ref = some (ownTable srt junk mDexVec ref) ∧
        ∀ k, k ≠ ref → st'.mResolvedClassMap.lookup k = st.mResolvedClassMap.lookup k) := by
  refine ⟨?_, ?_, ?_⟩
  · intro i c
    unfold findClassByName
    rw [findClassByNameFrom_some]
    constructor
    · rintro ⟨k, dex, hi, hk, hc, hall⟩
      obtain rfl : i = k := by omega
      exact ⟨dex, hk, hc, hall⟩
    · rintro ⟨dex, hk, hc, hall⟩
      exact ⟨i, dex, by omega, hk, hc, hall⟩
  · exact findClassByNameFrom_none name mDexVec 0
  · intro srt junk fuel ref st hk hs
    refine ⟨_, resolveClass_root srt junk mDexVec fuel ref st hk hs, rfl,
      lookup_cons_self _ _ _, ?_⟩
    intro k hne
    exact lookup_cons_ne hne _ _

/-! ## Claims on the merge-join -/

theorem compare_congr_left {p p' : ResolvedField} (q : ResolvedField) (h : keyOf p = keyOf p') :
    ResolvedField.compare p q = ResolvedField.compare p' q := by
  simp only [keyOf, Prod.mk.injEq] at h
  unfold ResolvedField.compare
  rw [h.1, h.2]

theorem compare_congr_right (p : ResolvedField) {q q' : ResolvedField} (h : keyOf q = keyOf q') :
    ResolvedField.compare p q = ResolvedField.compare p q' := by
  simp only [keyOf, Prod.mk.injEq] at h
  unfold ResolvedField.compare
  rw [h.1, h.2]

theorem compare_eq_zero_iff_key {p q : ResolvedField} :
    ResolvedField.compare p q = 0 ↔ keyOf p = keyOf q := by
  rw [compare_eq_zero]
  simp [keyOf]

theorem compare_lt_of_lt_of_le {p q r : ResolvedField} (h1 : ResolvedField.compare p q < 0)
    (h2 : ResolvedField.compare q r ≤ 0) : ResolvedField.compare p r < 0 := by
  have h3 : ResolvedField.compare p r ≤ 0 := compare_trans (le_of_lt h1) h2
  rcases lt_or_eq_of_le h3 with h | h
  · exact h
  · rw [compare_eq_zero_iff_key] at h
    rw [← compare_congr_right q h, compare_swap p q] at h2
    omega

theorem compare_lt_of_le_of_lt {p q r : ResolvedField} (h1 : ResolvedField.compare p q ≤ 0)
    (h2 : ResolvedField.compare q r < 0) : ResolvedField.compare p r < 0 := by
  have h3 : ResolvedField.compare p r ≤ 0 := compare_trans h1 (le_of_lt h2)
  rcases lt_or_eq_of_le h3 with h | h
  · exact h
  · rw [compare_eq_zero_iff_key] at h
    rw [compare_congr_left q h, compare_swap q r] at h1
    omega

theorem key_ne_of_compare_lt {p q : ResolvedField} (h : ResolvedField.compare p q < 0) :
    keyOf p ≠ keyOf q := by
  intro e
  rw [← compare_eq_zero_iff_key] at e
  omega

theorem expectedPairs_skip_super (self super : ResolvedFieldTable) (t : ResolvedField)
    (h : ∀ s ∈ self, keyOf t ≠ keyOf s) :
    expectedPairs self (t :: super) = expectedPairs self super := by
  unfold expectedPairs
  apply List.filterMap_congr
  intro s hs
  have := h s hs
  simp [List.find?_cons, this]

theorem expectedPairs_skip_self (self super : ResolvedFieldTable) (s : ResolvedField)
    (h : ∀ t ∈ super, keyOf t ≠ keyOf s) :
    expectedPairs (s :: self) super = expectedPairs self super := by
  unfold expectedPairs
  have : super.find? (fun t => decide (keyOf t = keyOf s)) = none := by
    rw [List.find?_eq_none]
    intro t ht
    simpa using h t ht
  simp [List.filterMap_cons, this]

theorem findIntersectionLoop_spec : ∀ (fuel : Nat) (vec : List ScanResultPair)
    (self super : ResolvedFieldTable), self.length + super.length ≤ fuel →
    self.Pairwise (fun p q => ResolvedField.compare p q < 0) →
    super.Pairwise (fun p q => ResolvedField.compare p q ≤ 0) →
    findIntersectionLoop fuel vec self super = vec ++ expectedPairs self super := by
  intro fuel
  induction fuel with
  | zero =>
    intro vec self super hlen _ _
    have h1 : self = [] := List.length_eq_zero.mp (by omega)
    subst h1
    simp [findIntersectionLoop, expectedPairs]
  | succ fuel ih =>
    intro vec self super hlen hself hsuper
    cases self with
    | nil => simp [findIntersectionLoop, expectedPairs]
    | cons s self =>
      cases super with
      | nil => simp [findIntersectionLoop, expectedPairs]
      | cons t super =>
        simp only [List.length_cons] at hlen
        rw [List.pairwise_cons] at hself hsuper
        simp only [findIntersectionLoop]
        by_cases hlt : ResolvedField.compare s t < 0
        · rw [if_pos hlt, ih vec self (t :: super) (by simp only [List.length_cons]; omega)
            hself.2 (List.pairwise_cons.mpr hsuper)]
          rw [expectedPairs_skip_self]
          intro u hu
          rcases List.mem_cons.mp hu with rfl | hu
          · exact (key_ne_of_compare_lt hlt).symm
          · exact (key_ne_of_compare_lt (compare_lt_of_lt_of_le hlt (hsuper.1 u hu))).symm
        · rw [if_neg hlt]
          by_cases hgt : ResolvedField.compare s t > 0
          · rw [if_pos hgt, ih vec (s :: self) super (by simp only [List.length_cons]; omega)
              (List.pairwise_cons.mpr hself) hsuper.2]
            rw [expectedPairs_skip_super]
            have hts : ResolvedField.compare t s < 0 := by
              rw [compare_swap s t]; omega
            intro u hu
            rcases List.mem_cons.mp hu with rfl | hu
            · exact key_ne_of_compare_lt hts
            · exact key_ne_of_compare_lt (compare_lt_of_lt_of_le hts (le_of_lt (hself.1 u hu)))
          · rw [if_neg hgt]
            have heq : ResolvedField.compare s t = 0 := by omega
            have hkey : keyOf s = keyOf t := compare_eq_zero_iff_key.mp heq
            rw [ih (vec ++ [(s, t)]) self super (by omega) hself.2 hsuper.2]
            have h1 : expectedPairs (s :: self) (t :: super)
                = (s, t) :: expectedPairs self (t :: super) := by
              unfold expectedPairs
              simp [List.filterMap_cons, List.find?_cons, hkey]
            rw [h1, expectedPairs_skip_super self super t]
            · simp
            · intro u hu
              rw [← hkey]
              exact key_ne_of_compare_lt (hself.1 u hu)

theorem strict_of_sorted_nodup (self : ResolvedFieldTable) (hs : sortedByKey self)
    (hd : (self.map keyOf).Nodup) :
    self.Pairwise (fun p q => ResolvedField.compare p q < 0) := by
  induction self with
  | nil => exact List.Pairwise.nil
  | cons s self ih =>
    unfold sortedByKey at hs
    rw [List.pairwise_cons] at hs
    rw [List.map_cons, List.nodup_cons] at hd
    rw [List.pairwise_cons]
    refine ⟨?_, ih hs.2 hd.2⟩
    intro u hu
    have h1 : ¬ ResolvedField.compare u s < 0 := fun h => hs.1 u hu (compare_lt_iff.mp h)
    have h2 : keyOf s ≠ keyOf u := fun e => hd.1 (e ▸ List.mem_map_of_mem keyOf hu)
    have h3 : ResolvedField.compare s u ≠ 0 := fun e => h2 (compare_eq_zero_iff_key.mp e)
    have h4 := compare_swap s u
    omega

theorem le_of_sorted (super : ResolvedFieldTable) (hs : sortedByKey super) :
    super.Pairwise (fun p q => ResolvedField.compare p q ≤ 0) := by
  refine List.Pairwise.imp ?_ hs
  intro p q h
  have h1 : ¬ ResolvedField.compare q p < 0 := fun h' => h (compare_lt_iff.mp h')
  have h4 := compare_swap p q
  omega

/-- C20: for an own table sorted by `(name, type)` with pairwise distinct keys
and a super table sorted by `(name, type)`, `findIntersection` keeps the output
list and appends, in the order of `self`, one pair `(s, t)` for each entry `s`
of `self` whose key occurs in `super`, `t` being the first entry of `super`
with that key, and nothing else; the two fields of every appended pair have the
same name and the same type. -/
theorem findIntersection_merge_join (vec : List ScanResultPair) (self super : ResolvedFieldTable)
    (hself : sortedByKey self) (hdistinct : (self.map keyOf).Nodup)
    (hsuper : sortedByKey super) :
    findIntersection vec self super = vec ++ expectedPairs self super ∧
    (∀ p ∈ expectedPairs self super, p.1 ∈ self ∧ p.2 ∈ super ∧
      p.1.name = p.2.name ∧ p.1.type = p.2.type) ∧
    (∀ s ∈ self, (∃ t ∈ super, keyOf t = keyOf s) →
      ∃ t, (s, t) ∈ expectedPairs self super ∧
        super.find? (fun u => decide (keyOf u = keyOf s)) = some t) ∧
    (expectedPairs self super).map (fun p => p.1)
      = self.filter (fun s => super.any (fun t => decide (keyOf t = keyOf s))) := by
  refine ⟨?_, ?_, ?_, ?_⟩
  · exact findIntersectionLoop_spec _ vec self super (le_refl _)
      (strict_of_sorted_nodup self hself hdistinct) (le_of_sorted super hsuper)
  · intro p hp
    unfold expectedPairs at hp
    rw [List.mem_filterMap] at hp
    obtain ⟨s, hs, hp⟩ := hp
    cases hf : super.find? (fun t => decide (keyOf t = keyOf s)) with
    | none => rw [hf] at hp; simp at hp
    | some t =>
      rw [hf] at hp
      simp only [Option.map_some', Option.some.injEq] at hp
      subst hp
      have hk : decide (keyOf t = keyOf s) = true :=
        List.find?_some (p := fun u => decide (keyOf u = keyOf s)) hf
      simp only [decide_eq_true_eq, keyOf, Prod.mk.injEq] at hk
      exact ⟨hs, List.mem_of_find?_eq_some hf, hk.1.symm, hk.2.symm⟩
  · rintro s hs ⟨t, ht, hk⟩
    cases hf : super.find? (fun u => decide (keyOf u = keyOf s)) with
    | none =>
      rw [List.find?_eq_none] at hf
      exact absurd (by simpa using hk) (hf t ht)
    | some u =>
      refine ⟨u, ?_, rfl⟩
      unfold expectedPairs
      rw [List.mem_filterMap]
      exact ⟨s, hs, by rw [hf]; rfl⟩
  · unfold expectedPairs
    induction self with
    | nil => rfl
    | cons s self ih =>
      unfold sortedByKey at hself
      have ih' := ih (List.Pairwise.of_cons hself) (List.Nodup.of_cons (by simpa using hdistinct))
      simp only [List.filterMap_cons, List.filter_cons]
      cases hf : super.find? (fun t => decide (keyOf t = keyOf s)) with
      | none =>
        have : super.any (fun t => decide (keyOf t = keyOf s)) = false := by
          rw [List.find?_eq_none] at hf
          simpa using hf
        simp only [Option.map_none', this]
        exact ih'
      | some t =>
        have : super.any (fun t => decide (keyOf t = keyOf s)) = true := by
          have hk : decide (keyOf t = keyOf s) = true :=
        List.find?_some (p := fun u => decide (keyOf u = keyOf s)) hf
          rw [List.any_eq_true]
          exact ⟨t, List.mem_of_find?_eq_some hf, hk⟩
        simp only [Option.map_some', this, if_true, List.map_cons]
        rw [ih']

theorem findIntersection_merge_join_witness :
    findIntersection [] [exampleField txtSub, ⟨1, [0x67], txtI, txtSub⟩]
        [exampleField txtMid, exampleField txtBase, ⟨1, [0x68], txtI, txtBase⟩]
      = [] ++ expectedPairs [exampleField txtSub, ⟨1, [0x67], txtI, txtSub⟩]
        [exampleField txtMid, exampleField txtBase, ⟨1, [0x68], txtI, txtBase⟩] ∧
    expectedPairs [exampleField txtSub, ⟨1, [0x67], txtI, txtSub⟩]
        [exampleField txtMid, exampleField txtBase, ⟨1, [0x68], txtI, txtBase⟩]
      = [(exampleField txtSub, exampleField txtMid)] :=
  ⟨(findIntersection_merge_join [] [exampleField txtSub, ⟨1, [0x67], txtI, txtSub⟩]
      [exampleField txtMid, exampleField txtBase, ⟨1, [0x68], txtI, txtBase⟩]
      (by unfold sortedByKey keyLT; decide) (by decide)
      (by unfold sortedByKey keyLT; decide)).1,
    by decide⟩

/-! ## Claims on the archive reader -/

theorem eocdAt_iff (buff : List Nat) (i : Nat) : eocdAt buff i = true ↔ IsTrailerAt buff i := by
  unfold eocdAt IsTrailerAt EOCD.MAGIC
  simp [and_assoc]

theorem eocdAt_false_iff (buff : List Nat) (i : Nat) :
    eocdAt buff i = false ↔ ¬ IsTrailerAt buff i := by
  rw [← eocdAt_iff]; simp

theorem findEOCD_some (buff : List Nat) (k i : Nat) :
    findEOCD buff k = some i ↔
      i < k ∧ eocdAt buff i = true ∧ ∀ j, i < j → j < k → eocdAt buff j = false := by
  induction k with
  | zero => simp [findEOCD]
  | succ k ih =>
    unfold findEOCD
    by_cases h : eocdAt buff k = true
    · rw [if_pos h]
      constructor
      · intro e
        have e' : k = i := Option.some.inj e
        subst e'
        exact ⟨Nat.lt_succ_self _, h, fun j h1 h2 => absurd h2 (by omega)⟩
      · rintro ⟨h1, h2, h3⟩
        rcases Nat.lt_or_ge i k with hlt | hge
        · have := h3 k hlt (Nat.lt_succ_self _)
          rw [h] at this; cases this
        · have : i = k := by omega
          rw [this]
    · rw [if_neg h, ih]
      have hf : eocdAt buff k = false := by simpa using h
      constructor
      · rintro ⟨h1, h2, h3⟩
        refine ⟨by omega, h2, fun j hj1 hj2 => ?_⟩
        rcases Nat.lt_or_ge j k with hlt | hge
        · exact h3 j hj1 hlt
        · have : j = k := by omega
          rw [this]; exact hf
      · rintro ⟨h1, h2, h3⟩
        have hne : i ≠ k := by
          intro e; rw [e] at h2; exact h h2
        exact ⟨by omega, h2, fun j hj1 hj2 => h3 j hj1 (by omega)⟩

theorem findEOCD_none (buff : List Nat) (k : Nat) :
    findEOCD buff k = none ↔ ∀ j, j < k → eocdAt buff j = false := by
  induction k with
  | zero => simp [findEOCD]
  | succ k ih =>
    unfold findEOCD
    by_cases h : eocdAt buff k = true
    · rw [if_pos h]
      constructor
      · intro e; cases e
      · intro hall
        have := hall k (Nat.lt_succ_self _)
        rw [h] at this; cases this
    · rw [if_neg h, ih]
      have hf : eocdAt buff k = false := by simpa using h
      constructor
      · intro hall j hj
        rcases Nat.lt_or_ge j k with hlt | hge
        · exact hall j hlt
        · have : j = k := by omega
          rw [this]; exact hf
      · intro hall j hj
        exact hall j (by omega)

theorem readTail_count (content : List Nat) :
    (readTail content).2.2 = min (64 * 1024 + 22) content.length := by
  simp only [readTail, FileStream.fread, FileStream.seekBack, FileStream.seekEnd,
    FileStream.tell, EOCD.sizeOf]
  omega

theorem readTail_bytes (content : List Nat) (k : Nat) (hk : k < (readTail content).2.2) :
    byteAt (readTail content).2.1 k
      = byteAt content (content.length - (readTail content).2.2 + k) := by
  have hn := readTail_count content
  rw [hn] at hk ⊢
  simp only [readTail, FileStream.fread, FileStream.seekBack, FileStream.seekEnd,
    FileStream.tell, EOCD.sizeOf]
  have hc : min (content.length - (content.length - min (64 * 1024 + 22) content.length))
      (64 * 1024 + 22) = min (64 * 1024 + 22) content.length := by omega
  rw [hc]
  unfold byteAt
  rw [List.getD_append _ _ _ _ (by simpa using hk)]
  rw [List.getD_eq_getElem _ _ (by simpa using hk)]
  simp [byteAt]

theorem open_none_of_find_none (content : List Nat) (junk : Nat)
    (h : findEOCD (readTail content).2.1 ((readTail content).2.2 + 1 - 22) = none) :
    (ZipFile.open (some content) junk).1 = -1
      ∧ (ZipFile.open (some content) junk).2.mSize = 0 := by
  unfold ZipFile.open
  simp only [EOCD.sizeOf]
  generalize readTail content = t at h ⊢
  rw [h]
  exact ⟨rfl, rfl⟩

theorem open_of_find_some (content : List Nat) (junk : Nat) (i : Nat)
    (h : findEOCD (readTail content).2.1 ((readTail content).2.2 + 1 - 22) = some i) :
    (ZipFile.open (some content) junk).2.mSize = u2At (readTail content).2.1 (i + 8)
      ∧ ((ZipFile.open (some content) junk).2.mSize = 0
          → (ZipFile.open (some content) junk).1 = 0) := by
  unfold ZipFile.open
  simp only [EOCD.sizeOf]
  generalize readTail content = t at h ⊢
  rw [h]
  simp only []
  split
  · refine ⟨rfl, ?_⟩
    intro h0
    rename_i hd
    exfalso
    apply hd
    simp only [] at h0
    rw [h0]
    rfl
  · refine ⟨rfl, ?_⟩
    intro h0
    simp only [] at h0
    rw [h0]
    rfl

/-- Claim C16.  `ZipFile::open` reads the last `n = min(65558, file size)` bytes
of the file into the tail buffer, and its backward loop stops at offset `i` if and
only if `i <= n - 22`, the record at `i` has the trailer magic `0x06054b50`, both
disk-number fields 0 and equal entry counts, and no greater offset up to `n - 22`
has; the entry count of the archive is then the one of that record.  `open`
returns -1 with an entry table of size 0 exactly when no offset `j <= n - 22`
satisfies the predicate, which includes every `n < 22`. -/
theorem open_selects_last_trailer (content : List Nat) (junk : Nat) (i : Nat) :
    ((readTail content).2.2 = min 65558 content.length) ∧
    (∀ k, k < (readTail content).2.2 → byteAt (readTail content).2.1 k
        = byteAt content (content.length - (readTail content).2.2 + k)) ∧
    (findEOCD (readTail content).2.1 ((readTail content).2.2 + 1 - 22) = some i ↔
      i + 22 ≤ (readTail content).2.2 ∧ IsTrailerAt (readTail content).2.1 i ∧
        ∀ j, i < j → j + 22 ≤ (readTail content).2.2 → ¬ IsTrailerAt (readTail content).2.1 j) ∧
    (findEOCD (readTail content).2.1 ((readTail content).2.2 + 1 - 22) = some i →
      (ZipFile.open (some content) junk).2.mSize = u2At (readTail content).2.1 (i + 8)) ∧
    (((ZipFile.open (some content) junk).1 = -1
        ∧ (ZipFile.open (some content) junk).2.mSize = 0) ↔
      ∀ j, j + 22 ≤ (readTail content).2.2 → ¬ IsTrailerAt (readTail content).2.1 j) ∧
    ((readTail content).2.2 < 22 → (ZipFile.open (some content) junk).1 = -1
        ∧ (ZipFile.open (some content) junk).2.mSize = 0) := by
  have hnone : findEOCD (readTail content).2.1 ((readTail content).2.2 + 1 - 22) = none ↔
      ∀ j, j + 22 ≤ (readTail content).2.2 → ¬ IsTrailerAt (readTail content).2.1 j := by
    rw [findEOCD_none]
    constructor
    · intro h j hj; rw [← eocdAt_false_iff]; exact h j (by omega)
    · intro h j hj; rw [eocdAt_false_iff]; exact h j (by omega)
  refine ⟨readTail_count content, readTail_bytes content, ?_, ?_, ?_, ?_⟩
  · rw [findEOCD_some, eocdAt_iff]
    constructor
    · rintro ⟨h1, h2, h3⟩
      exact ⟨by omega, h2, fun j hj1 hj2 => (eocdAt_false_iff _ _).1 (h3 j hj1 (by omega))⟩
    · rintro ⟨h1, h2, h3⟩
      exact ⟨by omega, h2, fun j hj1 hj2 => (eocdAt_false_iff _ _).2 (h3 j hj1 (by omega))⟩
  · intro h; exact (open_of_find_some content junk i h).1
  · rw [← hnone]
    constructor
    · rintro ⟨h1, h2⟩
      cases hf : findEOCD (readTail content).2.1 ((readTail content).2.2 + 1 - 22) with
      | none => rfl
      | some i0 =>
        have := (open_of_find_some content junk i0 hf).2 h2
        rw [h1] at this
        cases this
    · intro h; exact open_none_of_find_none content junk h
  · intro hn
    apply open_none_of_find_none
    rw [hnone]
    intro j hj; omega

theorem uncompress_status (z : Zlib) (mFile : FileStream) (e : ZipEntry) (out : List Nat) :
    (ZipFile.uncompress z mFile e out).1 = 0 ∨ (ZipFile.uncompress z mFile e out).1 = -1 := by
  unfold ZipFile.uncompress
  simp only []
  split_ifs <;> simp

theorem readFully_eq (fp : FileStream) (dst : List Nat) (size : Nat)
    (heof : fp.eofFlag = false) :
    readFully fp dst size
      = (if size = 0 then fp else
          { fp with pos := fp.pos + min (fp.content.length - fp.pos) size,
                    eofFlag := decide (min (fp.content.length - fp.pos) size < size) },
         fileBytes fp.content fp.pos (min (fp.content.length - fp.pos) size)
           ++ dst.drop (min (fp.content.length - fp.pos) size),
         min (fp.content.length - fp.pos) size) := by
  unfold readFully
  rcases Nat.eq_zero_or_pos size with h0 | hpos
  · subst h0
    simp [readFullyLoop, fileBytes]
  · obtain ⟨m, rfl⟩ : ∃ m, size = m + 1 := ⟨size - 1, by omega⟩
    rw [if_neg (by omega)]
    simp only [readFullyLoop]
    rw [if_pos ⟨by omega, heof⟩]
    simp only [FileStream.fread, heof, Bool.false_or, Nat.zero_add, Nat.sub_zero, List.drop_zero,
      List.take_zero, List.nil_append, fileBytes]
    by_cases hc : min (fp.content.length - fp.pos) (m + 1) < m + 1
    · rw [if_neg (by simp [hc])]
    · rw [if_neg (by omega)]

/-- Claim C17.  On an entry whose flag is 0 and whose method is neither STORE (0)
nor DEFLATE (8), `ZipFile::uncompress` reads nothing, leaves the destination as
it was and compares the declared CRC-32 with the initial checksum 0: it returns 0
when the entry declares the CRC-32 0, and -1 otherwise. -/
theorem uncompress_other_method (z : Zlib) (mFile : FileStream) (e : ZipEntry) (out : List Nat)
    (hflag : e.flag = 0) (hstore : e.method ≠ 0) (hdeflate : e.method ≠ 8) :
    ((ZipFile.uncompress z mFile e out).1 = 0 ↔ e.crc32 = 0) ∧
    ((ZipFile.uncompress z mFile e out).1 = -1 ↔ e.crc32 ≠ 0) ∧
    (ZipFile.uncompress z mFile e out).2.1 = out := by
  unfold ZipFile.uncompress
  simp only [hflag, COMPRESS_STORE, COMPRESS_DEFLATE, hstore, hdeflate, if_false, ne_eq,
    not_true_eq_false]
  by_cases hc : e.crc32 = 0
  · simp [hc]
  · have hc' : ¬ 0 = e.crc32 := fun h => hc h.symm
    simp [hc, hc']

set_option maxRecDepth 100000 in
/-- The archive `otherMethodZip` opens with status 0 and the single entry
`otherMethodEntry`, of method 12 and declared CRC-32 0, and `uncompress` returns
0 on that entry with the destination untouched. -/
theorem uncompress_other_method_witness :
    ZipFile.open (some otherMethodZip) 0
      = (0, { mSize := 1, mEntries := [otherMethodEntry],
              mFile := some { content := otherMethodZip, pos := 35, eofFlag := false },
              mComment := none }) ∧
    (ZipFile.uncompress storedZlib { content := otherMethodZip, pos := 35, eofFlag := false }
      otherMethodEntry [0, 0]).1 = 0 ∧
    (ZipFile.uncompress storedZlib { content := otherMethodZip, pos := 35, eofFlag := false }
      otherMethodEntry [0, 0]).2.1 = [0, 0] :=
  ⟨by decide,
   (uncompress_other_method storedZlib { content := otherMethodZip, pos := 35, eofFlag := false }
      otherMethodEntry [0, 0] (by decide) (by decide) (by decide)).1.2 (by decide),
   (uncompress_other_method storedZlib { content := otherMethodZip, pos := 35, eofFlag := false }
      otherMethodEntry [0, 0] (by decide) (by decide) (by decide)).2.2⟩

/-- Claim C18.  On an entry with flag 0 and method STORE, `ZipFile::uncompress`
copies the `c = min(unCompressedSize, bytes left in the file from the data
offset)` bytes of the file at the data offset to the start of the destination,
leaves the rest of the destination as it was, and returns 0 exactly when the
CRC-32 of those `c` bytes equals the declared CRC-32, and -1 otherwise.  When the
file holds `unCompressedSize` bytes from the data offset, `c` is `unCompressedSize`;
when the file ends earlier, `c` is smaller and the call still returns 0 if the
CRC-32 of the `c` bytes read is the declared one. -/
theorem uncompress_store (z : Zlib) (mFile : FileStream) (e : ZipEntry) (out : List Nat)
    (hflag : e.flag = 0) (hstore : e.method = 0) :
    (ZipFile.uncompress z mFile e out).2.1
      = fileBytes mFile.content e.bytesOffset
            (min e.unCompressedSize (mFile.content.length - e.bytesOffset))
          ++ out.drop (min e.unCompressedSize (mFile.content.length - e.bytesOffset)) ∧
    ((ZipFile.uncompress z mFile e out).1 = 0 ↔
      z.crc32 0 (fileBytes mFile.content e.bytesOffset
        (min e.unCompressedSize (mFile.content.length - e.bytesOffset))) = e.crc32) ∧
    ((ZipFile.uncompress z mFile e out).1 = -1 ↔
      z.crc32 0 (fileBytes mFile.content e.bytesOffset
        (min e.unCompressedSize (mFile.content.length - e.bytesOffset))) ≠ e.crc32) ∧
    (e.bytesOffset + e.unCompressedSize ≤ mFile.content.length →
      min e.unCompressedSize (mFile.content.length - e.bytesOffset) = e.unCompressedSize) := by
  have hlen : ∀ c, (fileBytes mFile.content e.bytesOffset c).length = c := by
    intro c; simp [fileBytes]
  have hmin : min (mFile.content.length - e.bytesOffset) e.unCompressedSize
      = min e.unCompressedSize (mFile.content.length - e.bytesOffset) := Nat.min_comm _ _
  unfold ZipFile.uncompress
  simp only [hflag, COMPRESS_STORE, hstore, if_true, ne_eq, not_true_eq_false, if_false]
  rw [readFully_eq _ _ _ rfl]
  simp only [FileStream.seekSet, hmin]
  rw [List.take_left' (hlen _)]
  by_cases hc : z.crc32 0 (fileBytes mFile.content e.bytesOffset
      (min e.unCompressedSize (mFile.content.length - e.bytesOffset))) = e.crc32
  · rw [if_neg (not_not.mpr hc)]
    exact ⟨rfl, by simp [hc], by simp [hc], fun h => by omega⟩
  · rw [if_pos hc]
    exact ⟨rfl, by simp [hc], by simp [hc], fun h => by omega⟩

set_option maxRecDepth 100000 in
/-- The archive `truncatedStoreZip` opens with status 0 and the single stored
entry `truncatedEntry`, which declares 4 bytes at the data offset 108 of a file
of 110 bytes; `uncompress` returns 0 on it, having copied the two bytes `ab`. -/
theorem uncompress_store_witness :
    truncatedStoreZip.length = 110 ∧
    ZipFile.open (some truncatedStoreZip) 0
      = (0, { mSize := 1, mEntries := [truncatedEntry],
              mFile := some { content := truncatedStoreZip, pos := 108, eofFlag := false },
              mComment := none }) ∧
    (ZipFile.uncompress storedZlib { content := truncatedStoreZip, pos := 108, eofFlag := false }
      truncatedEntry [0, 0, 0, 0]).1 = 0 ∧
    (ZipFile.uncompress storedZlib { content := truncatedStoreZip, pos := 108, eofFlag := false }
      truncatedEntry [0, 0, 0, 0]).2.1 = [0x61, 0x62, 0, 0] :=
  ⟨by decide, by decide,
   (uncompress_store storedZlib { content := truncatedStoreZip, pos := 108, eofFlag := false }
      truncatedEntry [0, 0, 0, 0] (by decide) (by decide)).2.1.2 (by decide),
   (uncompress_store storedZlib { content := truncatedStoreZip, pos := 108, eofFlag := false }
      truncatedEntry [0, 0, 0, 0] (by decide) (by decide)).1.trans (by decide)⟩

theorem starLoop_iff (a : RegexAtom) (k : Bool → List Nat → Bool)
    (hk : ∀ b s, k b s = k false s) (b : Bool) (s : List Nat) :
    starLoop a k b s = true ↔
      ∃ ds rest, s = ds ++ rest ∧ (∀ x ∈ ds, a.accepts x = true) ∧ k false rest = true := by
  induction s generalizing b with
  | nil =>
    simp only [starLoop]
    rw [hk]
    constructor
    · intro h; exact ⟨[], [], rfl, by simp, h⟩
    · rintro ⟨ds, rest, h1, _, h3⟩
      have : rest = [] := by
        cases ds <;> simp at h1
        exact h1
      rw [this] at h3; exact h3
  | cons c s ih =>
    simp only [starLoop, Bool.or_eq_true, Bool.and_eq_true]
    rw [hk, ih]
    constructor
    · rintro (⟨hc, ds, rest, h1, h2, h3⟩ | h)
      · refine ⟨c :: ds, rest, by rw [h1]; rfl, ?_, h3⟩
        intro x hx
        rcases List.mem_cons.1 hx with rfl | hx
        · exact hc
        · exact h2 x hx
      · exact ⟨[], c :: s, rfl, by simp, h⟩
    · rintro ⟨ds, rest, h1, h2, h3⟩
      cases ds with
      | nil =>
        right
        simp at h1
        rw [h1]; exact h3
      | cons d ds =>
        left
        simp at h1
        refine ⟨?_, ds, rest, h1.2, fun x hx => h2 x (List.mem_cons_of_mem _ hx), h3⟩
        rw [h1.1]; exact h2 d (List.mem_cons_self _ _)

theorem regexTail_iff (b : Bool) (s : List Nat) :
    regexMatchFrom [.atom .any, .atom (.lit 0x64), .atom (.lit 0x65), .atom (.lit 0x78),
        .lineEnd] b s = true ↔
      ∃ c, c ≠ 0x0a ∧ c ≠ 0x0d ∧ s = c :: txtDex := by
  rcases s with _ | ⟨c, _ | ⟨d, _ | ⟨e, _ | ⟨x, _ | ⟨y, t⟩⟩⟩⟩⟩ <;>
    simp [regexMatchFrom, RegexAtom.accepts, txtDex]
  aesop

theorem regexHead_iff (s : List Nat) :
    regexMatchFrom (.lineBegin :: .atom (.lit 0x63) :: .atom (.lit 0x6c) :: .atom (.lit 0x61)
        :: .atom (.lit 0x73) :: .atom (.lit 0x73) :: .atom (.lit 0x65) :: .atom (.lit 0x73)
        :: .star .digit :: [.atom .any, .atom (.lit 0x64), .atom (.lit 0x65), .atom (.lit 0x78),
        .lineEnd]) true s = true ↔
      ∃ rest, s = txtClasses ++ rest ∧ starLoop .digit (regexMatchFrom [.atom .any,
        .atom (.lit 0x64), .atom (.lit 0x65), .atom (.lit 0x78), .lineEnd]) false rest = true := by
  rcases s with _ | ⟨c1, _ | ⟨c2, _ | ⟨c3, _ | ⟨c4, _ | ⟨c5, _ | ⟨c6, _ | ⟨c7, t⟩⟩⟩⟩⟩⟩⟩ <;>
    simp [regexMatchFrom, RegexAtom.accepts, txtClasses]
  aesop

theorem regex_match_classes (s : List Nat) :
    regex_match s classesReg = true ↔
      ∃ ds c, (∀ d ∈ ds, 0x30 ≤ d ∧ d ≤ 0x39) ∧ c ≠ 0x0a ∧ c ≠ 0x0d ∧
        s = txtClasses ++ ds ++ c :: txtDex := by
  unfold regex_match classesReg
  rw [regexHead_iff]
  constructor
  · rintro ⟨rest, h1, h2⟩
    rw [starLoop_iff _ _ (fun b s => by
      rw [Bool.eq_iff_iff, regexTail_iff, regexTail_iff])] at h2
    obtain ⟨ds, r, h3, h4, h5⟩ := h2
    obtain ⟨c, h6, h7, h8⟩ := (regexTail_iff false r).1 h5
    refine ⟨ds, c, ?_, h6, h7, ?_⟩
    · intro d hd
      have := h4 d hd
      simpa [RegexAtom.accepts] using this
    · rw [h1, h3, h8, List.append_assoc]
  · rintro ⟨ds, c, h1, h2, h3, h4⟩
    refine ⟨ds ++ c :: txtDex, by rw [h4, List.append_assoc], ?_⟩
    rw [starLoop_iff _ _ (fun b s => by
      rw [Bool.eq_iff_iff, regexTail_iff, regexTail_iff])]
    refine ⟨ds, c :: txtDex, rfl, ?_, (regexTail_iff false _).2 ⟨c, h2, h3, rfl⟩⟩
    intro d hd
    simpa [RegexAtom.accepts] using h1 d hd

/-- Claim C19.  `ApkFile::open` matches the name of an entry against
`^classes\d*.dex$`, whose dot is the wildcard: the name matches if and only if it
is the text `classes`, zero or more decimal digits, one character other than a
line terminator, and the text `dex`.  Every name the specification selects
(with a literal dot) matches.  An entry whose name does not match is skipped;
an entry whose name matches is decompressed into a new buffer and, when that
succeeds, parsed, a failure of either ending `open` with -1. -/
theorem open_entry_selection (z : Zlib) (e : ZipEntry) (rest : List ZipEntry)
    (mFile : FileStream) (apk : ApkFile) (name : List Nat) (hname : e.name = some name) :
    (regex_match (cString name 0) classesReg = true ↔
      ∃ ds c, (∀ d ∈ ds, 0x30 ≤ d ∧ d ≤ 0x39) ∧ c ≠ 0x0a ∧ c ≠ 0x0d ∧
        cString name 0 = txtClasses ++ ds ++ c :: txtDex) ∧
    (IsClassesDexName (cString name 0) → regex_match (cString name 0) classesReg = true) ∧
    (regex_match (cString name 0) classesReg = false →
      ApkFile.openLoop z (e :: rest) mFile apk = ApkFile.openLoop z rest mFile apk) ∧
    (regex_match (cString name 0) classesReg = true →
      ApkFile.openLoop z (e :: rest) mFile apk =
        if (ZipFile.uncompress z mFile e (List.replicate e.unCompressedSize 0)).1 = -1 ∨
            (DexFile.readFrom (BytesInput.create
              (ZipFile.uncompress z mFile e (List.replicate e.unCompressedSize 0)).2.1
              (ZipFile.uncompress z mFile e (List.replicate e.unCompressedSize 0)).2.1.length)).1
              = -1 then
          some (-1, { apk with mBufferVec := apk.mBufferVec ++
            [(ZipFile.uncompress z mFile e (List.replicate e.unCompressedSize 0)).2.1] })
        else
          ApkFile.openLoop z rest
            (ZipFile.uncompress z mFile e (List.replicate e.unCompressedSize 0)).2.2
            { mDexVec := apk.mDexVec ++
                [{ (DexFile.readFrom (BytesInput.create
                    (ZipFile.uncompress z mFile e (List.replicate e.unCompressedSize 0)).2.1
                    (ZipFile.uncompress z mFile e
                      (List.replicate e.unCompressedSize 0)).2.1.length)).2 with
                   tag := String.mk ((cString name 0).map Char.ofNat) }],
              mBufferVec := apk.mBufferVec ++
                [(ZipFile.uncompress z mFile e (List.replicate e.unCompressedSize 0)).2.1] }) := by
  refine ⟨regex_match_classes _, ?_, ?_, ?_⟩
  · rintro ⟨ds, h1, h2⟩
    exact (regex_match_classes _).2 ⟨ds, 0x2e, h1, by decide, by decide, h2⟩
  · intro h
    rw [ApkFile.openLoop]
    simp only [hname]
    rw [if_pos h]
  · intro h
    rw [ApkFile.openLoop]
    simp only [hname]
    rw [if_neg (by rw [h]; decide)]
    by_cases hu : (ZipFile.uncompress z mFile e (List.replicate e.unCompressedSize 0)).1 = -1
    · simp [hu]
    · by_cases hd : (DexFile.readFrom (BytesInput.create
          (ZipFile.uncompress z mFile e (List.replicate e.unCompressedSize 0)).2.1
          (ZipFile.uncompress z mFile e (List.replicate e.unCompressedSize 0)).2.1.length)).1 = -1
      · simp [hu, hd]
      · simp [hu, hd]

set_option maxHeartbeats 4000000 in
set_option maxRecDepth 100000 in
/-- The names `classesXdex` and `classes2xdex` match the pattern though neither is
a name the specification selects, and `ApkFile::open` on the archive
`classesXdexZip` returns 0 having decompressed and parsed its entry `classesXdex`
as the two-class bytecode file. -/
theorem open_entry_selection_witness :
    regex_match (cString txtClassesXdex 0) classesReg = true ∧
    regex_match (cString txtClasses2xdex 0) classesReg = true ∧
    ¬ IsClassesDexName (cString txtClassesXdex 0) ∧
    (ZipFile.open (some classesXdexZip) 0).2.mEntries = [classesXdexEntry] ∧
    ApkFile.open storedZlib 0 (some classesXdexZip)
      = some (0, { mDexVec := [{ pairDex with tag := "classesXdex" }],
                   mBufferVec := [pairDexBytes] }) :=
  ⟨((open_entry_selection storedZlib classesXdexEntry [] ⟨classesXdexZip, 41, false⟩
        ⟨[], []⟩ txtClassesXdex rfl).1).2 ⟨[], 0x58, by simp, by decide, by decide, by decide⟩,
   by decide,
   by
    rintro ⟨ds, h1, h2⟩
    have h3 : cString txtClassesXdex 0 = txtClasses ++ ([0x58] ++ txtDex) := by decide
    rw [h3, List.append_assoc] at h2
    have h4 := List.append_cancel_left h2
    cases ds with
    | nil => simp at h4
    | cons d ds =>
      have h5 : d = 0x58 := by
        have := congrArg List.head? h4
        simpa using this.symm
      have := h1 d (List.mem_cons_self _ _)
      omega,
   by decide,
   by decide⟩

/-! ## Claims on the recursion on superclasses -/

theorem not_known_eq (st : ResolveState) {ref : ClassRef} (h : ¬ st.known ref) :
    (st.mResolvedClassMap.lookup ref).isSome = false :=
  Bool.eq_false_iff.2 h

theorem resolveClass_isSome_iff (srt : ResolvedFieldTable → ResolvedFieldTable) (junk : Nat)
    (mDexVec : List DexFile) (st : ResolveState) : ∀ (fuel : Nat) (ref : ClassRef),
    (resolveClass srt junk mDexVec fuel ref st).isSome = true ↔
      callAt mDexVec st fuel ref = none := by
  intro fuel
  induction fuel with
  | zero => intro ref; simp [resolveClass, callAt]
  | succ fuel ih =>
    intro ref
    by_cases hk : st.known ref
    · rw [resolveClass_known srt junk mDexVec fuel ref st hk]
      unfold ResolveState.known at hk
      simp [callAt, hk]
    · have hk' : (st.mResolvedClassMap.lookup ref).isSome = false := not_known_eq st hk
      cases hs : superOf mDexVec ref with
      | none =>
        rw [resolveClass_root srt junk mDexVec fuel ref st hk hs]
        simp [callAt, hk', hs]
      | some s =>
        rw [resolveClass_super srt junk mDexVec fuel ref s st hk hs]
        have : callAt mDexVec st (fuel + 1) ref = callAt mDexVec st fuel s := by
          simp [callAt, hk', hs]
        rw [this, ← ih s]
        cases resolveClass srt junk mDexVec fuel s st <;> simp

theorem callAt_succ (mDexVec : List DexFile) (st : ResolveState) : ∀ (k : Nat) (ref : ClassRef),
    callAt mDexVec st (k + 1) ref = (callAt mDexVec st k ref).bind (fun c =>
      if (st.mResolvedClassMap.lookup c).isSome then none else superOf mDexVec c) := by
  intro k
  induction k with
  | zero =>
    intro ref
    simp only [callAt, Option.some_bind]
    split
    · rfl
    · cases superOf mDexVec ref <;> rfl
  | succ k ih =>
    intro ref
    rw [callAt]
    split
    · rename_i h
      simp [callAt, h]
    · rename_i h
      cases hs : superOf mDexVec ref with
      | none => simp [callAt, h, hs]
      | some s =>
        simp only []
        rw [ih s]
        simp [callAt, h, hs]

theorem callAt_none_succ (mDexVec : List DexFile) (st : ResolveState) (ref : ClassRef) (k : Nat)
    (h : callAt mDexVec st k ref = none) : callAt mDexVec st (k + 1) ref = none := by
  rw [callAt_succ, h]; rfl

theorem callAt_none_le (mDexVec : List DexFile) (st : ResolveState) (ref : ClassRef) {k n : Nat}
    (hle : k ≤ n) (h : callAt mDexVec st k ref = none) : callAt mDexVec st n ref = none := by
  induction hle with
  | refl => exact h
  | step _ ih => exact callAt_none_succ _ _ _ _ ih

theorem callAt_periodic (mDexVec : List DexFile) (st : ResolveState) (ref : ClassRef) {i j : Nat}
    (h : callAt mDexVec st i ref = callAt mDexVec st j ref) :
    ∀ m, callAt mDexVec st (i + m) ref = callAt mDexVec st (j + m) ref := by
  intro m
  induction m with
  | zero => exact h
  | succ m ih => rw [← Nat.add_assoc, ← Nat.add_assoc, callAt_succ, callAt_succ, ih]

theorem callAt_revisit_ne_none (mDexVec : List DexFile) (st : ResolveState) (ref : ClassRef)
    (h : chainRevisits mDexVec st ref) : ∀ n, callAt mDexVec st n ref ≠ none := by
  obtain ⟨i, j, c, hij, hi, hj⟩ := h
  intro n
  induction n using Nat.strong_induction_on with
  | _ n ih =>
    rcases Nat.lt_or_ge j n with hlt | hge
    · have hper := callAt_periodic mDexVec st ref (hi.trans hj.symm) (n - j)
      rw [show j + (n - j) = n by omega] at hper
      rw [← hper]
      exact ih (i + (n - j)) (by omega)
    · intro hn
      have := callAt_none_le mDexVec st ref hge hn
      rw [hj] at this
      cases this

theorem lookup_mem_map {α : Type} [BEq α] [LawfulBEq α] (k : α) (v : Nat) :
    ∀ (m : List (α × Nat)), m.lookup k = some v → v ∈ m.map (fun e => e.2) := by
  intro m
  induction m with
  | nil => intro h; simp at h
  | cons e m ih =>
    intro h
    obtain ⟨k', v'⟩ := e
    rw [List.lookup_cons] at h
    by_cases hk : k == k'
    · simp only [hk] at h
      cases h
      simp
    · simp only [hk] at h
      simp only [List.map_cons, List.mem_cons]
      right
      exact ih h

theorem findClassByNameFrom_mem (name : List Nat) : ∀ (l : List DexFile) (idx : Nat) (r : ClassRef),
    findClassByNameFrom name l idx = some r → r ∈ loadedClassesFrom l idx := by
  intro l
  induction l with
  | nil => intro idx r h; simp [findClassByNameFrom] at h
  | cons dex rest ih =>
    intro idx r h
    simp only [findClassByNameFrom] at h
    simp only [loadedClassesFrom, List.mem_append, List.mem_map]
    cases hd : dex.findClassByName name with
    | some c =>
      rw [hd] at h
      cases h
      left
      have := lookup_mem_map name c dex.nameToClassMap hd
      obtain ⟨e, he, rfl⟩ := List.mem_map.1 this
      exact ⟨e, he, rfl⟩
    | none =>
      rw [hd] at h
      right
      exact ih (idx + 1) r h

theorem superOf_mem (mDexVec : List DexFile) (c s : ClassRef) (h : superOf mDexVec c = some s) :
    s ∈ loadedClasses mDexVec :=
  findClassByNameFrom_mem _ mDexVec 0 s h

theorem callAt_succ_mem (mDexVec : List DexFile) (st : ResolveState) (ref : ClassRef) (k : Nat)
    (c : ClassRef) (h : callAt mDexVec st (k + 1) ref = some c) : c ∈ loadedClasses mDexVec := by
  rw [callAt_succ] at h
  cases hc : callAt mDexVec st k ref with
  | none => rw [hc] at h; cases h
  | some c' =>
    rw [hc] at h
    simp only [Option.some_bind] at h
    split at h
    · cases h
    · exact superOf_mem mDexVec c' c h

theorem callAt_bounded (mDexVec : List DexFile) (st : ResolveState) (ref : ClassRef)
    (h : ¬ chainRevisits mDexVec st ref) :
    callAt mDexVec st ((loadedClasses mDexVec).length + 1) ref = none := by
  by_contra hne
  have hsome : ∀ k, k ≤ (loadedClasses mDexVec).length + 1 →
      ∃ c, callAt mDexVec st k ref = some c := by
    intro k hk
    cases hc : callAt mDexVec st k ref with
    | none => exact absurd (callAt_none_le mDexVec st ref hk hc) hne
    | some c => exact ⟨c, rfl⟩
  have hinj : ∀ x ∈ List.range ((loadedClasses mDexVec).length + 1),
      ∀ y ∈ List.range ((loadedClasses mDexVec).length + 1),
      (callAt mDexVec st (x + 1) ref).getD (0, 0) = (callAt mDexVec st (y + 1) ref).getD (0, 0)
        → x = y := by
    intro x hx y hy e
    rw [List.mem_range] at hx hy
    obtain ⟨cx, hcx⟩ := hsome (x + 1) (by omega)
    obtain ⟨cy, hcy⟩ := hsome (y + 1) (by omega)
    rw [hcx, hcy] at e
    simp only [Option.getD_some] at e
    subst e
    by_contra hxy
    rcases Nat.lt_or_gt_of_ne hxy with hlt | hgt
    · exact h ⟨x + 1, y + 1, cx, by omega, hcx, hcy⟩
    · exact h ⟨y + 1, x + 1, cx, by omega, hcy, hcx⟩
  have hnd := List.Nodup.map_on hinj (List.nodup_range _)
  have hsub : (List.range ((loadedClasses mDexVec).length + 1)).map
      (fun x => (callAt mDexVec st (x + 1) ref).getD (0, 0)) ⊆ loadedClasses mDexVec := by
    intro c hc
    obtain ⟨x, hx, rfl⟩ := List.mem_map.1 hc
    rw [List.mem_range] at hx
    obtain ⟨cx, hcx⟩ := hsome (x + 1) (by omega)
    rw [hcx]
    exact callAt_succ_mem mDexVec st ref x cx hcx
  have := (List.subperm_of_subset hnd hsub).length_le
  simp at this

theorem resolveClass_chain_known (srt : ResolvedFieldTable → ResolvedFieldTable) (junk : Nat)
    (mDexVec : List DexFile) : ∀ (fuel : Nat) (ref : ClassRef) (st st' : ResolveState),
    resolveClass srt junk mDexVec fuel ref st = some st' →
    ∀ k c, callAt mDexVec st k ref = some c → st'.known c := by
  intro fuel
  induction fuel with
  | zero => intro ref st st' h; simp [resolveClass] at h
  | succ fuel ih =>
    intro ref st st' h k c hc
    have hself := resolveClass_self_known srt junk mDexVec _ _ _ _ h
    cases k with
    | zero =>
      simp only [callAt] at hc
      cases hc
      exact hself
    | succ k =>
      by_cases hk : st.known ref
      · unfold ResolveState.known at hk
        simp [callAt, hk] at hc
      · have hk' : (st.mResolvedClassMap.lookup ref).isSome = false := not_known_eq st hk
        cases hs : superOf mDexVec ref with
        | none => simp [callAt, hk', hs] at hc
        | some s =>
          have hc' : callAt mDexVec st k s = some c := by
            simpa [callAt, hk', hs] using hc
          obtain ⟨st1, f1, pt, hf, h1, hpt, hnk, rfl⟩ :=
            resolveClass_step srt junk mDexVec h hk hs
          have := ih s st st1 (by
            have : fuel = f1 := by omega
            rw [this]; exact h1) k c hc'
          exact (known_cons st1 c ref _ _ _).2 (Or.inr this)

theorem resolveClass_closed (srt : ResolvedFieldTable → ResolvedFieldTable) (junk : Nat)
    (mDexVec : List DexFile) : ∀ (fuel : Nat) (ref : ClassRef) (st st' : ResolveState),
    resolveClass srt junk mDexVec fuel ref st = some st' →
    memoClosed mDexVec st → memoClosed mDexVec st' := by
  intro fuel
  induction fuel with
  | zero => intro ref st st' h; simp [resolveClass] at h
  | succ fuel ih =>
    intro ref st st' h hcl
    by_cases hk : st.known ref
    · rw [resolveClass_known srt junk mDexVec fuel ref st hk] at h
      cases h
      exact hcl
    · cases hs : superOf mDexVec ref with
      | none =>
        rw [resolveClass_root srt junk mDexVec fuel ref st hk hs] at h
        cases h
        intro c s hc hsc
        rcases (known_cons st c ref _ _ _).1 hc with rfl | hc'
        · rw [hs] at hsc; cases hsc
        · exact (known_cons st s ref _ _ _).2 (Or.inr (hcl c s hc' hsc))
      | some s =>
        obtain ⟨st1, f1, pt, hf, h1, hpt, hnk, rfl⟩ :=
          resolveClass_step srt junk mDexVec h hk hs
        have hcl1 : memoClosed mDexVec st1 := ih s st st1 (by
          have : fuel = f1 := by omega
          rw [this]; exact h1) hcl
        have hs1 : st1.known s := resolveClass_self_known srt junk mDexVec _ _ _ _ h1
        intro c s' hc hsc
        rcases (known_cons st1 c ref _ _ _).1 hc with rfl | hc'
        · rw [hs] at hsc; cases hsc
          exact (known_cons st1 s c _ _ _).2 (Or.inr hs1)
        · exact (known_cons st1 s' ref _ _ _).2 (Or.inr (hcl1 c s' hc' hsc))

theorem ancestors_known (mDexVec : List DexFile) (st : ResolveState)
    (hcl : memoClosed mDexVec st) : ∀ (n : Nat) (ref a : ClassRef), st.known ref →
    ancestorAt mDexVec n ref = some a → st.known a := by
  intro n
  induction n with
  | zero =>
    intro ref a hk h
    simp only [ancestorAt] at h
    cases h
    exact hk
  | succ n ih =>
    intro ref a hk h
    simp only [ancestorAt] at h
    cases hs : superOf mDexVec ref with
    | none => rw [hs] at h; cases h
    | some s =>
      rw [hs] at h
      exact ih s a (hcl ref s hk hs) h

theorem callAt_cycle (mDexVec : List DexFile) (st : ResolveState) (a b : ClassRef)
    (ha : ¬ st.known a) (hb : ¬ st.known b)
    (hab : superOf mDexVec a = some b) (hba : superOf mDexVec b = some a) :
    ∀ k, callAt mDexVec st k a ≠ none ∧ callAt mDexVec st k b ≠ none := by
  have ha' : (st.mResolvedClassMap.lookup a).isSome = false := not_known_eq st ha
  have hb' : (st.mResolvedClassMap.lookup b).isSome = false := not_known_eq st hb
  intro k
  induction k with
  | zero => simp [callAt]
  | succ k ih =>
    constructor
    · have : callAt mDexVec st (k + 1) a = callAt mDexVec st k b := by
        simp [callAt, ha', hab]
      rw [this]; exact ih.2
    · have : callAt mDexVec st (k + 1) b = callAt mDexVec st k a := by
        simp [callAt, hb', hba]
      rw [this]; exact ih.1

/-- Claim C21.  When `resolveClass` returns on a class that was not memoized, the
memo entry of the class is the own visible field table (the result of
`generateFieldTable`) if no superclass is found among the loaded files; if one
is found, it is the sorted concatenation of the own table with the memo entry of
the superclass, hence a permutation of that concatenation.  The memo entry of
every class that was memoized before the call is unchanged. -/
theorem resolveClass_memo_entry (srt : ResolvedFieldTable → ResolvedFieldTable) (junk : Nat)
    (mDexVec : List DexFile) (hsrt : StdSortSpec srt) (fuel : Nat) (ref : ClassRef)
    (st st' : ResolveState) (h : resolveClass srt junk mDexVec fuel ref st = some st')
    (hk : ¬ st.known ref) :
    ∃ table, st'.mResolvedClassMap.lookup ref = some table ∧
      (superOf mDexVec ref = none → table = ownTable srt junk mDexVec ref) ∧
      (∀ s, superOf mDexVec ref = some s →
        ∃ parent, st'.mResolvedClassMap.lookup s = some parent ∧
          table = srt (ownTable srt junk mDexVec ref ++ parent) ∧
          table.Perm (ownTable srt junk mDexVec ref ++ parent)) ∧
      (∀ k, st.known k → st'.mResolvedClassMap.lookup k = st.mResolvedClassMap.lookup k) := by
  have hpres := resolveClass_preserves srt junk mDexVec fuel ref st st' h
  cases hs : superOf mDexVec ref with
  | none =>
    rcases resolveClass_cases srt junk mDexVec h hk with ⟨_, rfl⟩ | ⟨s, _, _, _, hs', _, _⟩
    · refine ⟨_, lookup_cons_self _ _ _, fun _ => rfl, ?_, hpres⟩
      intro s hs'
      cases hs'
    · rw [hs] at hs'; cases hs'
  | some s =>
    obtain ⟨st1, f1, pt, hf, h1, hpt, hnk, rfl⟩ := resolveClass_step srt junk mDexVec h hk hs
    refine ⟨_, lookup_cons_self _ _ _, ?_, ?_, hpres⟩
    · intro h0
      cases h0
    intro s' hs'
    cases hs'
    have hne : s ≠ ref := by
      intro e
      apply hnk
      rw [← e]
      exact resolveClass_self_known srt junk mDexVec _ _ _ _ h1
    refine ⟨pt, ?_, rfl, (hsrt _).1⟩
    simp only
    rw [lookup_cons_ne hne]
    exact hpt

set_option maxRecDepth 100000 in
/-- The class `LMid;` of the three-class file, resolved in the state in which
`LBase;` is memoized: the entry of `LMid;` is a permutation of its own table
followed by the entry of `LBase;`, and the entry of `LBase;` is unchanged. -/
theorem resolveClass_memo_entry_witness :
    resolveClass insertionSortFields 0 [chainDex [1]] 2 (0, 1) chainBaseResolved
      = some chainMidResolved ∧
    ownTable insertionSortFields 0 [chainDex [1]] (0, 1) = [exampleField txtMid] ∧
    ∃ table, chainMidResolved.mResolvedClassMap.lookup (0, 1) = some table ∧
      (superOf [chainDex [1]] (0, 1) = none →
        table = ownTable insertionSortFields 0 [chainDex [1]] (0, 1)) ∧
      (∀ s, superOf [chainDex [1]] (0, 1) = some s →
        ∃ parent, chainMidResolved.mResolvedClassMap.lookup s = some parent ∧
          table = insertionSortFields (ownTable insertionSortFields 0 [chainDex [1]] (0, 1)
            ++ parent) ∧
          table.Perm (ownTable insertionSortFields 0 [chainDex [1]] (0, 1) ++ parent)) ∧
      (∀ k, chainBaseResolved.known k → chainMidResolved.mResolvedClassMap.lookup k
        = chainBaseResolved.mResolvedClassMap.lookup k) :=
  ⟨by decide, by decide,
   resolveClass_memo_entry insertionSortFields 0 [chainDex [1]] insertionSortFields_spec 2 (0, 1)
     chainBaseResolved chainMidResolved (by decide) (by unfold ResolveState.known; decide)⟩

/-- Claim C22.  `resolveClass` on `ref` returns for some recursion depth if and
only if the chain of nested calls from `ref` (each step taken by
`findClassByName` on the superclass descriptor of a class that is not memoized)
does not come back to a class it has passed; it then returns within a depth of
the number of loaded class definitions plus one.  On return the memo holds
every class of the chain, it holds the loaded superclass of every class it holds
if it did so before, and then every loaded ancestor of `ref`; the memo entry of
the superclass is present when the call reads it.  For two classes that are not
memoized and name each other as superclass, or one that names itself, the call
returns for no recursion depth. -/
theorem resolveClass_terminates_iff (srt : ResolvedFieldTable → ResolvedFieldTable) (junk : Nat)
    (mDexVec : List DexFile) (ref : ClassRef) (st : ResolveState) :
    ((∃ fuel st', resolveClass srt junk mDexVec fuel ref st = some st') ↔
      ¬ chainRevisits mDexVec st ref) ∧
    (¬ chainRevisits mDexVec st ref →
      ∃ st', resolveClass srt junk mDexVec ((loadedClasses mDexVec).length + 1) ref st
        = some st') ∧
    (∀ fuel st', resolveClass srt junk mDexVec fuel ref st = some st' →
      (∀ k c, callAt mDexVec st k ref = some c → st'.known c) ∧
      (memoClosed mDexVec st → memoClosed mDexVec st' ∧
        ∀ n a, ancestorAt mDexVec n ref = some a → st'.known a) ∧
      (∀ s, ¬ st.known ref → superOf mDexVec ref = some s →
        ∃ st1 fuel1 parentTable, fuel = fuel1 + 1 ∧
          resolveClass srt junk mDexVec fuel1 s st = some st1 ∧
          st1.mResolvedClassMap.lookup s = some parentTable)) ∧
    (∀ a b, ¬ st.known a → ¬ st.known b → superOf mDexVec a = some b →
      superOf mDexVec b = some a →
      ∀ fuel, resolveClass srt junk mDexVec fuel a st = none) := by
  have hbound : ¬ chainRevisits mDexVec st ref →
      ∃ st', resolveClass srt junk mDexVec ((loadedClasses mDexVec).length + 1) ref st
        = some st' := by
    intro hno
    have := (resolveClass_isSome_iff srt junk mDexVec st _ ref).2
      (callAt_bounded mDexVec st ref hno)
    exact Option.isSome_iff_exists.1 this
  refine ⟨⟨?_, fun hno => ⟨_, hbound hno⟩⟩, hbound, ?_, ?_⟩
  · rintro ⟨fuel, st', h⟩ hrev
    have h1 : (resolveClass srt junk mDexVec fuel ref st).isSome = true := by rw [h]; rfl
    exact callAt_revisit_ne_none mDexVec st ref hrev fuel
      ((resolveClass_isSome_iff srt junk mDexVec st fuel ref).1 h1)
  · intro fuel st' h
    refine ⟨resolveClass_chain_known srt junk mDexVec fuel ref st st' h, ?_, ?_⟩
    · intro hcl
      have hcl' := resolveClass_closed srt junk mDexVec fuel ref st st' h hcl
      exact ⟨hcl', fun n a => ancestors_known mDexVec st' hcl' n ref a
        (resolveClass_self_known srt junk mDexVec _ _ _ _ h)⟩
    · intro s hk hs
      obtain ⟨st1, f1, pt, hf, h1, hpt, _, _⟩ := resolveClass_step srt junk mDexVec h hk hs
      exact ⟨st1, f1, pt, hf, h1, hpt⟩
  · intro a b ha hb hab hba fuel
    have hne := (callAt_cycle mDexVec st a b ha hb hab hba fuel).1
    cases hr : resolveClass srt junk mDexVec fuel a st with
    | none => rfl
    | some st' =>
      have h1 : (resolveClass srt junk mDexVec fuel a st).isSome = true := by rw [hr]; rfl
      exact absurd ((resolveClass_isSome_iff srt junk mDexVec st fuel a).1 h1) hne

set_option maxRecDepth 100000 in
/-- In the file with the two-class cycle and in the file with the self-referring
class the call returns for no recursion depth; in the three-class file the
chain from `LSub;` passes `LSub;`, `LMid;`, `LBase;` without coming back, and
the call returns within depth 4. -/
theorem resolveClass_terminates_iff_witness :
    (∀ fuel, resolveClass insertionSortFields 0 [cycleDex] fuel (0, 0) ResolveState.initial
      = none) ∧
    (∀ fuel, resolveClass insertionSortFields 0 [selfDex] fuel (0, 0) ResolveState.initial
      = none) ∧
    ¬ chainRevisits [chainDex [1]] ResolveState.initial (0, 2) ∧
    (loadedClasses [chainDex [1]]).length + 1 = 4 ∧
    (resolveClass insertionSortFields 0 [chainDex [1]] 4 (0, 2) ResolveState.initial).isSome
      = true :=
  ⟨(resolveClass_terminates_iff insertionSortFields 0 [cycleDex] (0, 0) ResolveState.initial).2.2.2
      (0, 0) (0, 1) (by unfold ResolveState.known; decide) (by unfold ResolveState.known; decide)
      (by decide) (by decide),
   (resolveClass_terminates_iff insertionSortFields 0 [selfDex] (0, 0) ResolveState.initial).2.2.2
      (0, 0) (0, 0) (by unfold ResolveState.known; decide) (by unfold ResolveState.known; decide)
      (by decide) (by decide),
   (resolveClass_terminates_iff insertionSortFields 0 [chainDex [1]] (0, 2)
      ResolveState.initial).1.1
      ⟨3, _, (by decide : resolveClass insertionSortFields 0 [chainDex [1]] 3 (0, 2)
        ResolveState.initial = some
          { mResolvedClassMap :=
              [((0, 2), [exampleField txtSub, exampleField txtMid, exampleField txtBase]),
               ((0, 1), [exampleField txtMid, exampleField txtBase]),
               ((0, 0), [exampleField txtBase])]
            outVec := [(exampleField txtMid, exampleField txtBase),
                       (exampleField txtSub, exampleField txtMid)]
            decoded := [(0, 0), (0, 1), (0, 2)] })⟩,
   by decide, by decide⟩

/-! ## Claims on the five-byte bound of the decoder -/

theorem loop_ahead (c : List Nat) : ∀ (fuel count result cur : Nat) (inp : BytesInput),
    fuel + count = 5 → isULEB128From count c = true → result < 2 ^ (7 * count) →
    inp.mCursor + c.length ≤ inp.mLength →
    (∀ i, i < c.length → byteAt inp.mBuff (inp.mCursor + i) = c.getD i 0) →
    readAsULEB128Loop fuel inp result count cur
      = (inp.advance c.length, (result + ulebValueFrom count c) % 2 ^ 32) := by
  induction c with
  | nil => intro fuel count result cur inp _ h; simp [isULEB128From] at h
  | cons b rest ih =>
    intro fuel count result cur inp hf hwf hres hlen hbytes
    have hlt : inp.mCursor < inp.mLength := by simp at hlen; omega
    have hb' : byteAt inp.mBuff inp.mCursor = b := by
      have := hbytes 0 (by simp)
      simpa using this
    have h7f : b &&& 0x7f = b % 128 := Nat.and_pow_two_sub_one_eq_mod b 7
    cases rest with
    | nil =>
      simp only [isULEB128From, Bool.and_eq_true, Bool.or_eq_true, decide_eq_true_eq] at hwf
      obtain ⟨⟨hb256, hlast⟩, hpos⟩ := hwf
      obtain ⟨fuel, rfl⟩ : ∃ k, fuel = k + 1 := ⟨fuel - 1, by omega⟩
      have h80 : ¬ (b &&& 0x80 = 128 ∧ count + 1 < 5) := by
        rw [and_0x80 b hb256]; omega
      simp only [readAsULEB128Loop, readU1_eq, hlt, if_true, hb', h7f, h80, if_false,
        List.length_cons, List.length_nil, ulebValueFrom]
      rw [uleb_step_last count result b hpos hres]
      simp
    | cons b' rest' =>
      simp only [isULEB128From, Bool.and_eq_true, decide_eq_true_eq] at hwf
      obtain ⟨⟨hb128, hb256, hpos⟩, hwf'⟩ := hwf
      obtain ⟨fuel, rfl⟩ : ∃ k, fuel = k + 1 := ⟨fuel - 1, by omega⟩
      have h80 : (b &&& 0x80 = 128 ∧ count + 1 < 5) := by
        rw [and_0x80 b hb256]; omega
      obtain ⟨hval, hbound⟩ := uleb_step_more count result b hpos hres
      simp only [readAsULEB128Loop, readU1_eq, hlt, if_true, hb', h7f, h80, and_self]
      rw [hval, ih fuel (count + 1) _ b (inp.advance 1) (by omega) hwf' hbound
        (by simp [BytesInput.advance] at hlen ⊢; omega)
        (by
          intro i hi
          have := hbytes (i + 1) (by simp at hi ⊢; omega)
          simp only [BytesInput.advance]
          rw [show inp.mCursor + 1 + i = inp.mCursor + (i + 1) by omega, this]
          simp)]
      simp only [advance_advance, ulebValueFrom, List.length_cons, Nat.add_assoc]
      congr 2
      omega

set_option maxRecDepth 20000 in
theorem and_0x80_zero : ∀ b < 256, (b &&& 0x80 = 0) ↔ b < 128 := by
  decide

/-- Claim C23.  On a cursor with at least five bytes `b0..b4` left,
`readAsULEB128` advances the cursor by exactly `k` bytes, `k` being one plus the
index of the first of `b0..b4` whose high bit is clear, or 5 if all five have it
set, and returns the sum over `i < k` of `(b_i & 0x7f) * 2^(7i)` modulo `2^32`;
`k` is at most 5, so a sixth byte is never consumed. -/
theorem readAsULEB128_five_bytes (inp : BytesInput) (junk : Nat)
    (h : inp.mCursor + 5 ≤ inp.mLength) :
    readAsULEB128 inp junk
      = (inp.advance (ulebLength inp.peek), ulebSum inp.peek (ulebLength inp.peek)) ∧
    1 ≤ ulebLength inp.peek ∧ ulebLength inp.peek ≤ 5 ∧
    (readAsULEB128 inp junk).1.mCursor ≤ inp.mCursor + 5 := by
  have key : ∀ k, 1 ≤ k → k ≤ 5 → ulebLength inp.peek = k →
      isULEB128From 0 ((List.range k).map inp.peek) = true →
      ulebValue ((List.range k).map inp.peek) = ulebSum inp.peek k →
      readAsULEB128 inp junk
        = (inp.advance (ulebLength inp.peek), ulebSum inp.peek (ulebLength inp.peek)) ∧
      1 ≤ ulebLength inp.peek ∧ ulebLength inp.peek ≤ 5 ∧
      (readAsULEB128 inp junk).1.mCursor ≤ inp.mCursor + 5 := by
    intro k h1 h5 hk hwf hval
    have hrun : readAsULEB128 inp junk = (inp.advance k, ulebSum inp.peek k) := by
      unfold readAsULEB128
      rw [loop_ahead ((List.range k).map inp.peek) 5 0 0 junk inp rfl hwf (by norm_num)
        (by simp; omega)
        (by
          intro i hi
          simp at hi
          simp [BytesInput.peek, hi])]
      simp only [List.length_map, List.length_range, Nat.zero_add]
      rw [← hval]; rfl
    rw [hk, hrun]
    exact ⟨rfl, h1, h5, by simp [BytesInput.advance]; omega⟩
  have hb : ∀ i, inp.peek i < 256 := fun i => byteAt_lt _ _
  have e7 : ∀ b, b &&& 0x7f = b % 128 := fun b => Nat.and_pow_two_sub_one_eq_mod b 7
  have hz : ∀ i, (inp.peek i &&& 0x80 = 0) ↔ inp.peek i < 128 :=
    fun i => and_0x80_zero _ (hb i)
  have r5 : List.range 5 = [0, 1, 2, 3, 4] := by decide
  by_cases h0 : inp.peek 0 < 128
  · apply key 1 (by omega) (by omega)
    · simp [ulebLength, r5, hz, h0]
    · simp [List.range_succ, isULEB128From, hb, h0]
    · simp [List.range_succ, ulebValue, ulebValueFrom, ulebSum, e7]
  · by_cases h1 : inp.peek 1 < 128
    · apply key 2 (by omega) (by omega)
      · simp [ulebLength, r5, hz, h0, h1]
      · simp [List.range_succ, isULEB128From, hb, h1]; omega
      · simp [List.range_succ, ulebValue, ulebValueFrom, ulebSum, e7]
    · by_cases h2 : inp.peek 2 < 128
      · apply key 3 (by omega) (by omega)
        · simp [ulebLength, r5, hz, h0, h1, h2]
        · simp [List.range_succ, isULEB128From, hb, h2]; omega
        · simp [List.range_succ, ulebValue, ulebValueFrom, ulebSum, e7]
      · by_cases h3 : inp.peek 3 < 128
        · apply key 4 (by omega) (by omega)
          · simp [ulebLength, r5, hz, h0, h1, h2, h3]
          · simp [List.range_succ, isULEB128From, hb, h3]; omega
          · simp [List.range_succ, ulebValue, ulebValueFrom, ulebSum, e7]
        · apply key 5 (by omega) (by omega)
          · by_cases h4 : inp.peek 4 < 128
            · simp [ulebLength, r5, hz, h0, h1, h2, h3, h4]
            · simp [ulebLength, r5, hz, h0, h1, h2, h3, h4]
          · simp [List.range_succ, isULEB128From, hb]; omega
          · simp [List.range_succ, ulebValue, ulebValueFrom, ulebSum, e7]

set_option maxRecDepth 100000 in
/-- Six bytes `ff ff ff ff ff 01` at the cursor: the call consumes five of them
and returns `0xffffffff`; the sixth byte stays unread. -/
theorem readAsULEB128_five_bytes_witness :
    (0 : Nat) + 5 ≤ 6 ∧
    ulebLength (BytesInput.peek ⟨[0xff, 0xff, 0xff, 0xff, 0xff, 0x01], 6, 0⟩) = 5 ∧
    ulebSum (BytesInput.peek ⟨[0xff, 0xff, 0xff, 0xff, 0xff, 0x01], 6, 0⟩) 5 = 0xffffffff ∧
    readAsULEB128 ⟨[0xff, 0xff, 0xff, 0xff, 0xff, 0x01], 6, 0⟩ 0
      = (⟨[0xff, 0xff, 0xff, 0xff, 0xff, 0x01], 6, 5⟩, 0xffffffff) :=
  ⟨by decide, by decide, by decide,
   (readAsULEB128_five_bytes ⟨[0xff, 0xff, 0xff, 0xff, 0xff, 0x01], 6, 0⟩ 0 (by decide)).1.trans
     (by decide)⟩

end SuperChain
